import Mathlib

/-!
# eFSM: a table-driven finite state machine engine

A shallow embedding of `include/fsm.h` and `src/fsm.c`, followed by theorems
about the embedded functions.

Conventions of the embedding.

* A `uint32_t` is a `Nat`; the places where the C arithmetic can wrap
  (`n - 1`, `history_index + 1`) go through `sub32` and `add32`.
* A pointer that the code tests against `NULL` is an `Option`: `none` is
  `NULL`, `some v` is a pointer to an object whose contents are `v`.
* A C array is a `List`; a read or write outside the list is undefined
  behaviour in C and makes the embedded function return `none`.
* An event handler is a function pointer.  Function pointers are values of a
  type `H`; what the pointed-to code does is given by a map
  `code : H → handler_sem H U`, where `U` is the memory of the caller (the
  objects behind `p2event` and `p2parm`, globals).  A handler receives the
  instance and the caller's memory and hands both back, so everything a handler
  can do to the instance (arm an override, release it) is visible.
* The three tables of the caller are borrowed by the instance and are not
  written by any function of `fsm.c`; the instance holds them by value.
* A function of `fsm.c` that writes the instance returns the instance after
  the call.  The three functions that only read (`fsm_get_state`,
  `fsm_show_history`, `fsm_display_table`) are embedded twice: once as the
  value they produce, and once, under the suffix `_world`, statement by
  statement as a transformer of everything they can reach (the instance behind
  the handle, the variable behind `p2state`, the console).
-/

namespace EFSM

/-! ## Machine integers -/

/-- Number of values of a `uint32_t`. -/
def UINT32_MOD : Nat := 4294967296

/-- Unsigned 32-bit addition. -/
def add32 (a b : Nat) : Nat := (a + b) % UINT32_MOD

/-- Unsigned 32-bit subtraction: wraps around below zero. -/
def sub32 (a b : Nat) : Nat := (a % UINT32_MOD + UINT32_MOD - b % UINT32_MOD) % UINT32_MOD

/-! ## fsm.h -/

/-- Return codes of the API and of the event handlers (`RC_FSM_t`). -/
inductive RC_FSM_t where
  | RC_FSM_OK
  | RC_FSM_NULL
  | RC_FSM_INVALID_HANDLE
  | RC_FSM_INVALID_EVENT_HANDLER
  | RC_FSM_INVALID_STATE_TABLE
  | RC_FSM_INVALID_STATE
  | RC_FSM_INVALID_EVENT_TABLE
  | RC_FSM_INVALID_EVENT
  | RC_FSM_NO_RESOURCES
  | RC_FSM_IGNORE_EVENT
  | RC_FSM_STOP_PROCESSING
  deriving DecidableEq, Repr

open RC_FSM_t

/-- The macro `FSM_NULL_STATE_ID` is `( -1 )`; every use converts it to `uint32_t`. -/
def FSM_NULL_STATE_ID : Nat := 4294967295

/-- The macro `FSM_NULL_EVENT_ID` is `( -1 )`; every use converts it to `uint32_t`. -/
def FSM_NULL_EVENT_ID : Nat := 4294967295

/-- Entry of the event description table. -/
structure event_description_t where
  event_id : Nat
  description : Option String
  deriving DecidableEq, Repr

/-- Entry of the state description table. -/
structure state_description_t where
  state_id : Nat
  description : Option String
  deriving DecidableEq, Repr

/-- Transition tuple; `event_handler = none` is the `NULL` handler. -/
structure event_tuple_t (H : Type) where
  eventID : Nat
  event_handler : Option H
  next_state : Nat
  deriving DecidableEq, Repr

/-- Entry of the state table; `p2event_tuple = none` is a `NULL` tuple array. -/
structure state_tuple_t (H : Type) where
  state_id : Nat
  p2event_tuple : Option (List (event_tuple_t H))
  deriving DecidableEq, Repr

/-- Historical record of a state change. -/
structure fsm_history_t where
  number : Nat
  prevStateID : Nat
  stateID : Nat
  eventID : Nat
  handler_rc : RC_FSM_t
  deriving DecidableEq, Repr

def FSM_HISTORY : Nat := 64

def FSM_TAG : Nat := 0xba5eba11

def FSM_NAME_LEN : Nat := 32

/-- Modelled from the spec: `boolean_t`, `TRUE` and `FALSE` come from
`safe_types.h`, which is not among the sources; the spec describes the field
`exception_state_indicator` as an "override armed" flag, so it is a `Bool`. -/
abbrev boolean_t : Type := Bool

/-- The finite state machine structure. -/
structure fsm_t (H : Type) where
  tag : Nat
  curr_state : Nat
  next_state : Nat
  exception_state : Nat
  exception_state_indicator : boolean_t
  fsm_name : List Char
  number_states : Nat
  number_events : Nat
  flags : Nat
  state_table : List (state_tuple_t H)
  state_description_table : List state_description_t
  event_description_table : List event_description_t
  history_index : Nat
  history : List fsm_history_t
  deriving DecidableEq, Repr

/-! ## fsm.c -/

def FSM_MAX_STATES : Nat := 64

def FSM_MAX_EVENTS : Nat := 64

/-- What the code behind an `event_cb_t` does: called with the two pointers
that `fsm_engine` passes through, in a world made of the instance and the
caller's memory, it returns a code and leaves a world.  The instance it leaves
is `none` when the handler has released it (`fsm_destroy`). -/
abbrev handler_sem (H U : Type) : Type :=
  Nat → Nat → fsm_t H × U → RC_FSM_t × Option (fsm_t H) × U

/-- The function `fsm_get_state`.  The argument `p2state` is the variable
behind the pointer: `none` for a `NULL` pointer, `some v` for a variable
holding `v`; the result carries the variable after the call.  Writing through
a `NULL` `p2state` is undefined. -/
def fsm_get_state {H : Type} (fsm : Option (fsm_t H)) (p2state : Option Nat) :
    Option (RC_FSM_t × Option Nat) :=
  match fsm with
  | none => some (RC_FSM_NULL, p2state)
  | some f =>
    if f.tag ≠ FSM_TAG then some (RC_FSM_INVALID_HANDLE, p2state)
    else
      match p2state with
      | none => none
      | some _ => some (RC_FSM_OK, some f.curr_state)

/-- The function `fsm_set_exception_state`; the result carries the instance after the call. -/
def fsm_set_exception_state {H : Type} (fsm : Option (fsm_t H)) (exception_state : Nat) :
    RC_FSM_t × Option (fsm_t H) :=
  match fsm with
  | none => (RC_FSM_NULL, none)
  | some f =>
    if f.tag ≠ FSM_TAG then (RC_FSM_INVALID_HANDLE, some f)
    else if exception_state > sub32 f.number_states 1 then (RC_FSM_INVALID_STATE, some f)
    else
      (RC_FSM_OK,
        some { f with exception_state := exception_state, exception_state_indicator := true })

/-- The function `fsm_destroy`.  The argument is the handle variable behind
`fsm_t **fsm`: `none` for a `NULL` pointer, `some handle` for a handle variable
holding `handle`.  The code reads `p2fsm->tag` without testing `p2fsm`. -/
def fsm_destroy {H : Type} (fsm : Option (Option (fsm_t H))) :
    Option (RC_FSM_t × Option (Option (fsm_t H))) :=
  match fsm with
  | none => some (RC_FSM_NULL, none)
  | some p2fsm =>
    match p2fsm with
    | none => none
    | some f =>
      if f.tag ≠ FSM_TAG then some (RC_FSM_INVALID_HANDLE, some (some f))
      else some (RC_FSM_OK, some none)

/-- The state description scan of `fsm_create` (the first `for` loop), from
index `i` with `fuel` iterations left before `i` reaches `FSM_MAX_STATES`.
`some (.ok n)`: the loop ended with `number_states = n`;
`some (.error rc)`: the function returned `rc` from inside the loop. -/
def scan_state_description {H : Type} (state_description_table : List state_description_t)
    (state_table : List (state_tuple_t H)) :
    Nat → Nat → Nat → Option (Except RC_FSM_t Nat)
  | 0, _, number_states => some (.ok number_states)
  | fuel + 1, i, number_states =>
    match state_description_table[i]? with
    | none => none
    | some d =>
      if d.state_id ≠ FSM_NULL_STATE_ID then
        if d.state_id = i then
          match state_table[i]? with
          | none => none
          | some s =>
            if s.state_id = i ∧ s.p2event_tuple.isSome then
              scan_state_description state_description_table state_table fuel (i + 1)
                (number_states + 1)
            else some (.error RC_FSM_INVALID_STATE_TABLE)
        else some (.error RC_FSM_INVALID_STATE_TABLE)
      else some (.ok number_states)

/-- The event description scan of `fsm_create` (the second `for` loop). -/
def scan_event_description (event_description_table : List event_description_t) :
    Nat → Nat → Nat → Option (Except RC_FSM_t Nat)
  | 0, _, number_events => some (.ok number_events)
  | fuel + 1, i, number_events =>
    match event_description_table[i]? with
    | none => none
    | some d =>
      if d.event_id = FSM_NULL_EVENT_ID then some (.ok number_events)
      else if d.event_id ≠ i then some (.error RC_FSM_INVALID_EVENT_TABLE)
      else scan_event_description event_description_table fuel (i + 1) (number_events + 1)

/-- The inner loop of the tuple verification of `fsm_create`: `j` runs up to
`number_events` over the tuple array `event_ptr` of one state; `true` when no
tuple made the function return. -/
def verify_event_tuples {H : Type} (event_ptr : Option (List (event_tuple_t H))) :
    Nat → Nat → Option Bool
  | 0, _ => some true
  | fuel + 1, j =>
    match event_ptr with
    | none => none
    | some tuples =>
      match tuples[j]? with
      | none => none
      | some t =>
        if j ≠ t.eventID then some false
        else verify_event_tuples event_ptr fuel (j + 1)

/-- The outer loop of the tuple verification of `fsm_create`: `i` runs up to
`number_states`. -/
def verify_state_table {H : Type} (state_table : List (state_tuple_t H)) (number_events : Nat) :
    Nat → Nat → Option Bool
  | 0, _ => some true
  | fuel + 1, i =>
    match state_table[i]? with
    | none => none
    | some state_ptr =>
      match verify_event_tuples state_ptr.p2event_tuple number_events 0 with
      | none => none
      | some false => some false
      | some true => verify_state_table state_table number_events fuel (i + 1)

/-- The history initialisation loop of `fsm_create`; the field `number` of a
slot is not written. -/
def init_history : List fsm_history_t → Nat → Nat → Option (List fsm_history_t)
  | history, 0, _ => some history
  | history, fuel + 1, i =>
    match history[i]? with
    | none => none
    | some slot =>
      init_history
        (history.set i
          { slot with
            prevStateID := FSM_NULL_STATE_ID
            stateID := FSM_NULL_STATE_ID
            eventID := FSM_NULL_EVENT_ID
            handler_rc := RC_FSM_NULL })
        fuel (i + 1)

/-- The library function `strncpy` into a buffer of `n` characters, from a C
string given without its terminator: at most `n` characters are copied and
the rest of the buffer is filled with NUL. -/
def strncpy (src : List Char) (n : Nat) : List Char :=
  src.take n ++ List.replicate (n - src.length) (Char.ofNat 0)

/-- What the two `malloc` calls of `fsm_create` return: `none` is `NULL`,
`some` is a fresh block.  `fsm_block` is the block for the instance with its
indeterminate contents; `history_block i` is the indeterminate contents of
slot `i` of the block of `FSM_HISTORY` history records. -/
structure malloc_t (H : Type) where
  fsm_block : Option (fsm_t H)
  history_block : Option (Nat → fsm_history_t)

/-- The function `fsm_create`.  The argument `fsm` is the handle variable behind
`fsm_t **fsm` (`none`: `NULL` pointer); the result carries the return code and
the handle variable after the call.  Every `free(temp_fsm); return rc;` leaves
the handle variable as it was. -/
def fsm_create {H : Type} (fsm : Option (Option (fsm_t H))) (name : Option String)
    (initial_state : Nat)
    (state_description_table : Option (List state_description_t))
    (event_description_table : Option (List event_description_t))
    (state_table : Option (List (state_tuple_t H)))
    (heap : malloc_t H) : Option (RC_FSM_t × Option (Option (fsm_t H))) :=
  match fsm with
  | none => some (RC_FSM_NULL, none)
  | some _ =>
  match state_description_table with
  | none => some (RC_FSM_INVALID_STATE_TABLE, fsm)
  | some sd =>
  match event_description_table with
  | none => some (RC_FSM_INVALID_EVENT_TABLE, fsm)
  | some ed =>
  match state_table with
  | none => some (RC_FSM_INVALID_STATE_TABLE, fsm)
  | some st =>
  match heap.fsm_block with
  | none => some (RC_FSM_NO_RESOURCES, fsm)
  | some block =>
    let temp_fsm : fsm_t H :=
      { block with
        fsm_name :=
          match name with
          | some s => strncpy s.toList FSM_NAME_LEN
          | none => strncpy "State Machine".toList FSM_NAME_LEN
        tag := FSM_TAG
        curr_state := initial_state
        next_state := initial_state
        exception_state_indicator := false
        state_description_table := sd
        event_description_table := ed
        state_table := st }
    match scan_state_description sd st FSM_MAX_STATES 0 0 with
    | none => none
    | some (.error rc) => some (rc, fsm)
    | some (.ok number_states) =>
      if number_states < 1 ∨ number_states > FSM_MAX_STATES - 1 then
        some (RC_FSM_INVALID_STATE_TABLE, fsm)
      else if initial_state > sub32 number_states 1 then
        some (RC_FSM_INVALID_STATE, fsm)
      else
        match scan_event_description ed FSM_MAX_EVENTS 0 0 with
        | none => none
        | some (.error rc) => some (rc, fsm)
        | some (.ok number_events) =>
          if number_events < 1 ∨ number_events > FSM_MAX_EVENTS - 1 then
            some (RC_FSM_INVALID_EVENT_TABLE, fsm)
          else
            match verify_state_table st number_events number_states 0 with
            | none => none
            | some false => some (RC_FSM_INVALID_EVENT_TABLE, fsm)
            | some true =>
              match heap.history_block with
              | none => some (RC_FSM_NO_RESOURCES, fsm)
              | some garbage =>
                match init_history ((List.range FSM_HISTORY).map garbage) FSM_HISTORY 0 with
                | none => none
                | some history =>
                  some (RC_FSM_OK,
                    some (some
                      { temp_fsm with
                        number_states := number_states
                        number_events := number_events
                        history_index := 0
                        history := history }))

/-- The tuple behind `&state_table[state].p2event_tuple[event]`: reading it
fails when `state` is outside the state table, when the tuple array of the
state is `NULL`, or when `event` is outside the tuple array. -/
def event_ptr_at {H : Type} (state_table : List (state_tuple_t H)) (state event : Nat) :
    Option (event_tuple_t H) :=
  match state_table[state]? with
  | none => none
  | some state_ptr =>
    match state_ptr.p2event_tuple with
    | none => none
    | some tuples => tuples[event]?

/-- The internal routine `fsm_record_history`. -/
def fsm_record_history {H : Type} (fsm : fsm_t H) (normalized_event nextState : Nat)
    (handler_rc : RC_FSM_t) : Option (fsm_t H) :=
  let history_index := add32 fsm.history_index 1 % FSM_HISTORY
  match fsm.history[history_index]? with
  | none => none
  | some slot =>
    some
      { fsm with
        history_index := history_index
        history :=
          fsm.history.set history_index
            { slot with
              prevStateID := fsm.curr_state
              stateID := nextState
              eventID := normalized_event
              handler_rc := handler_rc } }

/-- The function `fsm_engine`.  The argument `code` gives the behaviour of the
handlers, `mem` is the caller's memory before the call; the result carries the
return code, the instance after the call (`none`: no instance, a `NULL` handle
or an instance released by the handler) and the caller's memory after the
call.  The tuple `event_ptr` is read from the caller's table, which no
function of `fsm.c` writes. -/
def fsm_engine {H U : Type} (code : H → handler_sem H U) (fsm : Option (fsm_t H))
    (normalized_event : Nat) (p2event_buffer p2parm : Nat) (mem : U) :
    Option (RC_FSM_t × Option (fsm_t H) × U) :=
  match fsm with
  | none => some (RC_FSM_NULL, none, mem)
  | some f =>
    if f.tag ≠ FSM_TAG then some (RC_FSM_INVALID_HANDLE, some f, mem)
    else if normalized_event > sub32 f.number_events 1 then
      match fsm_record_history f normalized_event f.curr_state RC_FSM_INVALID_EVENT with
      | none => none
      | some f1 => some (RC_FSM_INVALID_EVENT, some f1, mem)
    else
      match event_ptr_at f.state_table f.curr_state normalized_event with
      | none => none
      | some event_ptr =>
        match event_ptr.event_handler with
        | none =>
          match fsm_record_history f normalized_event event_ptr.next_state
              RC_FSM_INVALID_EVENT_HANDLER with
          | none => none
          | some f1 => some (RC_FSM_OK, some f1, mem)
        | some event_handler =>
          match code event_handler p2event_buffer p2parm (f, mem) with
          | (rc, inst, mem1) =>
            if rc = RC_FSM_STOP_PROCESSING then some (rc, inst, mem1)
            else
              match inst with
              | none => none
              | some f1 =>
                if rc ≠ RC_FSM_OK then
                  match fsm_record_history f1 normalized_event event_ptr.next_state rc with
                  | none => none
                  | some f2 => some (rc, some f2, mem1)
                else
                  let f2 : fsm_t H :=
                    if f1.exception_state_indicator then
                      { f1 with
                        exception_state_indicator := false
                        next_state := f1.exception_state }
                    else { f1 with next_state := event_ptr.next_state }
                  if f2.next_state > sub32 f2.number_states 1 then
                    match fsm_record_history f2 normalized_event f2.next_state
                        RC_FSM_INVALID_STATE with
                    | none => none
                    | some f3 => some (RC_FSM_INVALID_STATE, some f3, mem1)
                  else
                    match fsm_record_history f2 normalized_event f2.next_state rc with
                    | none => none
                    | some f3 => some (rc, some { f3 with curr_state := f3.next_state }, mem1)

/-- One record line printed by `fsm_show_history`: the three ids, each with
the description read from the description table at that id, and the handler
result. -/
structure history_line where
  prevStateID : Nat
  prev_description : Option String
  eventID : Nat
  event_description : Option String
  stateID : Nat
  state_description : Option String
  handler_rc : RC_FSM_t
  deriving DecidableEq, Repr

/-- The `for` loop of `fsm_show_history`, from index `i` with `fuel` iterations
left before `i` reaches `FSM_HISTORY`; the result is the sequence of record
lines printed.  The slot is read at index `i`; the variable `j` starts at the
write index and is stepped backwards with wrap-around after every printed
record, and is used for nothing else. -/
def show_history_loop {H : Type} (fsm : fsm_t H) :
    Nat → Nat → Nat → Option (List history_line)
  | 0, _, _ => some []
  | fuel + 1, i, j =>
    match fsm.history[i]? with
    | none => none
    | some history_ptr =>
      if history_ptr.stateID = FSM_NULL_STATE_ID then show_history_loop fsm fuel (i + 1) j
      else
        match fsm.state_description_table[history_ptr.prevStateID]? with
        | none => none
        | some prev =>
          match fsm.event_description_table[history_ptr.eventID]? with
          | none => none
          | some event =>
            match fsm.state_description_table[history_ptr.stateID]? with
            | none => none
            | some state =>
              match show_history_loop fsm fuel (i + 1)
                  (sub32 (if j = 0 then FSM_HISTORY else j) 1) with
              | none => none
              | some rest =>
                some
                  ({ prevStateID := history_ptr.prevStateID
                     prev_description := prev.description
                     eventID := history_ptr.eventID
                     event_description := event.description
                     stateID := history_ptr.stateID
                     state_description := state.description
                     handler_rc := history_ptr.handler_rc } :: rest)

/-- The function `fsm_show_history`.  The result is the sequence of record
lines it prints to the console (the title lines, which are fixed text around
the name, are left out); nothing is printed for a `NULL` handle or a wrong tag.
The instance is only read. -/
def fsm_show_history {H : Type} (fsm : Option (fsm_t H)) : Option (List history_line) :=
  match fsm with
  | none => some []
  | some f =>
    if f.tag ≠ FSM_TAG then some []
    else show_history_loop f FSM_HISTORY 0 f.history_index

/-- One transition line printed by `fsm_display_table`: the event id with the
description of the event, and the description of the next state of the tuple. -/
structure display_event_t where
  event : Nat
  event_description : Option String
  next_description : Option String
  deriving DecidableEq, Repr

/-- The block printed by `fsm_display_table` for one state: the description of
the state and its transition lines. -/
structure display_state_t where
  state_description : Option String
  events : List display_event_t
  deriving DecidableEq, Repr

/-- What `fsm_display_table` prints for an instance: the name, the two counts,
the description of the current state and one block for each state. -/
structure display_table_t where
  fsm_name : List Char
  number_states : Nat
  number_events : Nat
  curr_description : Option String
  states : List display_state_t
  deriving DecidableEq, Repr

/-- The inner `for` loop of `fsm_display_table`: `j` runs up to `number_events`
over the tuple array `event_ptr` of one state. -/
def display_events {H : Type} (fsm : fsm_t H) (event_ptr : Option (List (event_tuple_t H))) :
    Nat → Nat → Option (List display_event_t)
  | 0, _ => some []
  | fuel + 1, j =>
    match event_ptr with
    | none => none
    | some tuples =>
      match tuples[j]? with
      | none => none
      | some t =>
        match fsm.event_description_table[j]? with
        | none => none
        | some event =>
          match fsm.state_description_table[t.next_state]? with
          | none => none
          | some next =>
            match display_events fsm event_ptr fuel (j + 1) with
            | none => none
            | some rest =>
              some
                ({ event := j
                   event_description := event.description
                   next_description := next.description } :: rest)

/-- The outer `for` loop of `fsm_display_table`: `i` runs up to `number_states`. -/
def display_states {H : Type} (fsm : fsm_t H) : Nat → Nat → Option (List display_state_t)
  | 0, _ => some []
  | fuel + 1, i =>
    match fsm.state_table[i]? with
    | none => none
    | some state_ptr =>
      match fsm.state_description_table[state_ptr.state_id]? with
      | none => none
      | some state =>
        match display_events fsm state_ptr.p2event_tuple fsm.number_events 0 with
        | none => none
        | some events =>
          match display_states fsm fuel (i + 1) with
          | none => none
          | some rest =>
            some ({ state_description := state.description, events := events } :: rest)

/-- The function `fsm_display_table`.  The result is what it prints to the
console, `some none` when it returns without printing (a `NULL` handle or a
wrong tag).  The instance is only read. -/
def fsm_display_table {H : Type} (fsm : Option (fsm_t H)) : Option (Option display_table_t) :=
  match fsm with
  | none => some none
  | some f =>
    if f.tag ≠ FSM_TAG then some none
    else
      match f.state_description_table[f.curr_state]? with
      | none => none
      | some curr =>
        match display_states f f.number_states 0 with
        | none => none
        | some states =>
          some (some
            { fsm_name := f.fsm_name
              number_states := f.number_states
              number_events := f.number_events
              curr_description := curr.description
              states := states })

/-- The function `fsm_get_state` as a transformer of what it can reach: the
result carries the return code, the instance behind the handle after the call
and the variable behind `p2state` after the call.  The only assignment of the
source is `*p2state = fsm->curr_state`. -/
def fsm_get_state_world {H : Type} (fsm : Option (fsm_t H)) (p2state : Option Nat) :
    Option (RC_FSM_t × Option (fsm_t H) × Option Nat) :=
  match fsm with
  | none => some (RC_FSM_NULL, fsm, p2state)
  | some f =>
    if f.tag ≠ FSM_TAG then some (RC_FSM_INVALID_HANDLE, some f, p2state)
    else
      match p2state with
      | none => none
      | some _ => some (RC_FSM_OK, some f, some f.curr_state)

/-- The `for` loop of `fsm_show_history` as a transformer of what it can
reach: every iteration takes the instance and the console as the iteration
before has left them, reads the slot and the descriptions from that instance,
and hands both on, the console with the record line it has printed. -/
def show_history_loop_world {H : Type} :
    Nat → Nat → Nat → fsm_t H × List history_line → Option (fsm_t H × List history_line)
  | 0, _, _, w => some w
  | fuel + 1, i, j, w =>
    match w.1.history[i]? with
    | none => none
    | some history_ptr =>
      if history_ptr.stateID = FSM_NULL_STATE_ID then show_history_loop_world fuel (i + 1) j w
      else
        match w.1.state_description_table[history_ptr.prevStateID]? with
        | none => none
        | some prev =>
          match w.1.event_description_table[history_ptr.eventID]? with
          | none => none
          | some event =>
            match w.1.state_description_table[history_ptr.stateID]? with
            | none => none
            | some state =>
              show_history_loop_world fuel (i + 1)
                (sub32 (if j = 0 then FSM_HISTORY else j) 1)
                (w.1,
                  w.2 ++
                    [{ prevStateID := history_ptr.prevStateID
                       prev_description := prev.description
                       eventID := history_ptr.eventID
                       event_description := event.description
                       stateID := history_ptr.stateID
                       state_description := state.description
                       handler_rc := history_ptr.handler_rc }])

/-- The function `fsm_show_history` as a transformer of what it can reach:
the instance behind the handle and the record lines on the console. -/
def fsm_show_history_world {H : Type} (fsm : Option (fsm_t H)) (console : List history_line) :
    Option (Option (fsm_t H) × List history_line) :=
  match fsm with
  | none => some (fsm, console)
  | some f =>
    if f.tag ≠ FSM_TAG then some (some f, console)
    else
      match show_history_loop_world FSM_HISTORY 0 f.history_index (f, console) with
      | none => none
      | some w => some (some w.1, w.2)

/-- The inner `for` loop of `fsm_display_table` as a transformer of what it
can reach: the instance and the transition lines printed so far. -/
def display_events_world {H : Type} (event_ptr : Option (List (event_tuple_t H))) :
    Nat → Nat → fsm_t H × List display_event_t → Option (fsm_t H × List display_event_t)
  | 0, _, w => some w
  | fuel + 1, j, w =>
    match event_ptr with
    | none => none
    | some tuples =>
      match tuples[j]? with
      | none => none
      | some t =>
        match w.1.event_description_table[j]? with
        | none => none
        | some event =>
          match w.1.state_description_table[t.next_state]? with
          | none => none
          | some next =>
            display_events_world event_ptr fuel (j + 1)
              (w.1,
                w.2 ++
                  [{ event := j
                     event_description := event.description
                     next_description := next.description }])

/-- The outer `for` loop of `fsm_display_table` as a transformer of what it
can reach: the instance and the state blocks printed so far.  The inner loop
runs on the instance as this iteration has found it, and the next iteration
runs on the instance as the inner loop has left it. -/
def display_states_world {H : Type} :
    Nat → Nat → fsm_t H × List display_state_t → Option (fsm_t H × List display_state_t)
  | 0, _, w => some w
  | fuel + 1, i, w =>
    match w.1.state_table[i]? with
    | none => none
    | some state_ptr =>
      match w.1.state_description_table[state_ptr.state_id]? with
      | none => none
      | some state =>
        match display_events_world state_ptr.p2event_tuple w.1.number_events 0 (w.1, []) with
        | none => none
        | some w1 =>
          display_states_world fuel (i + 1)
            (w1.1, w.2 ++ [{ state_description := state.description, events := w1.2 }])

/-- The function `fsm_display_table` as a transformer of what it can reach:
the instance behind the handle and the tables displayed on the console. -/
def fsm_display_table_world {H : Type} (fsm : Option (fsm_t H))
    (console : List display_table_t) : Option (Option (fsm_t H) × List display_table_t) :=
  match fsm with
  | none => some (fsm, console)
  | some f =>
    if f.tag ≠ FSM_TAG then some (some f, console)
    else
      match f.state_description_table[f.curr_state]? with
      | none => none
      | some curr =>
        match display_states_world f.number_states 0 (f, []) with
        | none => none
        | some w =>
          some (some w.1,
            console ++
              [{ fsm_name := f.fsm_name
                 number_states := f.number_states
                 number_events := f.number_events
                 curr_description := curr.description
                 states := w.2 }])

/-! ## Predicates used to state the properties -/

/-- A valid instance: the tag is intact, the counts are in the range
`fsm_create` accepts, the current state is a normalized state, the state table
has an entry with the right id and a tuple with the right id for every
normalized state and event, and the history buffer has its `FSM_HISTORY` slots
with the write index inside it. -/
def fsm_valid {H : Type} (f : fsm_t H) : Prop :=
  f.tag = FSM_TAG ∧
  1 ≤ f.number_states ∧ f.number_states ≤ FSM_MAX_STATES - 1 ∧
  1 ≤ f.number_events ∧ f.number_events ≤ FSM_MAX_EVENTS - 1 ∧
  f.curr_state < f.number_states ∧
  (∀ i, i < f.number_states → (f.state_table[i]?).map (fun s => s.state_id) = some i) ∧
  (∀ i, i < f.number_states → ∀ j, j < f.number_events →
    (event_ptr_at f.state_table i j).map (fun t => t.eventID) = some j) ∧
  f.history.length = FSM_HISTORY ∧
  f.history_index < FSM_HISTORY

instance {H : Type} (f : fsm_t H) : Decidable (fsm_valid f) := by
  unfold fsm_valid; infer_instance

/-- The handler that was called on instance `f` left instance `g`, having
touched the instance through `fsm_set_exception_state` only: either `g` is `f`
(no call, or rejected calls only), or `g` is what the last accepted call
`fsm_set_exception_state(fsm, s)` makes of `f`. -/
def via_set_exception_state {H : Type} (f g : fsm_t H) : Prop :=
  g = f ∨ ∃ s, fsm_set_exception_state (some f) s = (RC_FSM_OK, some g)

/-- The four fields of a history record that `fsm_record_history` writes:
previous state, new state, event, handler result. -/
def fsm_history_t.written (r : fsm_history_t) : Nat × Nat × Nat × RC_FSM_t :=
  (r.prevStateID, r.stateID, r.eventID, r.handler_rc)

/-- Instance `g` is instance `f` with one more history record
`(prev, new, ev, rc)`: the write index of `g` is the one of `f` advanced by one
modulo `FSM_HISTORY`, the slot at that index carries the record (its field
`number` is the one it had), and every other slot is the one of `f`. -/
def one_record_written {H : Type} (f g : fsm_t H) (prev new ev : Nat) (rc : RC_FSM_t) : Prop :=
  g.history_index = (f.history_index + 1) % FSM_HISTORY ∧
  g.history.length = f.history.length ∧
  (g.history[g.history_index]?).map fsm_history_t.written = some (prev, new, ev, rc) ∧
  (g.history[g.history_index]?).map (fun r => r.number) =
    (f.history[g.history_index]?).map (fun r => r.number) ∧
  ∀ i, i ≠ g.history_index → g.history[i]? = f.history[i]?

/-- Well-formed tables with `n` states and `m` events: the state description
table holds the ids `0 .. n-1` followed by the sentinel, entry `i` of the state
table has id `i` and a tuple array that is not `NULL`, the event description
table holds the ids `0 .. m-1` followed by the sentinel, and tuple `j` of every
state has event id `j`; `n` and `m` are between `1` and `63`. -/
def tables_well_formed {H : Type} (sd : List state_description_t)
    (ed : List event_description_t) (st : List (state_tuple_t H)) (n m : Nat) : Prop :=
  1 ≤ n ∧ n ≤ 63 ∧ 1 ≤ m ∧ m ≤ 63 ∧
  (∀ i, i < n → (sd[i]?).map (fun d => d.state_id) = some i) ∧
  (sd[n]?).map (fun d => d.state_id) = some FSM_NULL_STATE_ID ∧
  (∀ i, i < n →
    (st[i]?).map (fun s => (s.state_id, s.p2event_tuple.isSome)) = some (i, true)) ∧
  (∀ j, j < m → (ed[j]?).map (fun d => d.event_id) = some j) ∧
  (ed[m]?).map (fun d => d.event_id) = some FSM_NULL_EVENT_ID ∧
  (∀ i, i < n → ∀ j, j < m → (event_ptr_at st i j).map (fun t => t.eventID) = some j)

instance {H : Type} (sd : List state_description_t) (ed : List event_description_t)
    (st : List (state_tuple_t H)) (n m : Nat) : Decidable (tables_well_formed sd ed st n m) := by
  unfold tables_well_formed; infer_instance

/-- The four fields of a record line that come from the history slot. -/
def history_line.written (l : history_line) : Nat × Nat × Nat × RC_FSM_t :=
  (l.prevStateID, l.stateID, l.eventID, l.handler_rc)

/-- The record that the history initialisation of `fsm_create` leaves in the
written fields of every slot. -/
def sentinel_record : Nat × Nat × Nat × RC_FSM_t :=
  (FSM_NULL_STATE_ID, FSM_NULL_STATE_ID, FSM_NULL_EVENT_ID, RC_FSM_NULL)

/-- The traversal that the specification asks of the history dump, in its
words: the records of the buffer that are not the sentinel, from the most
recently written (the slot at the write index) back to the oldest (the slot
after the write index), with wrap-around. -/
def history_most_recent_first {H : Type} (f : fsm_t H) : List (Nat × Nat × Nat × RC_FSM_t) :=
  ((List.range FSM_HISTORY).filterMap
      (fun d => f.history[(f.history_index + FSM_HISTORY - d) % FSM_HISTORY]?)).filterMap
    (fun r => if r.written = sentinel_record then none else some r.written)

/-- A run of consecutive history-writing calls of `fsm_engine` on one
instance: `calls t` gives the event id and the two pointers of call `t + 1`,
and the result is the instance and the caller's memory after the first `k`
calls.  The run is `none` when one of these calls faults, ends in
stop-processing or leaves no instance. -/
def fsm_engine_calls {H U : Type} (code : H → handler_sem H U)
    (calls : Nat → Nat × Nat × Nat) (f0 : fsm_t H) (mem0 : U) : Nat → Option (fsm_t H × U)
  | 0 => some (f0, mem0)
  | k + 1 =>
    match fsm_engine_calls code calls f0 mem0 k with
    | none => none
    | some (f, mem) =>
      match fsm_engine code (some f) (calls k).1 (calls k).2.1 (calls k).2.2 mem with
      | some (rc, some g, mem1) => if rc = RC_FSM_STOP_PROCESSING then none else some (g, mem1)
      | _ => none

/-- Every handler either returns `RC_FSM_STOP_PROCESSING` or leaves the instance
touched through `fsm_set_exception_state` at most. -/
def handlers_behaved {H U : Type} (code : H → handler_sem H U) : Prop :=
  ∀ (h : H) (p q : Nat) (f : fsm_t H) (mem : U),
    (code h p q (f, mem)).1 = RC_FSM_STOP_PROCESSING ∨
      ∃ f1, (code h p q (f, mem)).2.1 = some f1 ∧ via_set_exception_state f f1

/-- A history slot after the initialisation loop of `fsm_create`: the four
written fields carry the sentinel record, the field `number` is untouched. -/
def fsm_history_t.wiped (r : fsm_history_t) : fsm_history_t :=
  { r with
    prevStateID := FSM_NULL_STATE_ID
    stateID := FSM_NULL_STATE_ID
    eventID := FSM_NULL_EVENT_ID
    handler_rc := RC_FSM_NULL }

/-- The returns of `fsm_engine` on an instance `f` that has passed the handle
checks, one constructor for each `return` of the source: the code returned,
the instance and the caller's memory after the call.  In the three returns
that follow a handler which has not stopped the processing, the handler has
left the instance `f1`, touched through `fsm_set_exception_state` at most. -/
inductive fsm_engine_path {H U : Type} (code : H → handler_sem H U) (f : fsm_t H)
    (ev p2event_buffer p2parm : Nat) (mem : U) : RC_FSM_t → Option (fsm_t H) → U → Prop
  | invalid_event (g : fsm_t H) :
      f.number_events ≤ ev →
      fsm_record_history f ev f.curr_state RC_FSM_INVALID_EVENT = some g →
      fsm_engine_path code f ev p2event_buffer p2parm mem RC_FSM_INVALID_EVENT (some g) mem
  | quiet_event (t : event_tuple_t H) (g : fsm_t H) :
      ev < f.number_events →
      event_ptr_at f.state_table f.curr_state ev = some t →
      t.event_handler = none →
      fsm_record_history f ev t.next_state RC_FSM_INVALID_EVENT_HANDLER = some g →
      fsm_engine_path code f ev p2event_buffer p2parm mem RC_FSM_OK (some g) mem
  | stop_processing (t : event_tuple_t H) (h : H) (inst : Option (fsm_t H)) (mem1 : U) :
      ev < f.number_events →
      event_ptr_at f.state_table f.curr_state ev = some t →
      t.event_handler = some h →
      code h p2event_buffer p2parm (f, mem) = (RC_FSM_STOP_PROCESSING, inst, mem1) →
      fsm_engine_path code f ev p2event_buffer p2parm mem RC_FSM_STOP_PROCESSING inst mem1
  | handler_error (t : event_tuple_t H) (h : H) (rc : RC_FSM_t) (f1 : fsm_t H) (mem1 : U)
      (g : fsm_t H) :
      ev < f.number_events →
      event_ptr_at f.state_table f.curr_state ev = some t →
      t.event_handler = some h →
      code h p2event_buffer p2parm (f, mem) = (rc, some f1, mem1) →
      via_set_exception_state f f1 →
      rc ≠ RC_FSM_OK → rc ≠ RC_FSM_STOP_PROCESSING →
      fsm_record_history f1 ev t.next_state rc = some g →
      fsm_engine_path code f ev p2event_buffer p2parm mem rc (some g) mem1
  | invalid_state (t : event_tuple_t H) (h : H) (f1 : fsm_t H) (mem1 : U) (ns : Nat)
      (g : fsm_t H) :
      ev < f.number_events →
      event_ptr_at f.state_table f.curr_state ev = some t →
      t.event_handler = some h →
      code h p2event_buffer p2parm (f, mem) = (RC_FSM_OK, some f1, mem1) →
      via_set_exception_state f f1 →
      ns = (if f1.exception_state_indicator then f1.exception_state else t.next_state) →
      f.number_states ≤ ns →
      fsm_record_history { f1 with exception_state_indicator := false, next_state := ns }
        ev ns RC_FSM_INVALID_STATE = some g →
      fsm_engine_path code f ev p2event_buffer p2parm mem RC_FSM_INVALID_STATE (some g) mem1
  | commit (t : event_tuple_t H) (h : H) (f1 : fsm_t H) (mem1 : U) (ns : Nat) (g : fsm_t H) :
      ev < f.number_events →
      event_ptr_at f.state_table f.curr_state ev = some t →
      t.event_handler = some h →
      code h p2event_buffer p2parm (f, mem) = (RC_FSM_OK, some f1, mem1) →
      via_set_exception_state f f1 →
      ns = (if f1.exception_state_indicator then f1.exception_state else t.next_state) →
      ns < f.number_states →
      fsm_record_history { f1 with exception_state_indicator := false, next_state := ns }
        ev ns RC_FSM_OK = some g →
      fsm_engine_path code f ev p2event_buffer p2parm mem RC_FSM_OK
        (some { g with curr_state := g.next_state }) mem1

/-- The handlers of `code` made to keep a log of their calls: the caller's
memory is extended with the list of the calls made so far, and every handler,
besides doing what it does under `code`, appends the function pointer it was
called through and the two pointers it was called with.  Nothing else writes
the log, so the log after a call of `fsm_engine` tells which handlers the call
has invoked, how often and with what arguments. -/
def with_call_log {H U : Type} (code : H → handler_sem H U) :
    H → handler_sem H (U × List (H × Nat × Nat)) :=
  fun h p2event p2parm w =>
    ((code h p2event p2parm (w.1, w.2.1)).1, (code h p2event p2parm (w.1, w.2.1)).2.1,
      ((code h p2event p2parm (w.1, w.2.1)).2.2, w.2.2 ++ [(h, p2event, p2parm)]))

/-- Every handler leaves an instance, the one it was called on touched through
`fsm_set_exception_state` at most, whatever code it returns. -/
def handlers_via_api {H U : Type} (code : H → handler_sem H U) : Prop :=
  ∀ (h : H) (p q : Nat) (f : fsm_t H) (mem : U),
    ∃ f1, (code h p q (f, mem)).2.1 = some f1 ∧ via_set_exception_state f f1

/-- An armed override names a normalized state. -/
def override_in_range {H : Type} (f : fsm_t H) : Prop :=
  f.exception_state_indicator = true → f.exception_state < f.number_states

instance {H : Type} (f : fsm_t H) : Decidable (override_in_range f) := by
  unfold override_in_range; infer_instance

/-- A call of one of the two operations that write an instance: `fsm_engine`
with its event id and its two pointers, or `fsm_set_exception_state` (made by
the caller, outside any handler) with its state. -/
inductive api_call where
  | engine (normalized_event p2event_buffer p2parm : Nat)
  | set_exception_state (exception_state : Nat)
  deriving DecidableEq, Repr

/-- A sequence of calls of `fsm_engine` and `fsm_set_exception_state` on one
instance, each made on the instance that the call before it has left; the
result is the instance and the caller's memory after the last call.  The
sequence is `none` when a call faults or leaves no instance. -/
def fsm_api_calls {H U : Type} (code : H → handler_sem H U) :
    List api_call → fsm_t H → U → Option (fsm_t H × U)
  | [], f, mem => some (f, mem)
  | api_call.engine ev p2event_buffer p2parm :: rest, f, mem =>
    match fsm_engine code (some f) ev p2event_buffer p2parm mem with
    | some (_, some g, mem1) => fsm_api_calls code rest g mem1
    | _ => none
  | api_call.set_exception_state s :: rest, f, mem =>
    match fsm_set_exception_state (some f) s with
    | (_, some g) => fsm_api_calls code rest g mem
    | (_, none) => none

/-- Consecutive calls of `fsm_engine` on one instance for the events of a
list, each with the same two pointers; the result lists, call by call, the
code returned and the current state after the call.  It is `none` when a call
faults or leaves no instance. -/
def fsm_engine_trace {H U : Type} (code : H → handler_sem H U) (p2event_buffer p2parm : Nat) :
    List Nat → fsm_t H → U → Option (List (RC_FSM_t × Nat))
  | [], _, _ => some []
  | ev :: rest, f, mem =>
    match fsm_engine code (some f) ev p2event_buffer p2parm mem with
    | some (rc, some g, mem1) =>
      (fsm_engine_trace code p2event_buffer p2parm rest g mem1).map
        (fun l => (rc, g.curr_state) :: l)
    | _ => none

/-- What `fsm_create` reads of an entry of the state table: its id and, of
each tuple of its tuple array, the event id.  The handler and the next state of
a tuple are read by no check of `fsm_create`. -/
def state_tuple_t.checked {H : Type} (s : state_tuple_t H) : Nat × Option (List Nat) :=
  (s.state_id, s.p2event_tuple.map (List.map (fun t => t.eventID)))

/-- What a call of `fsm_create` lets its caller see of the instance it has
stored, as far as the construction decides it: the code, and the current state
and the two counts of the instance in the handle variable. -/
def created_view {H : Type} (r : RC_FSM_t × Option (Option (fsm_t H))) :
    RC_FSM_t × Option (Option (Nat × Nat × Nat)) :=
  (r.1, r.2.map (Option.map (fun f => (f.curr_state, f.number_states, f.number_events))))

/-- The configuration of an instance: the tag, the name, the two counts and
the three tables. -/
def fsm_t.config {H : Type} (f : fsm_t H) :
    Nat × List Char × Nat × Nat × List (state_tuple_t H) × List state_description_t ×
      List event_description_t :=
  (f.tag, f.fsm_name, f.number_states, f.number_events, f.state_table,
    f.state_description_table, f.event_description_table)

/-- Every history slot holds the sentinel record or a record whose previous
state is a normalized state. -/
def history_prev_in_range {H : Type} (f : fsm_t H) : Prop :=
  ∀ (i : Nat) (r : fsm_history_t), f.history[i]? = some r →
    r.written = sentinel_record ∨ r.prevStateID < f.number_states

/-- Every tuple of every normalized state and event names a normalized state
as next state. -/
def next_states_in_range {H : Type} (f : fsm_t H) : Prop :=
  ∀ (i j : Nat) (t : event_tuple_t H), i < f.number_states → j < f.number_events →
    event_ptr_at f.state_table i j = some t → t.next_state < f.number_states

/-! ## A small machine on which the theorems are instantiated -/

def sample_state_description : List state_description_t :=
  [⟨0, some "zero"⟩, ⟨1, some "one"⟩, ⟨2, some "two"⟩, ⟨FSM_NULL_STATE_ID, none⟩]

def sample_event_description : List event_description_t :=
  [⟨0, some "go"⟩, ⟨1, some "quiet"⟩, ⟨2, some "override"⟩, ⟨3, some "refuse"⟩,
   ⟨4, some "stop"⟩, ⟨5, some "astray"⟩, ⟨6, some "arm and refuse"⟩,
   ⟨FSM_NULL_EVENT_ID, none⟩]

/-- The tuple array shared by the three sample states.  Handler `0` succeeds,
handler `1` refuses the event, handler `2` arms the override to state `2` and
succeeds, handler `3` releases the instance and stops the processing, handler
`4` arms the override to state `2` and refuses the event.  The tuple of event
`5` names a next state outside the table. -/
def sample_events : List (event_tuple_t Nat) :=
  [⟨0, some 0, 1⟩, ⟨1, none, 2⟩, ⟨2, some 2, 1⟩, ⟨3, some 1, 1⟩, ⟨4, some 3, 1⟩,
   ⟨5, some 0, 7⟩, ⟨6, some 4, 1⟩]

def sample_state_table : List (state_tuple_t Nat) :=
  [⟨0, some sample_events⟩, ⟨1, some sample_events⟩, ⟨2, some sample_events⟩,
   ⟨FSM_NULL_STATE_ID, none⟩]

/-- The code behind the sample handlers; the caller's memory is a counter of
handler calls. -/
def sample_code : Nat → handler_sem Nat Nat
  | 0 => fun _ _ w => (RC_FSM_OK, some w.1, w.2 + 1)
  | 1 => fun _ _ w => (RC_FSM_IGNORE_EVENT, some w.1, w.2 + 1)
  | 2 => fun _ _ w => (RC_FSM_OK, (fsm_set_exception_state (some w.1) 2).2, w.2 + 1)
  | 4 => fun _ _ w => (RC_FSM_IGNORE_EVENT, (fsm_set_exception_state (some w.1) 2).2, w.2 + 1)
  | _ => fun _ _ w => (RC_FSM_STOP_PROCESSING, none, w.2 + 1)

/-- Fresh blocks with arbitrary contents. -/
def sample_heap : malloc_t Nat :=
  { fsm_block :=
      some
        { tag := 11, curr_state := 12, next_state := 13, exception_state := 14,
          exception_state_indicator := true, fsm_name := [], number_states := 15,
          number_events := 16, flags := 17, state_table := [], state_description_table := [],
          event_description_table := [], history_index := 18, history := [] }
    history_block := some (fun i => ⟨i, 21, 22, 23, RC_FSM_OK⟩) }

/-- The instance that `fsm_create` builds from the sample tables in the
sample blocks, with initial state `0`. -/
def sample_fsm : fsm_t Nat :=
  { tag := FSM_TAG, curr_state := 0, next_state := 0, exception_state := 14,
    exception_state_indicator := false, fsm_name := strncpy "sample".toList FSM_NAME_LEN,
    number_states := 3, number_events := 7, flags := 17, state_table := sample_state_table,
    state_description_table := sample_state_description,
    event_description_table := sample_event_description, history_index := 0,
    history :=
      (List.range FSM_HISTORY).map
        (fun i => ⟨i, FSM_NULL_STATE_ID, FSM_NULL_STATE_ID, FSM_NULL_EVENT_ID, RC_FSM_NULL⟩) }

/-- The sample instance with the override armed to state `2`: what handler
`4` leaves of it. -/
def sample_armed : fsm_t Nat :=
  { sample_fsm with exception_state := 2, exception_state_indicator := true }

/-- The sample instance after event `6`: handler `4` has armed the override to
state `2` and refused the event, which `fsm_engine` has recorded in slot `1`. -/
def sample_refused : fsm_t Nat :=
  { sample_armed with
    history_index := 1
    history := sample_fsm.history.set 1 ⟨1, 0, 1, 6, RC_FSM_IGNORE_EVENT⟩ }

/-- The three calls of the sample run: event `0` (handled), event `3`
(refused), event `1` (quiet); every later call sends event `9`, which is not
an event of the machine. -/
def sample_calls (t : Nat) : Nat × Nat × Nat :=
  ([0, 3, 1].getD t 9, 0, 0)

/-- The sample instance after the first two calls of the sample run. -/
def sample_two : fsm_t Nat :=
  { sample_fsm with
    curr_state := 1
    next_state := 1
    history_index := 2
    history :=
      (sample_fsm.history.set 1 ⟨1, 0, 1, 0, RC_FSM_OK⟩).set 2
        ⟨2, 1, 1, 3, RC_FSM_IGNORE_EVENT⟩ }

/-- The sample instance after the three calls of the sample run. -/
def sample_three : fsm_t Nat :=
  { sample_two with
    history_index := 3
    history := sample_two.history.set 3 ⟨3, 1, 2, 1, RC_FSM_INVALID_EVENT_HANDLER⟩ }

/-- A state description table whose entry `1` carries the id `2`. -/
def sample_bad_state_description : List state_description_t :=
  [⟨0, some "zero"⟩, ⟨2, some "one"⟩, ⟨2, some "two"⟩, ⟨FSM_NULL_STATE_ID, none⟩]

/-- An event description table whose entry `1` carries the id `5`. -/
def sample_bad_event_description : List event_description_t :=
  [⟨0, some "go"⟩, ⟨5, some "quiet"⟩, ⟨FSM_NULL_EVENT_ID, none⟩]

/-- The sample instance with a tag that is not `FSM_TAG`. -/
def sample_bad_tag : fsm_t Nat :=
  { sample_fsm with tag := 0 }

/-- The sample handlers, but for handler `3` and the handlers behind unused
pointers: they stop the processing without releasing the instance. -/
def sample_api_code : Nat → handler_sem Nat Nat
  | 0 => fun _ _ w => (RC_FSM_OK, some w.1, w.2 + 1)
  | 1 => fun _ _ w => (RC_FSM_IGNORE_EVENT, some w.1, w.2 + 1)
  | 2 => fun _ _ w => (RC_FSM_OK, (fsm_set_exception_state (some w.1) 2).2, w.2 + 1)
  | 4 => fun _ _ w => (RC_FSM_IGNORE_EVENT, (fsm_set_exception_state (some w.1) 2).2, w.2 + 1)
  | _ => fun _ _ w => (RC_FSM_STOP_PROCESSING, some w.1, w.2 + 1)

/-- A sequence of calls on the sample instance: event `6` (the handler arms the
override to state `2` and refuses the event), an override to state `1` armed by
the caller, event `4` (the handler stops the processing), event `9` (not an
event of the machine), event `0` (handled). -/
def sample_api_calls : List api_call :=
  [api_call.engine 6 0 0, api_call.set_exception_state 1, api_call.engine 4 0 0,
   api_call.engine 9 0 0, api_call.engine 0 0 0]

/-- The sample tuple array with another next state for the quiet event `1`:
state `7`, which is no state of the machine. -/
def sample_astray_events : List (event_tuple_t Nat) :=
  sample_events.set 1 ⟨1, none, 7⟩

/-- A state table that differs from the sample state table in handlers and
next states only: state `0` has the tuple array with the quiet event gone
astray, and every tuple of state `2` is quiet with next state `0`. -/
def sample_astray_state_table : List (state_tuple_t Nat) :=
  [⟨0, some sample_astray_events⟩, ⟨1, some sample_events⟩,
   ⟨2, some (sample_events.map (fun t => ⟨t.eventID, none, 0⟩))⟩,
   ⟨FSM_NULL_STATE_ID, none⟩]

/-- The instance that `fsm_create` builds from the sample description tables
and the state table `sample_astray_state_table`. -/
def sample_astray_fsm : fsm_t Nat :=
  { sample_fsm with state_table := sample_astray_state_table }

/-! ## The session demo (`test/demo*.c`) -/

/-- Normalized events of the session demo (`session_events_e`). -/
def start_init_e : Nat := 0

def init_rcvd_e : Nat := 1

def init_tmo_e : Nat := 2

def init_ack_e : Nat := 3

def start_term_e : Nat := 4

def term_rcvd_e : Nat := 5

def term_ack_e : Nat := 6

/-- Normalized states of the session demo (`demo_states_e`). -/
def idle_s : Nat := 0

def wait_for_init_ack_s : Nat := 1

def established_s : Nat := 2

def wait_for_term_ack_s : Nat := 3

/-- Configuration data of the demo. -/
structure demo_config_t where
  count : Nat
  tmo_threshold : Nat
  deriving DecidableEq, Repr

/-- Session context data of the demo. -/
structure demo_context_t where
  count : Nat
  timeout_count : Nat
  deriving DecidableEq, Repr

/-- The caller's memory in the demo: the two static objects `config` and
`context` of `demo.c`.  Every call of `fsm_engine` in the demo passes their
addresses as `p2event` and `p2parm`, and the handlers reach the two objects
through these pointers. -/
structure demo_memory_t where
  config : demo_config_t
  context : demo_context_t
  deriving DecidableEq, Repr

/-- The function pointers of the demo tables: the seven handlers of
`demo_event_handlers.c` and the catch-all `event_ignore` of
`demo_session_fsm.c`. -/
inductive demo_handler_t where
  | event_start_init
  | event_init_rcvd
  | event_init_ack_rcvd
  | event_init_ack_tmo
  | event_start_term
  | event_term_rcvd
  | event_term_ack_rcvd
  | event_ignore
  deriving DecidableEq, Repr

/-- The handler `event_start_init`: it traces its call and returns `RC_FSM_OK`.
The trace lines that the handlers print are not part of the embedding. -/
def event_start_init : handler_sem demo_handler_t demo_memory_t :=
  fun _ _ w => (RC_FSM_OK, some w.1, w.2)

def event_init_rcvd : handler_sem demo_handler_t demo_memory_t :=
  fun _ _ w => (RC_FSM_OK, some w.1, w.2)

def event_init_ack_rcvd : handler_sem demo_handler_t demo_memory_t :=
  fun _ _ w => (RC_FSM_OK, some w.1, w.2)

/-- The handler `event_init_ack_tmo`: it increments `timeout_count` of the
context and compares it with `tmo_threshold` of the configuration.  At or
above the threshold the source assigns `RC_FSM_STOP_PROCESSING` to `rc` and
then `RC_FSM_OK` over it, so both branches return `RC_FSM_OK`. -/
def event_init_ack_tmo : handler_sem demo_handler_t demo_memory_t :=
  fun _ _ w =>
    let timeout_count := add32 w.2.context.timeout_count 1
    let rc := if timeout_count ≥ w.2.config.tmo_threshold then RC_FSM_OK else RC_FSM_OK
    (rc, some w.1, { w.2 with context := { w.2.context with timeout_count := timeout_count } })

def event_start_term : handler_sem demo_handler_t demo_memory_t :=
  fun _ _ w => (RC_FSM_OK, some w.1, w.2)

def event_term_rcvd : handler_sem demo_handler_t demo_memory_t :=
  fun _ _ w => (RC_FSM_OK, some w.1, w.2)

def event_term_ack_rcvd : handler_sem demo_handler_t demo_memory_t :=
  fun _ _ w => (RC_FSM_OK, some w.1, w.2)

/-- The catch-all `event_ignore` of `demo_session_fsm.c`; it returns `RC_FSM_OK`. -/
def event_ignore : handler_sem demo_handler_t demo_memory_t :=
  fun _ _ w => (RC_FSM_OK, some w.1, w.2)

/-- The code behind the function pointers of the demo. -/
def demo_code : demo_handler_t → handler_sem demo_handler_t demo_memory_t
  | .event_start_init => event_start_init
  | .event_init_rcvd => event_init_rcvd
  | .event_init_ack_rcvd => event_init_ack_rcvd
  | .event_init_ack_tmo => event_init_ack_tmo
  | .event_start_term => event_start_term
  | .event_term_rcvd => event_term_rcvd
  | .event_term_ack_rcvd => event_term_ack_rcvd
  | .event_ignore => event_ignore

/-- Table of normalized event descriptions. -/
def normalized_event_table : List event_description_t :=
  [⟨start_init_e, some "Start Session Init"⟩,
   ⟨init_rcvd_e, some "Session Init"⟩,
   ⟨init_tmo_e, some "Session Init ACK TMO"⟩,
   ⟨init_ack_e, some "Session Init ACK"⟩,
   ⟨start_term_e, some "Start Session Termination"⟩,
   ⟨term_rcvd_e, some "Session Terminate"⟩,
   ⟨term_ack_e, some "Session Terminate ACK"⟩,
   ⟨FSM_NULL_EVENT_ID, none⟩]

/-- Table of normalized state descriptions. -/
def normalized_state_table : List state_description_t :=
  [⟨idle_s, some "Idle State"⟩,
   ⟨wait_for_init_ack_s, some "Wait for Init Ack State"⟩,
   ⟨established_s, some "Established State"⟩,
   ⟨wait_for_term_ack_s, some "Wait for Terminate Ack State"⟩,
   ⟨FSM_NULL_STATE_ID, none⟩]

def state_idle_events : List (event_tuple_t demo_handler_t) :=
  [⟨start_init_e, some .event_start_init, wait_for_init_ack_s⟩,
   ⟨init_rcvd_e, some .event_init_rcvd, established_s⟩,
   ⟨init_tmo_e, some .event_ignore, idle_s⟩,
   ⟨init_ack_e, some .event_ignore, idle_s⟩,
   ⟨start_term_e, some .event_ignore, idle_s⟩,
   ⟨term_rcvd_e, some .event_ignore, idle_s⟩,
   ⟨term_ack_e, some .event_ignore, idle_s⟩]

def state_wait_for_init_ack_events : List (event_tuple_t demo_handler_t) :=
  [⟨start_init_e, some .event_ignore, wait_for_init_ack_s⟩,
   ⟨init_rcvd_e, some .event_ignore, wait_for_init_ack_s⟩,
   ⟨init_tmo_e, some .event_init_ack_tmo, wait_for_init_ack_s⟩,
   ⟨init_ack_e, some .event_init_ack_rcvd, established_s⟩,
   ⟨start_term_e, some .event_term_rcvd, wait_for_init_ack_s⟩,
   ⟨term_rcvd_e, some .event_term_rcvd, idle_s⟩,
   ⟨term_ack_e, some .event_ignore, wait_for_init_ack_s⟩]

def state_established_events : List (event_tuple_t demo_handler_t) :=
  [⟨start_init_e, some .event_ignore, established_s⟩,
   ⟨init_rcvd_e, some .event_ignore, established_s⟩,
   ⟨init_tmo_e, some .event_ignore, established_s⟩,
   ⟨init_ack_e, some .event_ignore, established_s⟩,
   ⟨start_term_e, some .event_start_term, wait_for_term_ack_s⟩,
   ⟨term_rcvd_e, some .event_term_rcvd, idle_s⟩,
   ⟨term_ack_e, some .event_ignore, established_s⟩]

def state_wait_for_term_ack_events : List (event_tuple_t demo_handler_t) :=
  [⟨start_init_e, some .event_ignore, wait_for_term_ack_s⟩,
   ⟨init_rcvd_e, some .event_ignore, wait_for_term_ack_s⟩,
   ⟨init_tmo_e, some .event_ignore, wait_for_term_ack_s⟩,
   ⟨init_ack_e, some .event_ignore, wait_for_term_ack_s⟩,
   ⟨start_term_e, some .event_ignore, wait_for_term_ack_s⟩,
   ⟨term_rcvd_e, some .event_ignore, idle_s⟩,
   ⟨term_ack_e, some .event_term_ack_rcvd, idle_s⟩]

/-- Session state table. -/
def demo_state_table : List (state_tuple_t demo_handler_t) :=
  [⟨idle_s, some state_idle_events⟩,
   ⟨wait_for_init_ack_s, some state_wait_for_init_ack_events⟩,
   ⟨established_s, some state_established_events⟩,
   ⟨wait_for_term_ack_s, some state_wait_for_term_ack_events⟩,
   ⟨FSM_NULL_STATE_ID, none⟩]

/-- The events that `main` of `demo.c` submits, in order. -/
def demo_events : List Nat :=
  [start_init_e, init_tmo_e, init_tmo_e, init_ack_e, start_term_e, term_ack_e]

/-- The two static objects of `demo.c` after `main` has set the timeout count
to `0` and the timeout threshold to `3`. -/
def demo_memory : demo_memory_t :=
  { config := { count := 0, tmo_threshold := 3 }, context := { count := 0, timeout_count := 0 } }

/-- Fresh blocks with arbitrary contents, for the demo. -/
def demo_heap : malloc_t demo_handler_t :=
  { fsm_block :=
      some
        { tag := 1, curr_state := 2, next_state := 3, exception_state := 4,
          exception_state_indicator := true, fsm_name := [], number_states := 5,
          number_events := 6, flags := 7, state_table := [], state_description_table := [],
          event_description_table := [], history_index := 8, history := [] }
    history_block := some (fun i => ⟨i, 31, 32, 33, RC_FSM_NO_RESOURCES⟩) }

/-- The instance that `demo_fsm_create` gets from `fsm_create` in the blocks of
`demo_heap`. -/
def demo_fsm : fsm_t demo_handler_t :=
  { tag := FSM_TAG, curr_state := idle_s, next_state := idle_s, exception_state := 4,
    exception_state_indicator := false,
    fsm_name := strncpy "Demo State Machine".toList FSM_NAME_LEN,
    number_states := 4, number_events := 7, flags := 7, state_table := demo_state_table,
    state_description_table := normalized_state_table,
    event_description_table := normalized_event_table, history_index := 0,
    history :=
      (List.range FSM_HISTORY).map
        (fun i => ⟨i, FSM_NULL_STATE_ID, FSM_NULL_STATE_ID, FSM_NULL_EVENT_ID, RC_FSM_NULL⟩) }

/-- The instances that the demo can reach: a valid instance over the demo
tables with their four states and seven events, and no override armed. -/
def demo_instance (f : fsm_t demo_handler_t) : Prop :=
  fsm_valid f ∧ f.state_table = demo_state_table ∧ f.number_states = 4 ∧
    f.number_events = 7 ∧ f.exception_state_indicator = false

/-! ## Auxiliary lemmas -/

theorem sub32_one {n : Nat} (h1 : 1 ≤ n) (h2 : n < UINT32_MOD) : sub32 n 1 = n - 1 := by
  unfold sub32 UINT32_MOD at *
  omega

theorem history_slot (x : Nat) : add32 x 1 % FSM_HISTORY = (x + 1) % FSM_HISTORY := by
  unfold add32 UINT32_MOD FSM_HISTORY
  omega

/-- On a buffer of `FSM_HISTORY` slots `fsm_record_history` succeeds, writes
one record whose previous state is the current state, and changes nothing
but the write index and the buffer. -/
theorem fsm_record_history_spec {H : Type} (f : fsm_t H) (ev ns : Nat) (rc : RC_FSM_t)
    (hlen : f.history.length = FSM_HISTORY) :
    ∃ g, fsm_record_history f ev ns rc = some g ∧
      one_record_written f g f.curr_state ns ev rc ∧
      { g with history_index := f.history_index, history := f.history } = f := by
  have hidx : (f.history_index + 1) % FSM_HISTORY < f.history.length := by
    rw [hlen]
    exact Nat.mod_lt _ (by decide)
  unfold fsm_record_history
  simp only [history_slot]
  rw [List.getElem?_eq_getElem hidx]
  refine ⟨_, rfl, ⟨rfl, by simp, ?_, ?_, ?_⟩, rfl⟩
  · simp [fsm_history_t.written, hidx]
  · simp [hidx]
  · intro i hi
    simp only at hi
    simp [List.getElem?_set_ne (Ne.symm hi)]

/-- On a valid instance the event range check of `fsm_engine` is `ev ≥ number_events`. -/
theorem event_check_iff {H : Type} {f : fsm_t H} (hv : fsm_valid f) (ev : Nat) :
    ev > sub32 f.number_events 1 ↔ f.number_events ≤ ev := by
  obtain ⟨_, _, _, h1, h2, _⟩ := hv
  rw [sub32_one h1 (by unfold FSM_MAX_EVENTS at h2; unfold UINT32_MOD; omega)]
  omega

/-- On a valid instance the state range checks are `s ≥ number_states`. -/
theorem state_check_iff {H : Type} {f : fsm_t H} (hv : fsm_valid f) (s : Nat) :
    s > sub32 f.number_states 1 ↔ f.number_states ≤ s := by
  obtain ⟨_, h1, h2, _⟩ := hv
  rw [sub32_one h1 (by unfold FSM_MAX_STATES at h2; unfold UINT32_MOD; omega)]
  omega

/-- A handler that went through `fsm_set_exception_state` only left every
field but the override value and the override flag as it was. -/
theorem via_set_exception_state_frame {H : Type} {f g : fsm_t H}
    (h : via_set_exception_state f g) :
    { g with
      exception_state := f.exception_state
      exception_state_indicator := f.exception_state_indicator } = f := by
  rcases h with h | ⟨s, h⟩
  · rw [h]
  · unfold fsm_set_exception_state at h
    simp only at h
    split_ifs at h
    · simp at h
    · simp at h
    · simp only [Prod.mk.injEq, Option.some.injEq, true_and] at h
      rw [← h]

/-- Validity does not depend on the override value and flag. -/
theorem via_set_exception_state_valid {H : Type} {f g : fsm_t H}
    (hv : fsm_valid f) (h : via_set_exception_state f g) : fsm_valid g := by
  have e := via_set_exception_state_frame h
  rw [← e] at hv
  exact hv

/-- Field by field: what a handler that went through
`fsm_set_exception_state` only has left as it was. -/
theorem via_set_exception_state_fields {H : Type} {f g : fsm_t H}
    (h : via_set_exception_state f g) :
    g.tag = f.tag ∧ g.curr_state = f.curr_state ∧ g.next_state = f.next_state ∧
      g.number_states = f.number_states ∧ g.number_events = f.number_events ∧
      g.state_table = f.state_table ∧ g.history_index = f.history_index ∧
      g.history = f.history := by
  have e := via_set_exception_state_frame h
  have e1 := congrArg fsm_t.tag e
  have e2 := congrArg fsm_t.curr_state e
  have e3 := congrArg fsm_t.next_state e
  have e4 := congrArg fsm_t.number_states e
  have e5 := congrArg fsm_t.number_events e
  have e6 := congrArg fsm_t.state_table e
  have e7 := congrArg fsm_t.history_index e
  have e8 := congrArg fsm_t.history e
  exact ⟨e1, e2, e3, e4, e5, e6, e7, e8⟩

/-- Validity depends on the tag, the counts, the current state, the state
table and the shape of the history only. -/
theorem fsm_valid_of_fields {H : Type} {f g : fsm_t H} (hv : fsm_valid f)
    (h1 : g.tag = f.tag) (h2 : g.number_states = f.number_states)
    (h3 : g.number_events = f.number_events) (h4 : g.curr_state < g.number_states)
    (h5 : g.state_table = f.state_table) (h6 : g.history.length = FSM_HISTORY)
    (h7 : g.history_index < FSM_HISTORY) : fsm_valid g := by
  unfold fsm_valid at hv ⊢
  rw [h1, h2, h3, h5]
  exact ⟨hv.1, hv.2.1, hv.2.2.1, hv.2.2.2.1, hv.2.2.2.2.1, h2 ▸ h4, hv.2.2.2.2.2.2.1,
    hv.2.2.2.2.2.2.2.1, h6, h7⟩

/-- The predicate `one_record_written` looks at the history and its index only. -/
theorem one_record_written_congr {H : Type} (f f1 g g1 : fsm_t H) {a b c : Nat} {rc : RC_FSM_t}
    (hi : f1.history_index = f.history_index) (hh : f1.history = f.history)
    (gi : g1.history_index = g.history_index) (gh : g1.history = g.history)
    (hw : one_record_written f g a b c rc) : one_record_written f1 g1 a b c rc := by
  unfold one_record_written at hw ⊢
  rw [hi, hh, gi, gh]
  exact hw

/-- The fields that `fsm_record_history` does not write. -/
theorem fsm_record_history_fields {H : Type} {f g : fsm_t H} {ev ns : Nat} {rc : RC_FSM_t}
    (h : fsm_record_history f ev ns rc = some g) :
    g.tag = f.tag ∧ g.curr_state = f.curr_state ∧ g.next_state = f.next_state ∧
      g.exception_state = f.exception_state ∧
      g.exception_state_indicator = f.exception_state_indicator ∧
      g.number_states = f.number_states ∧ g.number_events = f.number_events ∧
      g.state_table = f.state_table := by
  unfold fsm_record_history at h
  simp only at h
  split at h
  · simp at h
  · simp only [Option.some.injEq] at h
    subst h
    exact ⟨rfl, rfl, rfl, rfl, rfl, rfl, rfl, rfl⟩

/-- The part of `fsm_engine` after a handler that returned `RC_FSM_OK` and
left the instance `f1`: with `ns` the resolved next state, the override flag
is cleared and `ns` is stored as pending next state; then either `ns` is out
of range, which is recorded and returned, or the transition is recorded and
committed. -/
theorem fsm_engine_after_ok {H U : Type} (code : H → handler_sem H U) (f f1 : fsm_t H)
    (ev p2event_buffer p2parm : Nat) (mem mem1 : U) (t : event_tuple_t H) (h : H)
    (hv : fsm_valid f) (hev : ev < f.number_events)
    (ht : event_ptr_at f.state_table f.curr_state ev = some t)
    (hh : t.event_handler = some h)
    (hrun : code h p2event_buffer p2parm (f, mem) = (RC_FSM_OK, some f1, mem1))
    (hapi : via_set_exception_state f f1) (ns : Nat)
    (hns : ns = if f1.exception_state_indicator then f1.exception_state else t.next_state) :
    fsm_engine code (some f) ev p2event_buffer p2parm mem =
      if f.number_states ≤ ns then
        (fsm_record_history { f1 with exception_state_indicator := false, next_state := ns }
          ev ns RC_FSM_INVALID_STATE).map (fun g => (RC_FSM_INVALID_STATE, some g, mem1))
      else
        (fsm_record_history { f1 with exception_state_indicator := false, next_state := ns }
          ev ns RC_FSM_OK).map
            (fun g => (RC_FSM_OK, some { g with curr_state := g.next_state }, mem1)) := by
  have hv1 := via_set_exception_state_valid hv hapi
  have hn := (via_set_exception_state_fields hapi).2.2.2.1
  have hchk : ¬ ev > sub32 f.number_events 1 := by
    rw [event_check_iff hv]
    omega
  have hst : ∀ s, sub32 f1.number_states 1 < s ↔ f.number_states ≤ s := by
    intro s
    rw [← hn]
    exact state_check_iff hv1 s
  by_cases hflag : f1.exception_state_indicator = true
  · rw [if_pos hflag] at hns
    subst hns
    by_cases hbad : f.number_states ≤ f1.exception_state
    · have hbad1 := (hst _).mpr hbad
      rw [if_pos hbad]
      rcases hrec : fsm_record_history
          { f1 with exception_state_indicator := false, next_state := f1.exception_state }
          ev f1.exception_state RC_FSM_INVALID_STATE with _ | g <;>
        simp [fsm_engine, hv.1, hchk, ht, hh, hrun, hflag, hbad1, hrec]
    · have hbad1 : ¬ sub32 f1.number_states 1 < f1.exception_state := fun c => hbad ((hst _).mp c)
      rw [if_neg hbad]
      rcases hrec : fsm_record_history
          { f1 with exception_state_indicator := false, next_state := f1.exception_state }
          ev f1.exception_state RC_FSM_OK with _ | g <;>
        simp [fsm_engine, hv.1, hchk, ht, hh, hrun, hflag, hbad1, hrec]
  · rw [if_neg hflag] at hns
    subst hns
    have hfalse : f1.exception_state_indicator = false := by
      simpa using hflag
    by_cases hbad : f.number_states ≤ t.next_state
    · have hbad1 := (hst _).mpr hbad
      rw [if_pos hbad]
      rcases hrec : fsm_record_history
          { f1 with exception_state_indicator := false, next_state := t.next_state }
          ev t.next_state RC_FSM_INVALID_STATE with _ | g <;>
        simp [fsm_engine, hv.1, hchk, ht, hh, hrun, hfalse, hbad1, hrec]
    · have hbad1 : ¬ sub32 f1.number_states 1 < t.next_state := fun c => hbad ((hst _).mp c)
      rw [if_neg hbad]
      rcases hrec : fsm_record_history
          { f1 with exception_state_indicator := false, next_state := t.next_state }
          ev t.next_state RC_FSM_OK with _ | g <;>
        simp [fsm_engine, hv.1, hchk, ht, hh, hrun, hfalse, hbad1, hrec]

/-- The commit of `fsm_engine`: on a valid instance, when the handler (touching
the instance through `fsm_set_exception_state` at most) returns `RC_FSM_OK` and
the resolved next state `ns` is below `number_states`, `fsm_engine` returns
`RC_FSM_OK`, the current state and the pending next state are `ns`, the
override flag is cleared, one history record `(previous current state, ns,
event_id, RC_FSM_OK)` is written, and the instance is still valid. -/
theorem fsm_engine_commit_resolved {H U : Type} (code : H → handler_sem H U)
    (f f1 : fsm_t H) (ev p2event_buffer p2parm : Nat) (mem mem1 : U) (t : event_tuple_t H)
    (h : H) (hv : fsm_valid f) (hev : ev < f.number_events)
    (ht : event_ptr_at f.state_table f.curr_state ev = some t)
    (hh : t.event_handler = some h)
    (hrun : code h p2event_buffer p2parm (f, mem) = (RC_FSM_OK, some f1, mem1))
    (hapi : via_set_exception_state f f1) (ns : Nat)
    (hns : ns = if f1.exception_state_indicator then f1.exception_state else t.next_state)
    (hres : ns < f.number_states) :
    ∃ g, fsm_engine code (some f) ev p2event_buffer p2parm mem =
        some (RC_FSM_OK, some g, mem1) ∧
      g.curr_state = ns ∧ g.next_state = ns ∧ g.exception_state_indicator = false ∧
      one_record_written f g f.curr_state ns ev RC_FSM_OK ∧ fsm_valid g := by
  have hv1 := via_set_exception_state_valid hv hapi
  obtain ⟨e1, e2, -, e4, e5, e6, e7, e8⟩ := via_set_exception_state_fields hapi
  obtain ⟨g, hg, hw, -⟩ :=
    fsm_record_history_spec { f1 with exception_state_indicator := false, next_state := ns }
      ev ns RC_FSM_OK hv1.2.2.2.2.2.2.2.2.1
  obtain ⟨r1, -, r3, -, r5, r6, r7, r8⟩ := fsm_record_history_fields hg
  have hw1 := one_record_written_congr
    { f1 with exception_state_indicator := false, next_state := ns } f g
    { g with curr_state := g.next_state } e7.symm e8.symm rfl rfl hw
  refine ⟨{ g with curr_state := g.next_state }, ?_, r3, r3, r5, ?_, ?_⟩
  · rw [fsm_engine_after_ok code f f1 ev p2event_buffer p2parm mem mem1 t h hv hev ht hh hrun
      hapi ns hns, if_neg (by omega), hg]
    rfl
  · rw [← e2]
    exact hw1
  · refine fsm_valid_of_fields hv (r1.trans e1) (r6.trans e4) (r7.trans e5) ?_ (r8.trans e6) ?_ ?_
    · show g.next_state < g.number_states
      rw [r3, r6]
      show ns < f1.number_states
      rw [e4]
      exact hres
    · show g.history.length = FSM_HISTORY
      rw [hw.2.1]
      exact hv1.2.2.2.2.2.2.2.2.1
    · show g.history_index < FSM_HISTORY
      rw [hw.1]
      exact Nat.mod_lt _ (by decide)

/-- An accepted `fsm_set_exception_state(s)` on a valid instance: `s` is a
normalized state, it is the override value and the override flag is armed. -/
theorem fsm_set_exception_state_ok {H : Type} {f g : fsm_t H} {s : Nat} (hv : fsm_valid f)
    (h : fsm_set_exception_state (some f) s = (RC_FSM_OK, some g)) :
    s < f.number_states ∧ g.exception_state = s ∧ g.exception_state_indicator = true := by
  unfold fsm_set_exception_state at h
  simp only at h
  split_ifs at h with h1 h2
  · simp at h
  · simp at h
  · simp only [Prod.mk.injEq, Option.some.injEq, true_and] at h
    subst h
    refine ⟨?_, rfl, rfl⟩
    have := (state_check_iff hv s).not.mp h2
    omega

/-! ## The transition engine -/

/-- Claim C7.  On a valid instance an event id at or above `number_events` (any
value, `0xFFFFFFFF` included) makes `fsm_engine` return `RC_FSM_INVALID_EVENT`
whatever the handlers are (none is called, the caller's memory is returned as
it was), leaves the current state and every field but the history as they were,
and writes one history record `(curr_state, curr_state, event_id,
RC_FSM_INVALID_EVENT)`. -/
theorem fsm_engine_invalid_event {H U : Type} (f : fsm_t H) (ev p2event_buffer p2parm : Nat)
    (mem : U) (hv : fsm_valid f) (hev : f.number_events ≤ ev) :
    ∃ g, (∀ code : H → handler_sem H U,
        fsm_engine code (some f) ev p2event_buffer p2parm mem =
          some (RC_FSM_INVALID_EVENT, some g, mem)) ∧
      g.curr_state = f.curr_state ∧
      one_record_written f g f.curr_state f.curr_state ev RC_FSM_INVALID_EVENT ∧
      { g with history_index := f.history_index, history := f.history } = f := by
  obtain ⟨g, hg, hw, hfr⟩ :=
    fsm_record_history_spec f ev f.curr_state RC_FSM_INVALID_EVENT hv.2.2.2.2.2.2.2.2.1
  refine ⟨g, ?_, by rw [← hfr], hw, hfr⟩
  intro code
  unfold fsm_engine
  simp [hv.1, (event_check_iff hv ev).mpr hev, hg]

theorem fsm_engine_invalid_event_witness :
    fsm_valid sample_fsm ∧ sample_fsm.number_events ≤ 4294967295 ∧
    ∃ g, (∀ code : Nat → handler_sem Nat Nat,
        fsm_engine code (some sample_fsm) 4294967295 0 0 (0 : Nat) =
          some (RC_FSM_INVALID_EVENT, some g, 0)) ∧
      g.curr_state = sample_fsm.curr_state ∧
      one_record_written sample_fsm g sample_fsm.curr_state sample_fsm.curr_state 4294967295
        RC_FSM_INVALID_EVENT ∧
      { g with history_index := sample_fsm.history_index, history := sample_fsm.history } =
        sample_fsm :=
  ⟨by decide, by decide,
    fsm_engine_invalid_event sample_fsm 4294967295 0 0 (0 : Nat) (by decide) (by decide)⟩

/-- Claim C4.  On a valid instance, for an event id below `number_events` whose
tuple in the current state has a `NULL` handler, `fsm_engine` returns
`RC_FSM_OK` whatever the handlers are, leaves the current state (and every
field but the history) as it was whatever the next state of the tuple is, and
writes one history record whose new-state field is the next state of the
tuple. -/
theorem fsm_engine_quiet_event {H U : Type} (f : fsm_t H) (ev p2event_buffer p2parm : Nat)
    (mem : U) (t : event_tuple_t H) (hv : fsm_valid f) (hev : ev < f.number_events)
    (ht : event_ptr_at f.state_table f.curr_state ev = some t)
    (hq : t.event_handler = none) :
    ∃ g, (∀ code : H → handler_sem H U,
        fsm_engine code (some f) ev p2event_buffer p2parm mem = some (RC_FSM_OK, some g, mem)) ∧
      g.curr_state = f.curr_state ∧
      one_record_written f g f.curr_state t.next_state ev RC_FSM_INVALID_EVENT_HANDLER ∧
      { g with history_index := f.history_index, history := f.history } = f := by
  obtain ⟨g, hg, hw, hfr⟩ :=
    fsm_record_history_spec f ev t.next_state RC_FSM_INVALID_EVENT_HANDLER hv.2.2.2.2.2.2.2.2.1
  refine ⟨g, ?_, by rw [← hfr], hw, hfr⟩
  intro code
  have hchk : ¬ ev > sub32 f.number_events 1 := by
    rw [event_check_iff hv]
    omega
  unfold fsm_engine
  simp [hv.1, hchk, ht, hq, hg]

theorem fsm_engine_quiet_event_witness :
    fsm_valid sample_fsm ∧ 1 < sample_fsm.number_events ∧
    event_ptr_at sample_fsm.state_table sample_fsm.curr_state 1 = some ⟨1, none, 2⟩ ∧
    ∃ g, (∀ code : Nat → handler_sem Nat Nat,
        fsm_engine code (some sample_fsm) 1 0 0 (0 : Nat) = some (RC_FSM_OK, some g, 0)) ∧
      g.curr_state = sample_fsm.curr_state ∧
      one_record_written sample_fsm g sample_fsm.curr_state 2 1 RC_FSM_INVALID_EVENT_HANDLER ∧
      { g with history_index := sample_fsm.history_index, history := sample_fsm.history } =
        sample_fsm :=
  ⟨by decide, by decide, rfl,
    fsm_engine_quiet_event sample_fsm 1 0 0 (0 : Nat) ⟨1, none, 2⟩ (by decide) (by decide) rfl
      rfl⟩

/-- Claim C3.  On a valid instance, for a valid event whose handler (touching
the instance through `fsm_set_exception_state` at most) returns a code other
than `RC_FSM_OK` and `RC_FSM_STOP_PROCESSING`, `fsm_engine` returns that code,
the current state is the one before the call, one history record
`(curr_state, next_state of the tuple, event_id, code)` is written, and every
field but the history is as the handler left it. -/
theorem fsm_engine_handler_error {H U : Type} (code : H → handler_sem H U) (f f1 : fsm_t H)
    (ev p2event_buffer p2parm : Nat) (mem mem1 : U) (t : event_tuple_t H) (h : H)
    (rc : RC_FSM_t) (hv : fsm_valid f) (hev : ev < f.number_events)
    (ht : event_ptr_at f.state_table f.curr_state ev = some t)
    (hh : t.event_handler = some h)
    (hrun : code h p2event_buffer p2parm (f, mem) = (rc, some f1, mem1))
    (hapi : via_set_exception_state f f1)
    (hok : rc ≠ RC_FSM_OK) (hstop : rc ≠ RC_FSM_STOP_PROCESSING) :
    ∃ g, fsm_engine code (some f) ev p2event_buffer p2parm mem = some (rc, some g, mem1) ∧
      g.curr_state = f.curr_state ∧
      one_record_written f g f.curr_state t.next_state ev rc ∧
      { g with history_index := f1.history_index, history := f1.history } = f1 := by
  have hv1 := via_set_exception_state_valid hv hapi
  have e := via_set_exception_state_frame hapi
  obtain ⟨g, hg, hw, hfr⟩ :=
    fsm_record_history_spec f1 ev t.next_state rc hv1.2.2.2.2.2.2.2.2.1
  have hchk : ¬ ev > sub32 f.number_events 1 := by
    rw [event_check_iff hv]
    omega
  refine ⟨g, ?_, ?_, ?_, hfr⟩
  · unfold fsm_engine
    simp [hv.1, hchk, ht, hh, hrun, hok, hstop, hg]
  · rw [← e, ← hfr]
  · rw [← e]
    exact hw

theorem fsm_engine_handler_error_witness :
    fsm_valid sample_fsm ∧ 3 < sample_fsm.number_events ∧
    ∃ g, fsm_engine sample_code (some sample_fsm) 3 0 0 (0 : Nat) =
        some (RC_FSM_IGNORE_EVENT, some g, 1) ∧
      g.curr_state = sample_fsm.curr_state ∧
      one_record_written sample_fsm g sample_fsm.curr_state 1 3 RC_FSM_IGNORE_EVENT ∧
      { g with history_index := sample_fsm.history_index, history := sample_fsm.history } =
        sample_fsm :=
  ⟨by decide, by decide,
    fsm_engine_handler_error sample_code sample_fsm sample_fsm 3 0 0 0 1 ⟨3, some 1, 1⟩ 1
      RC_FSM_IGNORE_EVENT (by decide) (by decide) rfl rfl rfl (Or.inl rfl) (by decide)
      (by decide)⟩

/-- Claim C8.  When the handler returns `RC_FSM_STOP_PROCESSING`, `fsm_engine`
returns `RC_FSM_STOP_PROCESSING` and the result carries the instance exactly
as the handler left it, field for field, history index and slots included;
this holds also when the handler has released the instance (`inst` is `none`),
so the engine does not touch the instance after the handler. -/
theorem fsm_engine_stop_processing {H U : Type} (code : H → handler_sem H U) (f : fsm_t H)
    (ev p2event_buffer p2parm : Nat) (mem mem1 : U) (t : event_tuple_t H) (h : H)
    (inst : Option (fsm_t H)) (hv : fsm_valid f) (hev : ev < f.number_events)
    (ht : event_ptr_at f.state_table f.curr_state ev = some t)
    (hh : t.event_handler = some h)
    (hrun : code h p2event_buffer p2parm (f, mem) = (RC_FSM_STOP_PROCESSING, inst, mem1)) :
    fsm_engine code (some f) ev p2event_buffer p2parm mem =
      some (RC_FSM_STOP_PROCESSING, inst, mem1) := by
  have hchk : ¬ ev > sub32 f.number_events 1 := by
    rw [event_check_iff hv]
    omega
  unfold fsm_engine
  simp [hv.1, hchk, ht, hh, hrun]

theorem fsm_engine_stop_processing_witness :
    fsm_valid sample_fsm ∧ 4 < sample_fsm.number_events ∧
    fsm_engine sample_code (some sample_fsm) 4 0 0 (0 : Nat) =
      some (RC_FSM_STOP_PROCESSING, none, 1) :=
  ⟨by decide, by decide,
    fsm_engine_stop_processing sample_code sample_fsm 4 0 0 0 1 ⟨4, some 3, 1⟩ 3 none
      (by decide) (by decide) rfl rfl rfl⟩

/-- Claim C10.  On a valid instance `fsm_set_exception_state(state)` returns
`RC_FSM_INVALID_STATE` and leaves the instance (override flag and value
included) as it was when `state ≥ number_states`; otherwise it returns
`RC_FSM_OK` and the instance differs from the one before in exactly two
fields: the override value is `state` and the override flag is armed. -/
theorem fsm_set_exception_state_spec {H : Type} (f : fsm_t H) (state : Nat)
    (hv : fsm_valid f) :
    fsm_set_exception_state (some f) state =
      if f.number_states ≤ state then (RC_FSM_INVALID_STATE, some f)
      else
        (RC_FSM_OK,
          some { f with exception_state := state, exception_state_indicator := true }) := by
  unfold fsm_set_exception_state
  by_cases hs : f.number_states ≤ state
  · simp [hv.1, (state_check_iff hv state).mpr hs, hs]
  · have hchk : ¬ state > sub32 f.number_states 1 := by
      rw [state_check_iff hv]
      exact hs
    simp [hv.1, hchk, hs]

theorem fsm_set_exception_state_spec_witness :
    fsm_valid sample_fsm ∧
    fsm_set_exception_state (some sample_fsm) 3 =
      if sample_fsm.number_states ≤ 3 then (RC_FSM_INVALID_STATE, some sample_fsm)
      else
        (RC_FSM_OK,
          some { sample_fsm with exception_state := 3, exception_state_indicator := true }) :=
  ⟨by decide, fsm_set_exception_state_spec sample_fsm 3 (by decide)⟩

/-- Claim C6.  On a valid instance, when the handler (touching the instance
through `fsm_set_exception_state` at most) returns `RC_FSM_OK` and the resolved
next state (the override value when the override flag is armed, else the next
state of the tuple) is at or above `number_states`, `fsm_engine` returns
`RC_FSM_INVALID_STATE`, the current state is the one before the call, and one
history record `(curr_state, resolved next state, event_id,
RC_FSM_INVALID_STATE)` is written. -/
theorem fsm_engine_invalid_next_state {H U : Type} (code : H → handler_sem H U)
    (f f1 : fsm_t H) (ev p2event_buffer p2parm : Nat) (mem mem1 : U) (t : event_tuple_t H)
    (h : H) (hv : fsm_valid f) (hev : ev < f.number_events)
    (ht : event_ptr_at f.state_table f.curr_state ev = some t)
    (hh : t.event_handler = some h)
    (hrun : code h p2event_buffer p2parm (f, mem) = (RC_FSM_OK, some f1, mem1))
    (hapi : via_set_exception_state f f1)
    (hres : f.number_states ≤
      (if f1.exception_state_indicator then f1.exception_state else t.next_state)) :
    ∃ g, fsm_engine code (some f) ev p2event_buffer p2parm mem =
        some (RC_FSM_INVALID_STATE, some g, mem1) ∧
      g.curr_state = f.curr_state ∧
      one_record_written f g f.curr_state
        (if f1.exception_state_indicator then f1.exception_state else t.next_state) ev
        RC_FSM_INVALID_STATE := by
  have hv1 := via_set_exception_state_valid hv hapi
  obtain ⟨-, e2, -, -, -, -, e7, e8⟩ := via_set_exception_state_fields hapi
  generalize hns :
    (if f1.exception_state_indicator then f1.exception_state else t.next_state) = ns at hres ⊢
  obtain ⟨g, hg, hw, -⟩ :=
    fsm_record_history_spec { f1 with exception_state_indicator := false, next_state := ns }
      ev ns RC_FSM_INVALID_STATE hv1.2.2.2.2.2.2.2.2.1
  obtain ⟨-, r2, -⟩ := fsm_record_history_fields hg
  have hw1 := one_record_written_congr
    { f1 with exception_state_indicator := false, next_state := ns } f g g e7.symm e8.symm rfl
    rfl hw
  refine ⟨g, ?_, r2.trans e2, ?_⟩
  · rw [fsm_engine_after_ok code f f1 ev p2event_buffer p2parm mem mem1 t h hv hev ht hh hrun
      hapi ns hns.symm, if_pos hres, hg]
    rfl
  · rw [← e2]
    exact hw1

theorem fsm_engine_invalid_next_state_witness :
    fsm_valid sample_fsm ∧ 5 < sample_fsm.number_events ∧
    sample_fsm.number_states ≤
      (if sample_fsm.exception_state_indicator then sample_fsm.exception_state else 7) ∧
    ∃ g, fsm_engine sample_code (some sample_fsm) 5 0 0 (0 : Nat) =
        some (RC_FSM_INVALID_STATE, some g, 1) ∧
      g.curr_state = sample_fsm.curr_state ∧
      one_record_written sample_fsm g sample_fsm.curr_state
        (if sample_fsm.exception_state_indicator then sample_fsm.exception_state else 7) 5
        RC_FSM_INVALID_STATE :=
  ⟨by decide, by decide, by decide,
    fsm_engine_invalid_next_state sample_code sample_fsm sample_fsm 5 0 0 0 1 ⟨5, some 0, 7⟩ 0
      (by decide) (by decide) rfl rfl rfl (Or.inl rfl) (by decide)⟩

/-- Claim C2 fails as stated.  Event `6` on the sample instance: the handler
arms the override to state `2` and refuses the event, `fsm_engine` returns the
refusal and leaves the valid instance `sample_refused` with the override still
armed.  Event `0` on that instance: its tuple has a handler and next state
`1`, below `number_states`; the handler returns `RC_FSM_OK` and leaves
the instance as it was, so it arms nothing; `fsm_engine` returns `RC_FSM_OK`
and the current state is `2`, not `1`. -/
theorem fsm_engine_stale_override :
    fsm_engine sample_code (some sample_fsm) 6 0 0 (0 : Nat) =
        some (RC_FSM_IGNORE_EVENT, some sample_refused, 1) ∧
      fsm_valid sample_refused ∧ 0 < sample_refused.number_events ∧
      event_ptr_at sample_refused.state_table sample_refused.curr_state 0 =
        some ⟨0, some 0, 1⟩ ∧
      sample_code 0 0 0 (sample_refused, 1) = (RC_FSM_OK, some sample_refused, 2) ∧
      1 < sample_refused.number_states ∧
      (fsm_engine sample_code (some sample_refused) 0 0 0 (1 : Nat)).map
          (fun r => (r.1, r.2.1.map (fun g => g.curr_state), r.2.2)) =
        some (RC_FSM_OK, some 2, 2) := by
  decide

/-- Claim C2, amended.  On a valid instance, for an event id below
`number_events` whose tuple in the current state has a handler: when the
handler (touching the instance through `fsm_set_exception_state` at most)
returns `RC_FSM_OK`, the override flag is not armed when it returns, and the
next state of the tuple is below `number_states`, `fsm_engine` returns
`RC_FSM_OK`, the current state after the call is the next state of the tuple,
and one history record `(previous current state, next state, event_id,
RC_FSM_OK)` is written. -/
theorem fsm_engine_commit_tuple {H U : Type} (code : H → handler_sem H U)
    (f f1 : fsm_t H) (ev p2event_buffer p2parm : Nat) (mem mem1 : U) (t : event_tuple_t H)
    (h : H) (hv : fsm_valid f) (hev : ev < f.number_events)
    (ht : event_ptr_at f.state_table f.curr_state ev = some t)
    (hh : t.event_handler = some h)
    (hrun : code h p2event_buffer p2parm (f, mem) = (RC_FSM_OK, some f1, mem1))
    (hapi : via_set_exception_state f f1)
    (hflag : f1.exception_state_indicator = false)
    (hns : t.next_state < f.number_states) :
    ∃ g, fsm_engine code (some f) ev p2event_buffer p2parm mem =
        some (RC_FSM_OK, some g, mem1) ∧
      g.curr_state = t.next_state ∧
      one_record_written f g f.curr_state t.next_state ev RC_FSM_OK := by
  obtain ⟨g, hg, hc, -, -, hw, -⟩ :=
    fsm_engine_commit_resolved code f f1 ev p2event_buffer p2parm mem mem1 t h hv hev ht hh hrun
      hapi t.next_state (by simp [hflag]) hns
  exact ⟨g, hg, hc, hw⟩

theorem fsm_engine_commit_tuple_witness :
    fsm_valid sample_fsm ∧ 0 < sample_fsm.number_events ∧
    sample_fsm.exception_state_indicator = false ∧ 1 < sample_fsm.number_states ∧
    ∃ g, fsm_engine sample_code (some sample_fsm) 0 0 0 (0 : Nat) =
        some (RC_FSM_OK, some g, 1) ∧
      g.curr_state = 1 ∧
      one_record_written sample_fsm g sample_fsm.curr_state 1 0 RC_FSM_OK :=
  ⟨by decide, by decide, rfl, by decide,
    fsm_engine_commit_tuple sample_code sample_fsm sample_fsm 0 0 0 0 1 ⟨0, some 0, 1⟩ 0
      (by decide) (by decide) rfl rfl rfl (Or.inl rfl) rfl (by decide)⟩

/-- Claim C5.  On a valid instance, when the handler of a valid event arms the
override by an accepted `fsm_set_exception_state(s)` and returns `RC_FSM_OK`,
`fsm_engine` returns `RC_FSM_OK`, the current state after the call is `s`
whatever the next state of the tuple is, and the override flag is cleared.
On the instance so obtained, a following event with a handler that returns
`RC_FSM_OK` and does not arm the override again, with a tuple whose next state
is a normalized state, is committed to the next state of its tuple. -/
theorem fsm_engine_override_once {H U : Type} (code : H → handler_sem H U)
    (f f1 : fsm_t H) (ev p2event_buffer p2parm : Nat) (mem mem1 : U) (t : event_tuple_t H)
    (h : H) (s : Nat) (hv : fsm_valid f) (hev : ev < f.number_events)
    (ht : event_ptr_at f.state_table f.curr_state ev = some t)
    (hh : t.event_handler = some h)
    (hrun : code h p2event_buffer p2parm (f, mem) = (RC_FSM_OK, some f1, mem1))
    (harm : fsm_set_exception_state (some f) s = (RC_FSM_OK, some f1)) :
    ∃ g, fsm_engine code (some f) ev p2event_buffer p2parm mem =
        some (RC_FSM_OK, some g, mem1) ∧
      g.curr_state = s ∧ g.exception_state_indicator = false ∧
      ∀ (ev2 p2 q2 : Nat) (m m2 : U) (t2 : event_tuple_t H) (h2 : H) (g1 : fsm_t H),
        ev2 < g.number_events →
        event_ptr_at g.state_table g.curr_state ev2 = some t2 →
        t2.event_handler = some h2 →
        code h2 p2 q2 (g, m) = (RC_FSM_OK, some g1, m2) →
        via_set_exception_state g g1 →
        g1.exception_state_indicator = false →
        t2.next_state < g.number_states →
        ∃ g2, fsm_engine code (some g) ev2 p2 q2 m = some (RC_FSM_OK, some g2, m2) ∧
          g2.curr_state = t2.next_state := by
  obtain ⟨hs, hx, hi⟩ := fsm_set_exception_state_ok hv harm
  obtain ⟨g, hg, hc, -, hf, -, hvg⟩ :=
    fsm_engine_commit_resolved code f f1 ev p2event_buffer p2parm mem mem1 t h hv hev ht hh hrun
      (Or.inr ⟨s, harm⟩) s (by simp [hi, hx]) hs
  refine ⟨g, hg, hc, hf, ?_⟩
  intro ev2 p2 q2 m m2 t2 h2 g1 hev2 ht2 hh2 hrun2 hapi2 hflag2 hns2
  obtain ⟨g2, hg2, hc2, -⟩ :=
    fsm_engine_commit_resolved code g g1 ev2 p2 q2 m m2 t2 h2 hvg hev2 ht2 hh2 hrun2 hapi2
      t2.next_state (by simp [hflag2]) hns2
  exact ⟨g2, hg2, hc2⟩

theorem fsm_engine_override_once_witness :
    fsm_valid sample_fsm ∧ 2 < sample_fsm.number_events ∧
    fsm_set_exception_state (some sample_fsm) 2 = (RC_FSM_OK, some sample_armed) ∧
    ∃ g, fsm_engine sample_code (some sample_fsm) 2 0 0 (0 : Nat) =
        some (RC_FSM_OK, some g, 1) ∧
      g.curr_state = 2 ∧ g.exception_state_indicator = false ∧
      ∀ (ev2 p2 q2 : Nat) (m m2 : Nat) (t2 : event_tuple_t Nat) (h2 : Nat) (g1 : fsm_t Nat),
        ev2 < g.number_events →
        event_ptr_at g.state_table g.curr_state ev2 = some t2 →
        t2.event_handler = some h2 →
        sample_code h2 p2 q2 (g, m) = (RC_FSM_OK, some g1, m2) →
        via_set_exception_state g g1 →
        g1.exception_state_indicator = false →
        t2.next_state < g.number_states →
        ∃ g2, fsm_engine sample_code (some g) ev2 p2 q2 m = some (RC_FSM_OK, some g2, m2) ∧
          g2.curr_state = t2.next_state :=
  ⟨by decide, by decide, rfl,
    fsm_engine_override_once sample_code sample_fsm sample_armed 2 0 0 0 1 ⟨2, some 2, 1⟩ 2 2
      (by decide) (by decide) rfl rfl rfl rfl⟩

/-- On a valid instance the tuple of the current state and of an event id
below `number_events` can be read. -/
theorem event_ptr_at_valid {H : Type} {f : fsm_t H} (hv : fsm_valid f) {ev : Nat}
    (hev : ev < f.number_events) :
    ∃ t, event_ptr_at f.state_table f.curr_state ev = some t := by
  have h := hv.2.2.2.2.2.2.2.1 f.curr_state hv.2.2.2.2.2.1 ev hev
  cases hc : event_ptr_at f.state_table f.curr_state ev with
  | none => rw [hc] at h; simp at h
  | some t => exact ⟨t, rfl⟩

/-- Claim C9.  A call of `fsm_engine` on a valid instance (the handle check
passed), whose handler, if one is called, either returns
`RC_FSM_STOP_PROCESSING` or leaves the instance touched through
`fsm_set_exception_state` at most: either the call ends in stop-processing and
its result is the result of the handler, instance included, so that the engine
has written no slot and no index; or the instance after the call is the one
before with one history record written: the write index advanced by one modulo
`FSM_HISTORY`, the slot at the new index carrying the record, every other slot
as it was.  A call on a `NULL` handle and a call on an instance whose tag is
not `FSM_TAG` leave the instance, its history included, as it was. -/
theorem fsm_engine_history_frame {H U : Type} (code : H → handler_sem H U) (f : fsm_t H)
    (ev p2event_buffer p2parm : Nat) (mem : U) (hv : fsm_valid f)
    (hcode : ∀ t h, event_ptr_at f.state_table f.curr_state ev = some t →
      t.event_handler = some h →
      (code h p2event_buffer p2parm (f, mem)).1 = RC_FSM_STOP_PROCESSING ∨
        ∃ f1, (code h p2event_buffer p2parm (f, mem)).2.1 = some f1 ∧
          via_set_exception_state f f1) :
    (∃ rc inst mem1,
      fsm_engine code (some f) ev p2event_buffer p2parm mem = some (rc, inst, mem1) ∧
      if rc = RC_FSM_STOP_PROCESSING then
        ∃ t h, event_ptr_at f.state_table f.curr_state ev = some t ∧
          t.event_handler = some h ∧
          code h p2event_buffer p2parm (f, mem) = (rc, inst, mem1)
      else ∃ g prev new r, inst = some g ∧ one_record_written f g prev new ev r) ∧
    fsm_engine code none ev p2event_buffer p2parm mem = some (RC_FSM_NULL, none, mem) ∧
    ∀ f0 : fsm_t H, f0.tag ≠ FSM_TAG →
      fsm_engine code (some f0) ev p2event_buffer p2parm mem =
        some (RC_FSM_INVALID_HANDLE, some f0, mem) := by
  refine ⟨?_, rfl, ?_⟩
  · by_cases hev : f.number_events ≤ ev
    · obtain ⟨g, hg, hw, -⟩ :=
        fsm_record_history_spec f ev f.curr_state RC_FSM_INVALID_EVENT hv.2.2.2.2.2.2.2.2.1
      refine ⟨RC_FSM_INVALID_EVENT, some g, mem, ?_, ?_⟩
      · unfold fsm_engine
        simp [hv.1, (event_check_iff hv ev).mpr hev, hg]
      · rw [if_neg (by decide)]
        exact ⟨g, _, _, _, rfl, hw⟩
    · have hev1 : ev < f.number_events := by omega
      have hchk : ¬ ev > sub32 f.number_events 1 := by
        rw [event_check_iff hv]
        exact hev
      obtain ⟨t, ht⟩ := event_ptr_at_valid hv hev1
      cases hh : t.event_handler with
      | none =>
        obtain ⟨g, hg, hw, -⟩ :=
          fsm_record_history_spec f ev t.next_state RC_FSM_INVALID_EVENT_HANDLER
            hv.2.2.2.2.2.2.2.2.1
        refine ⟨RC_FSM_OK, some g, mem, ?_, ?_⟩
        · unfold fsm_engine
          simp [hv.1, hchk, ht, hh, hg]
        · rw [if_neg (by decide)]
          exact ⟨g, _, _, _, rfl, hw⟩
      | some h =>
        rcases hrun : code h p2event_buffer p2parm (f, mem) with ⟨rc, inst, mem1⟩
        by_cases hstop : rc = RC_FSM_STOP_PROCESSING
        · refine ⟨rc, inst, mem1, ?_, ?_⟩
          · unfold fsm_engine
            simp [hv.1, hchk, ht, hh, hrun, hstop]
          · rw [if_pos hstop]
            exact ⟨t, h, ht, hh, hrun⟩
        · have hc := hcode t h ht hh
          rw [hrun] at hc
          rcases hc with hc | ⟨f1, hi, hapi⟩
          · exact absurd hc hstop
          · simp only at hi
            subst hi
            have hv1 := via_set_exception_state_valid hv hapi
            obtain ⟨-, -, -, -, -, -, e7, e8⟩ := via_set_exception_state_fields hapi
            by_cases hok : rc = RC_FSM_OK
            · subst hok
              generalize hns :
                (if f1.exception_state_indicator then f1.exception_state else t.next_state) = ns
              have hres := fsm_engine_after_ok code f f1 ev p2event_buffer p2parm mem mem1 t h
                hv hev1 ht hh hrun hapi ns hns.symm
              by_cases hbad : f.number_states ≤ ns
              · obtain ⟨g, hg, hw, -⟩ :=
                  fsm_record_history_spec
                    { f1 with exception_state_indicator := false, next_state := ns }
                    ev ns RC_FSM_INVALID_STATE hv1.2.2.2.2.2.2.2.2.1
                rw [if_pos hbad, hg] at hres
                refine ⟨RC_FSM_INVALID_STATE, some g, mem1, hres, ?_⟩
                rw [if_neg (by decide)]
                exact ⟨g, _, _, _, rfl,
                  one_record_written_congr _ f g g e7.symm e8.symm rfl rfl hw⟩
              · obtain ⟨g, hg, hw, -⟩ :=
                  fsm_record_history_spec
                    { f1 with exception_state_indicator := false, next_state := ns }
                    ev ns RC_FSM_OK hv1.2.2.2.2.2.2.2.2.1
                rw [if_neg hbad, hg] at hres
                refine ⟨RC_FSM_OK, some { g with curr_state := g.next_state }, mem1, hres, ?_⟩
                rw [if_neg (by decide)]
                exact ⟨_, _, _, _, rfl,
                  one_record_written_congr _ f g { g with curr_state := g.next_state }
                    e7.symm e8.symm rfl rfl hw⟩
            · obtain ⟨g, hg, hw, -⟩ :=
                fsm_record_history_spec f1 ev t.next_state rc hv1.2.2.2.2.2.2.2.2.1
              refine ⟨rc, some g, mem1, ?_, ?_⟩
              · unfold fsm_engine
                simp [hv.1, hchk, ht, hh, hrun, hstop, hok, hg]
              · rw [if_neg hstop]
                exact ⟨g, _, _, _, rfl,
                  one_record_written_congr f1 f g g e7.symm e8.symm rfl rfl hw⟩
  · intro f0 h0
    unfold fsm_engine
    simp [h0]

/-- On the sample instance the handler of event `0` leaves the instance as it was. -/
theorem sample_code_behaved :
    ∀ t h, event_ptr_at sample_fsm.state_table sample_fsm.curr_state 0 = some t →
      t.event_handler = some h →
      (sample_code h 0 0 (sample_fsm, 0)).1 = RC_FSM_STOP_PROCESSING ∨
        ∃ f1, (sample_code h 0 0 (sample_fsm, 0)).2.1 = some f1 ∧
          via_set_exception_state sample_fsm f1 := by
  intro t h ht hh
  have e : some (⟨0, some 0, 1⟩ : event_tuple_t Nat) = some t := ht
  cases e
  cases hh
  exact Or.inr ⟨sample_fsm, rfl, Or.inl rfl⟩

theorem fsm_engine_history_frame_witness :
    fsm_valid sample_fsm ∧
    (∃ rc inst mem1,
      fsm_engine sample_code (some sample_fsm) 0 0 0 (0 : Nat) = some (rc, inst, mem1) ∧
      if rc = RC_FSM_STOP_PROCESSING then
        ∃ t h, event_ptr_at sample_fsm.state_table sample_fsm.curr_state 0 = some t ∧
          t.event_handler = some h ∧
          sample_code h 0 0 (sample_fsm, 0) = (rc, inst, mem1)
      else ∃ g prev new r, inst = some g ∧ one_record_written sample_fsm g prev new 0 r) ∧
    fsm_engine sample_code none 0 0 0 (0 : Nat) = some (RC_FSM_NULL, none, 0) ∧
    ∀ f0 : fsm_t Nat, f0.tag ≠ FSM_TAG →
      fsm_engine sample_code (some f0) 0 0 0 (0 : Nat) =
        some (RC_FSM_INVALID_HANDLE, some f0, 0) :=
  ⟨by decide,
    fsm_engine_history_frame sample_code sample_fsm 0 0 0 (0 : Nat) (by decide)
      sample_code_behaved⟩

/-! ## Construction -/

/-- The state description scan on well-formed tables ends at the sentinel with
`number_states = n`. -/
theorem scan_state_description_ok {H : Type} {sd : List state_description_t}
    {st : List (state_tuple_t H)} {n : Nat} (hn : n ≤ 63)
    (hsd : ∀ i, i < n → (sd[i]?).map (fun d => d.state_id) = some i)
    (hend : (sd[n]?).map (fun d => d.state_id) = some FSM_NULL_STATE_ID)
    (hst : ∀ i, i < n →
      (st[i]?).map (fun s => (s.state_id, s.p2event_tuple.isSome)) = some (i, true)) :
    ∀ fuel i, i ≤ n → fuel + i = FSM_MAX_STATES →
      scan_state_description sd st fuel i i = some (.ok n) := by
  intro fuel
  induction fuel with
  | zero =>
    intro i hi hf
    unfold FSM_MAX_STATES at hf
    omega
  | succ fuel ih =>
    intro i hi hf
    unfold scan_state_description
    rcases Nat.eq_or_lt_of_le hi with heq | hlt
    · subst heq
      obtain ⟨d, hd, hid⟩ := Option.map_eq_some'.mp hend
      simp [hd, hid]
    · obtain ⟨d, hd, hid⟩ := Option.map_eq_some'.mp (hsd i hlt)
      obtain ⟨s, hs, his⟩ := Option.map_eq_some'.mp (hst i hlt)
      simp only [Prod.mk.injEq] at his
      have hne : i ≠ FSM_NULL_STATE_ID := by
        unfold FSM_NULL_STATE_ID
        omega
      simp only [hd, hid, hs, his.1, his.2, ne_eq, hne, not_false_eq_true, if_true, and_self]
      exact ih (i + 1) hlt (by omega)

/-- The event description scan on a well-formed table ends at the sentinel
with `number_events = m`. -/
theorem scan_event_description_ok {ed : List event_description_t} {m : Nat} (hm : m ≤ 63)
    (hed : ∀ j, j < m → (ed[j]?).map (fun d => d.event_id) = some j)
    (hend : (ed[m]?).map (fun d => d.event_id) = some FSM_NULL_EVENT_ID) :
    ∀ fuel i, i ≤ m → fuel + i = FSM_MAX_EVENTS →
      scan_event_description ed fuel i i = some (.ok m) := by
  intro fuel
  induction fuel with
  | zero =>
    intro i hi hf
    unfold FSM_MAX_EVENTS at hf
    omega
  | succ fuel ih =>
    intro i hi hf
    unfold scan_event_description
    rcases Nat.eq_or_lt_of_le hi with heq | hlt
    · subst heq
      obtain ⟨d, hd, hid⟩ := Option.map_eq_some'.mp hend
      simp [hd, hid]
    · obtain ⟨d, hd, hid⟩ := Option.map_eq_some'.mp (hed i hlt)
      have hne : i ≠ FSM_NULL_EVENT_ID := by
        unfold FSM_NULL_EVENT_ID
        omega
      simp only [hd, hid, hne, if_false, ne_eq, not_true_eq_false]
      exact ih (i + 1) hlt (by omega)

/-- The inner verification loop succeeds on a tuple array whose first `m`
tuples carry their index as event id. -/
theorem verify_event_tuples_ok {H : Type} {tuples : List (event_tuple_t H)} {m : Nat}
    (h : ∀ j, j < m → (tuples[j]?).map (fun t => t.eventID) = some j) :
    ∀ fuel j, fuel + j = m → verify_event_tuples (some tuples) fuel j = some true := by
  intro fuel
  induction fuel with
  | zero =>
    intro j _
    rfl
  | succ fuel ih =>
    intro j hf
    unfold verify_event_tuples
    obtain ⟨t, ht, hid⟩ := Option.map_eq_some'.mp (h j (by omega))
    simp only [ht, hid, ne_eq, not_true_eq_false, if_false]
    exact ih (j + 1) (by omega)

/-- The outer verification loop succeeds on a well-formed state table. -/
theorem verify_state_table_ok {H : Type} {st : List (state_tuple_t H)} {n m : Nat}
    (hm : 1 ≤ m)
    (h : ∀ i, i < n → ∀ j, j < m →
      (event_ptr_at st i j).map (fun t => t.eventID) = some j) :
    ∀ fuel i, fuel + i = n → verify_state_table st m fuel i = some true := by
  intro fuel
  induction fuel with
  | zero =>
    intro i _
    rfl
  | succ fuel ih =>
    intro i hf
    have hi : i < n := by omega
    unfold verify_state_table
    have h0 := h i hi 0 hm
    unfold event_ptr_at at h0
    cases hs : st[i]? with
    | none => simp [hs] at h0
    | some s =>
      cases hp : s.p2event_tuple with
      | none => simp [hs, hp] at h0
      | some tuples =>
        have hrow : ∀ j, j < m → (tuples[j]?).map (fun t => t.eventID) = some j := by
          intro j hj
          have hj1 := h i hi j hj
          unfold event_ptr_at at hj1
          simpa [hs, hp] using hj1
        simp only [hp, verify_event_tuples_ok hrow m 0 (by omega)]
        exact ih (i + 1) (by omega)

/-- The history initialisation succeeds on a block that has the slots it
visits, and keeps the number of slots. -/
theorem init_history_ok :
    ∀ fuel i (l : List fsm_history_t), fuel + i ≤ l.length →
      ∃ r, init_history l fuel i = some r ∧ r.length = l.length := by
  intro fuel
  induction fuel with
  | zero =>
    intro i l _
    exact ⟨l, rfl, rfl⟩
  | succ fuel ih =>
    intro i l hl
    unfold init_history
    have hi : i < l.length := by omega
    rw [List.getElem?_eq_getElem hi]
    simp only
    obtain ⟨r, hr, hlen⟩ := ih (i + 1) (l.set i
      { l[i] with
        prevStateID := FSM_NULL_STATE_ID
        stateID := FSM_NULL_STATE_ID
        eventID := FSM_NULL_EVENT_ID
        handler_rc := RC_FSM_NULL }) (by rw [List.length_set]; omega)
    exact ⟨r, hr, by rw [hlen, List.length_set]⟩

/-- On well-formed tables, with an initial state below `n` and both
allocations succeeding, `fsm_create` returns `RC_FSM_OK` and stores in the
handle variable the block of the first allocation with every field written
but `exception_state` and `flags`, and with an initialised history. -/
theorem fsm_create_ok_eq {H : Type} (handle : Option (fsm_t H)) (name : Option String)
    (initial_state : Nat) (sd : List state_description_t) (ed : List event_description_t)
    (st : List (state_tuple_t H)) (n m : Nat) (heap : malloc_t H) (block : fsm_t H)
    (garbage : Nat → fsm_history_t) (hwf : tables_well_formed sd ed st n m)
    (hinit : initial_state < n) (hb : heap.fsm_block = some block)
    (hh : heap.history_block = some garbage) :
    ∃ history, history.length = FSM_HISTORY ∧
      fsm_create (some handle) name initial_state (some sd) (some ed) (some st) heap =
        some (RC_FSM_OK, some (some
          { block with
            fsm_name :=
              match name with
              | some s => strncpy s.toList FSM_NAME_LEN
              | none => strncpy "State Machine".toList FSM_NAME_LEN
            tag := FSM_TAG
            curr_state := initial_state
            next_state := initial_state
            exception_state_indicator := false
            state_description_table := sd
            event_description_table := ed
            state_table := st
            number_states := n
            number_events := m
            history_index := 0
            history := history })) := by
  obtain ⟨h1, h2, h3, h4, hsd, hsend, hst, hed, heend, htup⟩ := hwf
  have hs := scan_state_description_ok h2 hsd hsend hst FSM_MAX_STATES 0 (Nat.zero_le _) rfl
  have he := scan_event_description_ok h4 hed heend FSM_MAX_EVENTS 0 (Nat.zero_le _) rfl
  have hver := verify_state_table_ok h3 htup n 0 rfl
  obtain ⟨history, hhist, hlen⟩ :=
    init_history_ok FSM_HISTORY 0 ((List.range FSM_HISTORY).map garbage) (by simp)
  have c1 : ¬ (n < 1 ∨ n > FSM_MAX_STATES - 1) := by
    unfold FSM_MAX_STATES
    omega
  have c2 : ¬ initial_state > sub32 n 1 := by
    rw [sub32_one h1 (by unfold UINT32_MOD; omega)]
    omega
  have c3 : ¬ (m < 1 ∨ m > FSM_MAX_EVENTS - 1) := by
    unfold FSM_MAX_EVENTS
    omega
  refine ⟨history, by simpa using hlen, ?_⟩
  unfold fsm_create
  simp only [hb, hh, hs, he, hver, hhist, c1, c2, c3, if_false]

/-- Claim C1.  For well-formed tables with `n` states and `m` events, an
initial state below `n` and both allocations succeeding, `fsm_create` returns
`RC_FSM_OK` and stores an instance in the handle variable; on that instance
`fsm_get_state` returns `RC_FSM_OK` and yields the initial state.  It has
`n` states and `m` events and is valid. -/
theorem fsm_create_well_formed {H : Type} (handle : Option (fsm_t H)) (name : Option String)
    (initial_state : Nat) (sd : List state_description_t) (ed : List event_description_t)
    (st : List (state_tuple_t H)) (n m : Nat) (heap : malloc_t H) (block : fsm_t H)
    (garbage : Nat → fsm_history_t) (p2state : Nat) (hwf : tables_well_formed sd ed st n m)
    (hinit : initial_state < n) (hb : heap.fsm_block = some block)
    (hh : heap.history_block = some garbage) :
    ∃ f, fsm_create (some handle) name initial_state (some sd) (some ed) (some st) heap =
        some (RC_FSM_OK, some (some f)) ∧
      fsm_get_state (some f) (some p2state) = some (RC_FSM_OK, some initial_state) ∧
      f.number_states = n ∧ f.number_events = m ∧ fsm_valid f := by
  obtain ⟨history, hlen, hc⟩ :=
    fsm_create_ok_eq handle name initial_state sd ed st n m heap block garbage hwf hinit hb hh
  obtain ⟨h1, h2, h3, h4, -, -, hst, -, -, htup⟩ := hwf
  refine ⟨_, hc, ?_, rfl, rfl, ?_⟩
  · simp [fsm_get_state]
  · refine ⟨rfl, h1, h2, h3, h4, hinit, ?_, htup, hlen, ?_⟩
    swap
    · show 0 < FSM_HISTORY
      decide
    intro i hi
    obtain ⟨s, hs, his⟩ := Option.map_eq_some'.mp (hst i hi)
    simp only [Prod.mk.injEq] at his
    show (st[i]?).map (fun s => s.state_id) = some i
    rw [hs]
    simp [his.1]

theorem fsm_create_well_formed_witness :
    tables_well_formed sample_state_description sample_event_description sample_state_table
      3 7 ∧
    2 < 3 ∧
    ∃ f, fsm_create (some none) (some "sample") 2 (some sample_state_description)
          (some sample_event_description) (some sample_state_table) sample_heap =
        some (RC_FSM_OK, some (some f)) ∧
      fsm_get_state (some f) (some 99) = some (RC_FSM_OK, some 2) ∧
      f.number_states = 3 ∧ f.number_events = 7 ∧ fsm_valid f :=
  ⟨by decide, by decide,
    fsm_create_well_formed none (some "sample") 2 sample_state_description
      sample_event_description sample_state_table 3 7 sample_heap _ _ 99 (by decide)
      (by decide) rfl rfl⟩

/-- The sample instance is what `fsm_create` builds from the sample tables. -/
theorem sample_fsm_created :
    fsm_create (some none) (some "sample") 0 (some sample_state_description)
        (some sample_event_description) (some sample_state_table) sample_heap =
      some (RC_FSM_OK, some (some sample_fsm)) := by
  decide

/-- Claim C20.  On a handle variable that holds an instance, `fsm_destroy`
returns `RC_FSM_OK` and leaves `NULL` in the handle variable when the tag is
`FSM_TAG`, and returns `RC_FSM_INVALID_HANDLE` and leaves the handle variable
and the instance as they were when the tag is anything else; on a `NULL`
pointer to the handle variable it returns `RC_FSM_NULL`. -/
theorem fsm_destroy_spec {H : Type} (f : fsm_t H) :
    fsm_destroy (some (some f)) =
        (if f.tag = FSM_TAG then some (RC_FSM_OK, some none)
          else some (RC_FSM_INVALID_HANDLE, some (some f))) ∧
      fsm_destroy (none : Option (Option (fsm_t H))) = some (RC_FSM_NULL, none) := by
  refine ⟨?_, rfl⟩
  unfold fsm_destroy
  by_cases h : f.tag = FSM_TAG <;> simp [h]

/-- Writing the slot that follows a prefix `a`. -/
theorem set_after_prefix {α : Type} (a : List α) (x y : α) (b : List α) :
    (a ++ x :: b).set a.length y = a ++ y :: b := by
  induction a with
  | nil => rfl
  | cons z a ih => simp [ih]

/-- The history initialisation loop, started after a prefix `a` with as many
iterations as slots are left, wipes every slot that is left. -/
theorem init_history_append (b : List fsm_history_t) :
    ∀ a : List fsm_history_t,
      init_history (a ++ b) b.length a.length = some (a ++ b.map fsm_history_t.wiped) := by
  induction b with
  | nil =>
    intro a
    simp [init_history]
  | cons x b ih =>
    intro a
    have hx : (a ++ x :: b)[a.length]? = some x := by
      rw [List.getElem?_append_right (Nat.le_refl _)]
      simp
    have h1 := ih (a ++ [x.wiped])
    simp only [List.append_assoc, List.singleton_append, List.length_append, List.length_singleton]
      at h1
    show init_history (a ++ x :: b) (b.length + 1) a.length = _
    unfold init_history
    simp only [hx]
    have hset : (a ++ x :: b).set a.length
        { x with
          prevStateID := FSM_NULL_STATE_ID
          stateID := FSM_NULL_STATE_ID
          eventID := FSM_NULL_EVENT_ID
          handler_rc := RC_FSM_NULL } = a ++ x.wiped :: b := set_after_prefix a x _ b
    rw [hset, h1]
    rfl

/-- The history initialisation of `fsm_create` succeeds on the fresh block
and wipes its `FSM_HISTORY` slots. -/
theorem init_history_eq (garbage : Nat → fsm_history_t) :
    init_history ((List.range FSM_HISTORY).map garbage) FSM_HISTORY 0 =
      some (((List.range FSM_HISTORY).map garbage).map fsm_history_t.wiped) := by
  have h := init_history_append ((List.range FSM_HISTORY).map garbage) []
  simpa using h

/-- The only code that the state description scan returns from inside the
loop is `RC_FSM_INVALID_STATE_TABLE`. -/
theorem scan_state_description_error_code {H : Type} (sd : List state_description_t)
    (st : List (state_tuple_t H)) :
    ∀ fuel i acc rc, scan_state_description sd st fuel i acc = some (.error rc) →
      rc = RC_FSM_INVALID_STATE_TABLE := by
  intro fuel
  induction fuel with
  | zero =>
    intro i acc rc h
    simp [scan_state_description] at h
  | succ fuel ih =>
    intro i acc rc h
    unfold scan_state_description at h
    repeat' split at h
    all_goals first
      | exact ih _ _ _ h
      | (simp only [Option.some.injEq, Except.error.injEq] at h; exact h.symm)
      | simp at h

/-- The only code that the event description scan returns from inside the
loop is `RC_FSM_INVALID_EVENT_TABLE`. -/
theorem scan_event_description_error_code (ed : List event_description_t) :
    ∀ fuel i acc rc, scan_event_description ed fuel i acc = some (.error rc) →
      rc = RC_FSM_INVALID_EVENT_TABLE := by
  intro fuel
  induction fuel with
  | zero =>
    intro i acc rc h
    simp [scan_event_description] at h
  | succ fuel ih =>
    intro i acc rc h
    unfold scan_event_description at h
    repeat' split at h
    all_goals first
      | exact ih _ _ _ h
      | (simp only [Option.some.injEq, Except.error.injEq] at h; exact h.symm)
      | simp at h

/-- Every return of `fsm_create`: either the code is not `RC_FSM_OK` and the
handle variable is the one before the call, or the code is `RC_FSM_OK`, every
check of the function has passed, and the handle variable holds an instance
whose fields are the ones the function assigns. -/
theorem fsm_create_cases {H : Type} (fsm : Option (Option (fsm_t H))) (name : Option String)
    (initial_state : Nat) (sdo : Option (List state_description_t))
    (edo : Option (List event_description_t)) (sto : Option (List (state_tuple_t H)))
    (heap : malloc_t H) (rc : RC_FSM_t) (h' : Option (Option (fsm_t H)))
    (h : fsm_create fsm name initial_state sdo edo sto heap = some (rc, h')) :
    (rc ≠ RC_FSM_OK ∧ h' = fsm) ∨
    (rc = RC_FSM_OK ∧ ∃ f garbage, h' = some (some f) ∧ fsm ≠ none ∧
      heap.history_block = some garbage ∧
      f.history = ((List.range FSM_HISTORY).map garbage).map fsm_history_t.wiped ∧
      f.history_index = 0 ∧ f.exception_state_indicator = false ∧
      f.next_state = initial_state ∧ f.curr_state = initial_state ∧ f.tag = FSM_TAG ∧
      sdo = some f.state_description_table ∧ edo = some f.event_description_table ∧
      sto = some f.state_table ∧
      scan_state_description f.state_description_table f.state_table FSM_MAX_STATES 0 0 =
        some (.ok f.number_states) ∧
      ¬ (f.number_states < 1 ∨ f.number_states > FSM_MAX_STATES - 1) ∧
      ¬ initial_state > sub32 f.number_states 1 ∧
      scan_event_description f.event_description_table FSM_MAX_EVENTS 0 0 =
        some (.ok f.number_events) ∧
      ¬ (f.number_events < 1 ∨ f.number_events > FSM_MAX_EVENTS - 1) ∧
      verify_state_table f.state_table f.number_events f.number_states 0 = some true) := by
  unfold fsm_create at h
  simp only [init_history_eq] at h
  repeat' split at h
  all_goals first
    | exact Option.noConfusion h
    | (left
       simp only [Option.some.injEq, Prod.mk.injEq] at h
       obtain ⟨rfl, rfl⟩ := h
       exact ⟨by decide, rfl⟩)
    | (left
       simp only [Option.some.injEq, Prod.mk.injEq] at h
       obtain ⟨rfl, rfl⟩ := h
       refine ⟨?_, rfl⟩
       have hc := scan_state_description_error_code _ _ _ _ _ _ (by assumption)
       rw [hc]
       decide)
    | (left
       simp only [Option.some.injEq, Prod.mk.injEq] at h
       obtain ⟨rfl, rfl⟩ := h
       refine ⟨?_, rfl⟩
       have hc := scan_event_description_error_code _ _ _ _ _ (by assumption)
       rw [hc]
       decide)
    | (right
       simp only [Option.some.injEq, Prod.mk.injEq] at h
       obtain ⟨rfl, rfl⟩ := h
       refine ⟨rfl, _, _, rfl, by simp, by assumption, rfl, rfl, rfl, rfl, rfl, rfl, rfl, rfl,
         rfl, by assumption, by assumption, by assumption, by assumption, by assumption,
         by assumption⟩)

/-- Claim C16.  Whenever `fsm_create` returns a code other than `RC_FSM_OK`,
whatever the arguments and the outcome of the allocations, the handle variable
after the call is the handle variable before the call: no instance is handed
out.  The three tables are arguments that the function only reads; its result
carries no table. -/
theorem fsm_create_atomic {H : Type} (fsm : Option (Option (fsm_t H))) (name : Option String)
    (initial_state : Nat) (sdo : Option (List state_description_t))
    (edo : Option (List event_description_t)) (sto : Option (List (state_tuple_t H)))
    (heap : malloc_t H) (rc : RC_FSM_t) (h' : Option (Option (fsm_t H)))
    (h : fsm_create fsm name initial_state sdo edo sto heap = some (rc, h'))
    (hrc : rc ≠ RC_FSM_OK) : h' = fsm := by
  rcases fsm_create_cases fsm name initial_state sdo edo sto heap rc h' h with
    ⟨-, e⟩ | ⟨e, -⟩
  · exact e
  · exact absurd e hrc

theorem fsm_create_atomic_witness :
    (fsm_create (some (some sample_armed)) none 5 (some sample_state_description)
        (some sample_event_description) (some sample_state_table) sample_heap =
        some (RC_FSM_INVALID_STATE, some (some sample_armed)) ∧
      RC_FSM_INVALID_STATE ≠ RC_FSM_OK) ∧
    some (some sample_armed) = some (some sample_armed) :=
  ⟨⟨by decide, by decide⟩,
    fsm_create_atomic (some (some sample_armed)) none 5 (some sample_state_description)
      (some sample_event_description) (some sample_state_table) sample_heap
      RC_FSM_INVALID_STATE (some (some sample_armed)) (by decide) (by decide)⟩

/-- The loop of `fsm_show_history` prints nothing when every slot it visits
has the sentinel as new state. -/
theorem show_history_loop_empty {H : Type} (f : fsm_t H)
    (hall : ∀ i, i < FSM_HISTORY →
      (f.history[i]?).map (fun r => r.stateID) = some FSM_NULL_STATE_ID) :
    ∀ fuel i j, fuel + i = FSM_HISTORY → show_history_loop f fuel i j = some [] := by
  intro fuel
  induction fuel with
  | zero =>
    intro i j _
    rfl
  | succ fuel ih =>
    intro i j hf
    obtain ⟨r, hr, hid⟩ := Option.map_eq_some'.mp (hall i (by omega))
    unfold show_history_loop
    simp only [hr, hid, if_true]
    exact ih (i + 1) j (by omega)

/-- Claim C19.  The instance that a successful `fsm_create` stores in the
handle variable has `FSM_HISTORY` history slots that all hold the sentinel
record (previous state and new state `FSM_NULL_STATE_ID`, event
`FSM_NULL_EVENT_ID`, result `RC_FSM_NULL`), write index `0`, the override flag
disarmed and the pending next state equal to the initial state; and
`fsm_show_history` prints no record for it. -/
theorem fsm_create_fresh {H : Type} (fsm : Option (Option (fsm_t H))) (name : Option String)
    (initial_state : Nat) (sdo : Option (List state_description_t))
    (edo : Option (List event_description_t)) (sto : Option (List (state_tuple_t H)))
    (heap : malloc_t H) (f : fsm_t H)
    (h : fsm_create fsm name initial_state sdo edo sto heap =
      some (RC_FSM_OK, some (some f))) :
    f.history.length = FSM_HISTORY ∧
      (∀ i, i < FSM_HISTORY →
        (f.history[i]?).map fsm_history_t.written = some sentinel_record) ∧
      f.history_index = 0 ∧ f.exception_state_indicator = false ∧
      f.next_state = initial_state ∧ fsm_show_history (some f) = some [] := by
  rcases fsm_create_cases fsm name initial_state sdo edo sto heap _ _ h with
    ⟨e, -⟩ | ⟨-, f0, garbage, e, -, -, hhist, hidx, hflag, hnext, -, htag, -⟩
  · exact absurd rfl e
  · simp only [Option.some.injEq] at e
    subst e
    have hslot : ∀ i, i < FSM_HISTORY →
        f.history[i]? = some (garbage i).wiped := by
      intro i hi
      rw [hhist]
      simp [List.getElem?_range hi]
    refine ⟨by rw [hhist]; simp, ?_, hidx, hflag, hnext, ?_⟩
    · intro i hi
      rw [hslot i hi]
      rfl
    · unfold fsm_show_history
      simp only [htag, ne_eq, not_true_eq_false, if_false]
      apply show_history_loop_empty f _ FSM_HISTORY 0 _ rfl
      intro i hi
      rw [hslot i hi]
      rfl

theorem fsm_create_fresh_witness :
    fsm_create (some none) (some "sample") 0 (some sample_state_description)
        (some sample_event_description) (some sample_state_table) sample_heap =
      some (RC_FSM_OK, some (some sample_fsm)) ∧
    (sample_fsm.history.length = FSM_HISTORY ∧
      (∀ i, i < FSM_HISTORY →
        (sample_fsm.history[i]?).map fsm_history_t.written = some sentinel_record) ∧
      sample_fsm.history_index = 0 ∧ sample_fsm.exception_state_indicator = false ∧
      sample_fsm.next_state = 0 ∧ fsm_show_history (some sample_fsm) = some []) :=
  ⟨by decide,
    fsm_create_fresh (some none) (some "sample") 0 (some sample_state_description)
      (some sample_event_description) (some sample_state_table) sample_heap sample_fsm
      (by decide)⟩

/-- Claim C18 does not hold of the code.  After two calls of `fsm_engine` on
the sample instance (event `0`, handled, then event `3`, refused) the buffer
holds the record of the first call in slot `1` and the record of the second
call in slot `2`.  The function `fsm_show_history` reads the slots at its loop
index, in the order of the buffer, and prints the first call before the second;
the traversal from the most recent record to the oldest is the other way
round. -/
theorem fsm_show_history_buffer_order :
    fsm_engine_calls sample_code sample_calls sample_fsm 0 2 = some (sample_two, 2) ∧
      fsm_valid sample_two ∧
      (fsm_show_history (some sample_two)).map (List.map history_line.written) =
        some [(0, 1, 0, RC_FSM_OK), (1, 1, 3, RC_FSM_IGNORE_EVENT)] ∧
      history_most_recent_first sample_two =
        [(1, 1, 3, RC_FSM_IGNORE_EVENT), (0, 1, 0, RC_FSM_OK)] := by
  decide

/-! ## Instances that `fsm_create` returns are valid -/

/-- When the inner verification loop passes, every tuple it has visited
carries its index as event id. -/
theorem verify_event_tuples_true {H : Type} (event_ptr : Option (List (event_tuple_t H))) :
    ∀ fuel j0, verify_event_tuples event_ptr fuel j0 = some true →
      ∀ j, j0 ≤ j → j < j0 + fuel →
        (event_ptr.bind (fun l => l[j]?)).map (fun t => t.eventID) = some j := by
  intro fuel
  induction fuel with
  | zero =>
    intro j0 _ j h1 h2
    omega
  | succ fuel ih =>
    intro j0 h j h1 h2
    unfold verify_event_tuples at h
    split at h
    · exact Option.noConfusion h
    · split at h
      · exact Option.noConfusion h
      · rename_i tuples _ t ht
        split at h
        · simp at h
        · rename_i hid
          rcases Nat.eq_or_lt_of_le h1 with e | l
          · subst e
            simp only [Option.some_bind, ht, Option.map_some', Option.some.injEq]
            simp only [ne_eq, Decidable.not_not] at hid
            exact hid.symm
          · exact ih (j0 + 1) h j l (by omega)

/-- When the outer verification loop passes, every tuple of every state it
has visited can be read and carries its index as event id. -/
theorem verify_state_table_true {H : Type} (st : List (state_tuple_t H)) (m : Nat) :
    ∀ fuel i0, verify_state_table st m fuel i0 = some true →
      ∀ i, i0 ≤ i → i < i0 + fuel → ∀ j, j < m →
        (event_ptr_at st i j).map (fun t => t.eventID) = some j := by
  intro fuel
  induction fuel with
  | zero =>
    intro i0 _ i h1 h2
    omega
  | succ fuel ih =>
    intro i0 h i h1 h2 j hj
    unfold verify_state_table at h
    split at h
    · exact Option.noConfusion h
    · rename_i s hs
      split at h
      · exact Option.noConfusion h
      · simp at h
      · rename_i hrow
        rcases Nat.eq_or_lt_of_le h1 with e | l
        · subst e
          have := verify_event_tuples_true s.p2event_tuple m 0 hrow j (Nat.zero_le _) (by omega)
          unfold event_ptr_at
          rw [hs]
          cases hp : s.p2event_tuple with
          | none => simp [hp] at this
          | some tuples => simpa [hp] using this
        · exact ih (i0 + 1) h i l (by omega) j hj

/-- When the state description scan ends with `number_states = n`, it has
counted one state for each entry it has accepted, and the state table entry of
each of them carries its index as id. -/
theorem scan_state_description_true {H : Type} (sd : List state_description_t)
    (st : List (state_tuple_t H)) :
    ∀ fuel i acc n, scan_state_description sd st fuel i acc = some (.ok n) →
      acc ≤ n ∧
        ∀ d, d < n - acc → (st[i + d]?).map (fun s => s.state_id) = some (i + d) := by
  intro fuel
  induction fuel with
  | zero =>
    intro i acc n h
    simp only [scan_state_description, Option.some.injEq, Except.ok.injEq] at h
    subst h
    exact ⟨Nat.le_refl _, fun d hd => by omega⟩
  | succ fuel ih =>
    intro i acc n h
    unfold scan_state_description at h
    split at h
    · exact Option.noConfusion h
    · split at h
      · split at h
        · split at h
          · exact Option.noConfusion h
          · rename_i s hs
            split at h
            · rename_i hok
              obtain ⟨h1, h2⟩ := ih (i + 1) (acc + 1) n h
              refine ⟨by omega, ?_⟩
              intro d hd
              rcases Nat.eq_zero_or_pos d with e | l
              · subst e
                simp [hs, hok.1]
              · have := h2 (d - 1) (by omega)
                have e : i + 1 + (d - 1) = i + d := by omega
                rw [e] at this
                exact this
            · simp at h
        · simp at h
      · simp only [Option.some.injEq, Except.ok.injEq] at h
        subst h
        exact ⟨Nat.le_refl _, fun d hd => by omega⟩

/-- An instance that `fsm_create` has returned with `RC_FSM_OK` is valid, and
its write index is `0`. -/
theorem fsm_create_valid {H : Type} (fsm : Option (Option (fsm_t H))) (name : Option String)
    (initial_state : Nat) (sdo : Option (List state_description_t))
    (edo : Option (List event_description_t)) (sto : Option (List (state_tuple_t H)))
    (heap : malloc_t H) (f : fsm_t H)
    (h : fsm_create fsm name initial_state sdo edo sto heap =
      some (RC_FSM_OK, some (some f))) :
    fsm_valid f ∧ f.history_index = 0 := by
  rcases fsm_create_cases fsm name initial_state sdo edo sto heap _ _ h with
    ⟨e, -⟩ | ⟨-, f0, garbage, e, -, -, hhist, hidx, -, -, hcur, htag, -, -, -, hs, c1, c2, -,
      c3, hver⟩
  · exact absurd rfl e
  · simp only [Option.some.injEq] at e
    subst e
    have n1 : 1 ≤ f.number_states := by omega
    have n2 : f.number_states ≤ FSM_MAX_STATES - 1 := by omega
    have m1 : 1 ≤ f.number_events := by omega
    have m2 : f.number_events ≤ FSM_MAX_EVENTS - 1 := by omega
    have n3 : f.number_states < UINT32_MOD := by
      unfold FSM_MAX_STATES at n2
      unfold UINT32_MOD
      omega
    rw [sub32_one n1 n3] at c2
    refine ⟨⟨htag, n1, n2, m1, m2, by omega, ?_, ?_, by rw [hhist]; simp, ?_⟩, hidx⟩
    · intro i hi
      have := (scan_state_description_true _ _ _ _ _ _ hs).2 i (by omega)
      simpa using this
    · intro i hi j hj
      exact verify_state_table_true _ _ _ _ hver i (Nat.zero_le _) (by omega) j hj
    · rw [hidx]
      decide

/-! ## Runs of the engine and the history ring -/

/-- A successful `fsm_record_history` on a valid instance leaves an instance
that is valid and has one more record. -/
theorem fsm_record_history_valid {H : Type} {f g : fsm_t H} {ev ns : Nat} {rc : RC_FSM_t}
    (hv : fsm_valid f) (h : fsm_record_history f ev ns rc = some g) :
    fsm_valid g ∧ one_record_written f g f.curr_state ns ev rc := by
  obtain ⟨g1, hg, hw, -⟩ := fsm_record_history_spec f ev ns rc hv.2.2.2.2.2.2.2.2.1
  rw [h] at hg
  simp only [Option.some.injEq] at hg
  subst hg
  obtain ⟨r1, r2, -, -, -, r6, r7, r8⟩ := fsm_record_history_fields h
  refine ⟨fsm_valid_of_fields hv r1 r6 r7 ?_ r8 ?_ ?_, hw⟩
  · rw [r2, r6]
    exact hv.2.2.2.2.2.1
  · rw [hw.2.1]
    exact hv.2.2.2.2.2.2.2.2.1
  · rw [hw.1]
    exact Nat.mod_lt _ (by decide)

/-- One call of `fsm_engine` on a valid instance with behaved handlers does
not fault; it ends in stop-processing or leaves a valid instance with one more
history record, for the event of the call. -/
theorem fsm_engine_step {H U : Type} (code : H → handler_sem H U) (f : fsm_t H)
    (ev p2event_buffer p2parm : Nat) (mem : U) (hv : fsm_valid f)
    (hcode : handlers_behaved code) :
    ∃ rc inst mem1,
      fsm_engine code (some f) ev p2event_buffer p2parm mem = some (rc, inst, mem1) ∧
      (rc = RC_FSM_STOP_PROCESSING ∨
        ∃ g prev new r, inst = some g ∧ fsm_valid g ∧
          one_record_written f g prev new ev r) := by
  have hlen := hv.2.2.2.2.2.2.2.2.1
  by_cases hev : f.number_events ≤ ev
  · obtain ⟨g, hg, -, -⟩ := fsm_record_history_spec f ev f.curr_state RC_FSM_INVALID_EVENT hlen
    obtain ⟨hvg, hw⟩ := fsm_record_history_valid hv hg
    refine ⟨RC_FSM_INVALID_EVENT, some g, mem, ?_, Or.inr ⟨g, _, _, _, rfl, hvg, hw⟩⟩
    unfold fsm_engine
    simp [hv.1, (event_check_iff hv ev).mpr hev, hg]
  · have hev1 : ev < f.number_events := by omega
    have hchk : ¬ ev > sub32 f.number_events 1 := by
      rw [event_check_iff hv]
      exact hev
    obtain ⟨t, ht⟩ := event_ptr_at_valid hv hev1
    cases hh : t.event_handler with
    | none =>
      obtain ⟨g, hg, -, -⟩ :=
        fsm_record_history_spec f ev t.next_state RC_FSM_INVALID_EVENT_HANDLER hlen
      obtain ⟨hvg, hw⟩ := fsm_record_history_valid hv hg
      refine ⟨RC_FSM_OK, some g, mem, ?_, Or.inr ⟨g, _, _, _, rfl, hvg, hw⟩⟩
      unfold fsm_engine
      simp [hv.1, hchk, ht, hh, hg]
    | some h =>
      rcases hrun : code h p2event_buffer p2parm (f, mem) with ⟨rc, inst, mem1⟩
      by_cases hstop : rc = RC_FSM_STOP_PROCESSING
      · refine ⟨rc, inst, mem1, ?_, Or.inl hstop⟩
        unfold fsm_engine
        simp [hv.1, hchk, ht, hh, hrun, hstop]
      · have hc := hcode h p2event_buffer p2parm f mem
        rw [hrun] at hc
        rcases hc with hc | ⟨f1, hi, hapi⟩
        · exact absurd hc hstop
        · simp only at hi
          subst hi
          have hv1 := via_set_exception_state_valid hv hapi
          obtain ⟨-, e2, -, e4, -, -, e7, e8⟩ := via_set_exception_state_fields hapi
          by_cases hok : rc = RC_FSM_OK
          · subst hok
            generalize hns :
              (if f1.exception_state_indicator then f1.exception_state else t.next_state) = ns
            by_cases hbad : f.number_states ≤ ns
            · have hres := fsm_engine_after_ok code f f1 ev p2event_buffer p2parm mem mem1 t h
                hv hev1 ht hh hrun hapi ns hns.symm
              have hv2 : fsm_valid
                  { f1 with exception_state_indicator := false, next_state := ns } := hv1
              obtain ⟨g, hg, -, -⟩ :=
                fsm_record_history_spec
                  { f1 with exception_state_indicator := false, next_state := ns }
                  ev ns RC_FSM_INVALID_STATE hv1.2.2.2.2.2.2.2.2.1
              obtain ⟨hvg, hw⟩ := fsm_record_history_valid hv2 hg
              rw [if_pos hbad, hg] at hres
              exact ⟨RC_FSM_INVALID_STATE, some g, mem1, hres, Or.inr ⟨g, _, _, _, rfl, hvg,
                one_record_written_congr _ f g g e7.symm e8.symm rfl rfl hw⟩⟩
            · obtain ⟨g, hg, -, -, -, hw, hvg⟩ :=
                fsm_engine_commit_resolved code f f1 ev p2event_buffer p2parm mem mem1 t h hv
                  hev1 ht hh hrun hapi ns hns.symm (by omega)
              exact ⟨RC_FSM_OK, some g, mem1, hg, Or.inr ⟨g, _, _, _, rfl, hvg, hw⟩⟩
          · obtain ⟨g, hg, -, -⟩ :=
              fsm_record_history_spec f1 ev t.next_state rc hv1.2.2.2.2.2.2.2.2.1
            obtain ⟨hvg, hw⟩ := fsm_record_history_valid hv1 hg
            refine ⟨rc, some g, mem1, ?_, Or.inr ⟨g, _, _, _, rfl, hvg,
              one_record_written_congr f1 f g g e7.symm e8.symm rfl rfl hw⟩⟩
            unfold fsm_engine
            simp [hv.1, hchk, ht, hh, hrun, hstop, hok, hg]

/-- What `fsm_set_exception_state` leaves of an instance is the instance
touched through `fsm_set_exception_state`. -/
theorem fsm_set_exception_state_via {H : Type} (f : fsm_t H) (s : Nat) :
    ∃ g, (fsm_set_exception_state (some f) s).2 = some g ∧ via_set_exception_state f g := by
  by_cases h1 : f.tag ≠ FSM_TAG
  · exact ⟨f, by simp [fsm_set_exception_state, h1], Or.inl rfl⟩
  · by_cases h2 : s > sub32 f.number_states 1
    · exact ⟨f, by simp only [fsm_set_exception_state, h1, h2, if_true, if_false], Or.inl rfl⟩
    · refine ⟨{ f with exception_state := s, exception_state_indicator := true }, ?_,
        Or.inr ⟨s, ?_⟩⟩
      · simp only [fsm_set_exception_state, h1, h2, if_false]
      · simp only [fsm_set_exception_state, h1, h2, if_false]

/-- The sample handlers are behaved. -/
theorem sample_code_handlers_behaved : handlers_behaved sample_code := by
  intro h p q f mem
  rcases h with _ | _ | _ | _ | _ | h
  · exact Or.inr ⟨f, rfl, Or.inl rfl⟩
  · exact Or.inr ⟨f, rfl, Or.inl rfl⟩
  · exact Or.inr (fsm_set_exception_state_via f 2)
  · exact Or.inl rfl
  · exact Or.inr (fsm_set_exception_state_via f 2)
  · exact Or.inl rfl

/-- The last call of a run: it was made on the instance that the run before
it had left, and it did not end in stop-processing. -/
theorem fsm_engine_calls_succ {H U : Type} {code : H → handler_sem H U}
    {calls : Nat → Nat × Nat × Nat} {f0 : fsm_t H} {mem0 : U} {t : Nat} {g : fsm_t H} {m1 : U}
    (h : fsm_engine_calls code calls f0 mem0 (t + 1) = some (g, m1)) :
    ∃ f m rc, fsm_engine_calls code calls f0 mem0 t = some (f, m) ∧
      fsm_engine code (some f) (calls t).1 (calls t).2.1 (calls t).2.2 m = some (rc, some g, m1) ∧
      rc ≠ RC_FSM_STOP_PROCESSING := by
  rw [fsm_engine_calls] at h
  split at h
  · exact Option.noConfusion h
  · rename_i f m hrun
    split at h
    · rename_i rc g1 m2 heng
      split at h
      · exact Option.noConfusion h
      · rename_i hstop
        simp only [Option.some.injEq, Prod.mk.injEq] at h
        obtain ⟨rfl, rfl⟩ := h
        exact ⟨f, m, rc, hrun, heng, hstop⟩
    · exact Option.noConfusion h

/-- Along a run from a valid instance with write index `0`, with behaved
handlers: the instance after `t` calls is valid, its write index is
`t mod FSM_HISTORY`, and the last call has written one record for its event. -/
theorem fsm_engine_calls_inv {H U : Type} {code : H → handler_sem H U}
    {calls : Nat → Nat × Nat × Nat} {f0 : fsm_t H} {mem0 : U} (hv : fsm_valid f0)
    (h0 : f0.history_index = 0) (hcode : handlers_behaved code) :
    ∀ t ft mt, fsm_engine_calls code calls f0 mem0 t = some (ft, mt) →
      fsm_valid ft ∧ ft.history_index = t % FSM_HISTORY := by
  intro t
  induction t with
  | zero =>
    intro ft mt h
    simp only [fsm_engine_calls, Option.some.injEq, Prod.mk.injEq] at h
    obtain ⟨rfl, rfl⟩ := h
    exact ⟨hv, by rw [h0]; rfl⟩
  | succ t ih =>
    intro ft mt h
    obtain ⟨f, m, rc, hrun, heng, hstop⟩ := fsm_engine_calls_succ h
    obtain ⟨hvf, hidx⟩ := ih f m hrun
    obtain ⟨rc1, inst, mem1, heng1, hout⟩ :=
      fsm_engine_step code f (calls t).1 (calls t).2.1 (calls t).2.2 m hvf hcode
    rw [heng] at heng1
    simp only [Option.some.injEq, Prod.mk.injEq] at heng1
    obtain ⟨rfl, rfl, rfl⟩ := heng1
    rcases hout with hs | ⟨g, prev, new, r, hg, hvg, hw⟩
    · exact absurd hs hstop
    · simp only [Option.some.injEq] at hg
      subst hg
      refine ⟨hvg, ?_⟩
      rw [hw.1, hidx]
      unfold FSM_HISTORY
      omega

/-- The record of a call of a run: the call `t + 1` has written one record,
for its event, into the instance that the first `t` calls had left. -/
theorem fsm_engine_calls_written {H U : Type} {code : H → handler_sem H U}
    {calls : Nat → Nat × Nat × Nat} {f0 : fsm_t H} {mem0 : U} (hv : fsm_valid f0)
    (h0 : f0.history_index = 0) (hcode : handlers_behaved code) {t : Nat} {g : fsm_t H}
    {m1 : U} (h : fsm_engine_calls code calls f0 mem0 (t + 1) = some (g, m1)) :
    ∃ f m prev new r, fsm_engine_calls code calls f0 mem0 t = some (f, m) ∧
      one_record_written f g prev new (calls t).1 r := by
  obtain ⟨f, m, rc, hrun, heng, hstop⟩ := fsm_engine_calls_succ h
  obtain ⟨hvf, -⟩ := fsm_engine_calls_inv hv h0 hcode t f m hrun
  obtain ⟨rc1, inst, mem1, heng1, hout⟩ :=
    fsm_engine_step code f (calls t).1 (calls t).2.1 (calls t).2.2 m hvf hcode
  rw [heng] at heng1
  simp only [Option.some.injEq, Prod.mk.injEq] at heng1
  obtain ⟨rfl, rfl, rfl⟩ := heng1
  rcases hout with hs | ⟨g1, prev, new, r, hg, -, hw⟩
  · exact absurd hs hstop
  · simp only [Option.some.injEq] at hg
    subst hg
    exact ⟨f, m, prev, new, r, hrun, hw⟩

/-- A run that has reached `k` calls has reached every smaller number of calls. -/
theorem fsm_engine_calls_prefix {H U : Type} {code : H → handler_sem H U}
    {calls : Nat → Nat × Nat × Nat} {f0 : fsm_t H} {mem0 : U} :
    ∀ d t fk mk, fsm_engine_calls code calls f0 mem0 (t + d) = some (fk, mk) →
      ∃ ft mt, fsm_engine_calls code calls f0 mem0 t = some (ft, mt) := by
  intro d
  induction d with
  | zero =>
    intro t fk mk h
    exact ⟨fk, mk, h⟩
  | succ d ih =>
    intro t fk mk h
    obtain ⟨f, m, -, hrun, -, -⟩ := fsm_engine_calls_succ (show
      fsm_engine_calls code calls f0 mem0 (t + d + 1) = some (fk, mk) from h)
    exact ih t f m hrun

/-- A slot written by call `t` keeps its contents during the next
`FSM_HISTORY - 1` calls. -/
theorem fsm_engine_calls_keep {H U : Type} {code : H → handler_sem H U}
    {calls : Nat → Nat × Nat × Nat} {f0 : fsm_t H} {mem0 : U} (hv : fsm_valid f0)
    (h0 : f0.history_index = 0) (hcode : handlers_behaved code) {t : Nat} {ft : fsm_t H}
    {mt : U} (ht : fsm_engine_calls code calls f0 mem0 t = some (ft, mt)) :
    ∀ d, d < FSM_HISTORY → ∀ fd md,
      fsm_engine_calls code calls f0 mem0 (t + d) = some (fd, md) →
      fd.history[t % FSM_HISTORY]? = ft.history[t % FSM_HISTORY]? := by
  intro d
  induction d with
  | zero =>
    intro _ fd md h
    rw [Nat.add_zero, ht] at h
    simp only [Option.some.injEq, Prod.mk.injEq] at h
    rw [h.1]
  | succ d ih =>
    intro hd fd md h
    have h1 : fsm_engine_calls code calls f0 mem0 (t + d + 1) = some (fd, md) := h
    obtain ⟨f, m, prev, new, r, hrun, hw⟩ := fsm_engine_calls_written hv h0 hcode h1
    obtain ⟨-, hidx⟩ := fsm_engine_calls_inv hv h0 hcode (t + d + 1) fd md h1
    have hne : t % FSM_HISTORY ≠ fd.history_index := by
      rw [hidx]
      unfold FSM_HISTORY at hd ⊢
      omega
    rw [hw.2.2.2.2 _ hne]
    exact ih (by omega) f m hrun

/-- A slot whose index is the write index of none of the first `k` calls has
the contents it had before the run. -/
theorem fsm_engine_calls_untouched {H U : Type} {code : H → handler_sem H U}
    {calls : Nat → Nat × Nat × Nat} {f0 : fsm_t H} {mem0 : U} (hv : fsm_valid f0)
    (h0 : f0.history_index = 0) (hcode : handlers_behaved code) (i : Nat) :
    ∀ k fk mk, fsm_engine_calls code calls f0 mem0 k = some (fk, mk) →
      (∀ t, 1 ≤ t → t ≤ k → t % FSM_HISTORY ≠ i) →
      fk.history[i]? = f0.history[i]? := by
  intro k
  induction k with
  | zero =>
    intro fk mk h _
    simp only [fsm_engine_calls, Option.some.injEq, Prod.mk.injEq] at h
    rw [h.1]
  | succ k ih =>
    intro fk mk h hi
    obtain ⟨f, m, prev, new, r, hrun, hw⟩ := fsm_engine_calls_written hv h0 hcode h
    obtain ⟨-, hidx⟩ := fsm_engine_calls_inv hv h0 hcode (k + 1) fk mk h
    have hne : i ≠ fk.history_index := by
      rw [hidx]
      exact fun e => hi (k + 1) (by omega) (Nat.le_refl _) e.symm
    rw [hw.2.2.2.2 _ hne]
    exact ih f m hrun (fun t a b => hi t a (by omega))

/-- Every history slot of an instance that `fsm_create` has returned with
`RC_FSM_OK` holds the sentinel record. -/
theorem fsm_create_sentinel_slots {H : Type} (fsm : Option (Option (fsm_t H)))
    (name : Option String) (initial_state : Nat) (sdo : Option (List state_description_t))
    (edo : Option (List event_description_t)) (sto : Option (List (state_tuple_t H)))
    (heap : malloc_t H) (f : fsm_t H)
    (h : fsm_create fsm name initial_state sdo edo sto heap =
      some (RC_FSM_OK, some (some f))) :
    ∀ i, i < FSM_HISTORY →
      (f.history[i]?).map fsm_history_t.written = some sentinel_record := by
  rcases fsm_create_cases fsm name initial_state sdo edo sto heap _ _ h with
    ⟨e, -⟩ | ⟨-, f0, garbage, e, -, -, hhist, -⟩
  · exact absurd rfl e
  · simp only [Option.some.injEq] at e
    subst e
    intro i hi
    rw [hhist]
    simp [List.getElem?_range hi]
    rfl

/-- Claim C17.  Take an instance `f0` that `fsm_create` has just returned,
behaved handlers, and a run of `k` consecutive history-writing calls of
`fsm_engine` that leaves the instance `fk`.  Then the write index of `fk` is
`k mod 64`; for every call number `s + 1` among the last 64 (`s < k ≤ s + 64`)
the slot `(s + 1) mod 64` of `fk` holds the record that this call has written,
for its event, into the instance left by the `s` calls before it; and every
slot that is the slot of none of the `k` calls still holds the sentinel record
of the construction. -/
theorem fsm_history_ring {H U : Type} (code : H → handler_sem H U)
    (fsm : Option (Option (fsm_t H))) (name : Option String) (initial_state : Nat)
    (sdo : Option (List state_description_t)) (edo : Option (List event_description_t))
    (sto : Option (List (state_tuple_t H))) (heap : malloc_t H) (f0 : fsm_t H) (mem0 : U)
    (calls : Nat → Nat × Nat × Nat) (k : Nat) (fk : fsm_t H) (mk : U)
    (hcreate : fsm_create fsm name initial_state sdo edo sto heap =
      some (RC_FSM_OK, some (some f0)))
    (hcode : handlers_behaved code)
    (hrun : fsm_engine_calls code calls f0 mem0 k = some (fk, mk)) :
    fk.history_index = k % FSM_HISTORY ∧
    (∀ s, s < k → k ≤ s + FSM_HISTORY → ∃ fs ms ft mt prev new r,
      fsm_engine_calls code calls f0 mem0 s = some (fs, ms) ∧
      fsm_engine_calls code calls f0 mem0 (s + 1) = some (ft, mt) ∧
      one_record_written fs ft prev new (calls s).1 r ∧
      (fk.history[(s + 1) % FSM_HISTORY]?).map fsm_history_t.written =
        some (prev, new, (calls s).1, r)) ∧
    (∀ i, i < FSM_HISTORY → (∀ t, 1 ≤ t → t ≤ k → t % FSM_HISTORY ≠ i) →
      (fk.history[i]?).map fsm_history_t.written = some sentinel_record) := by
  obtain ⟨hv, h0⟩ := fsm_create_valid fsm name initial_state sdo edo sto heap f0 hcreate
  refine ⟨(fsm_engine_calls_inv hv h0 hcode k fk mk hrun).2, ?_, ?_⟩
  · intro s hs hk
    obtain ⟨d, rfl⟩ : ∃ d, k = s + 1 + d := ⟨k - (s + 1), by omega⟩
    obtain ⟨ft, mt, hft⟩ := fsm_engine_calls_prefix d (s + 1) fk mk hrun
    obtain ⟨fs, ms, prev, new, r, hfs, hw⟩ := fsm_engine_calls_written hv h0 hcode hft
    obtain ⟨-, hidx⟩ := fsm_engine_calls_inv hv h0 hcode (s + 1) ft mt hft
    have hkeep := fsm_engine_calls_keep hv h0 hcode hft d (by omega) fk mk hrun
    refine ⟨fs, ms, ft, mt, prev, new, r, hfs, hft, hw, ?_⟩
    rw [hkeep, ← hidx]
    exact hw.2.2.1
  · intro i hi hnot
    rw [fsm_engine_calls_untouched hv h0 hcode i k fk mk hrun hnot]
    exact fsm_create_sentinel_slots fsm name initial_state sdo edo sto heap f0 hcreate i hi

theorem fsm_history_ring_witness :
    (fsm_create (some none) (some "sample") 0 (some sample_state_description)
        (some sample_event_description) (some sample_state_table) sample_heap =
        some (RC_FSM_OK, some (some sample_fsm)) ∧
      handlers_behaved sample_code ∧
      fsm_engine_calls sample_code sample_calls sample_fsm 0 3 = some (sample_three, 2)) ∧
    sample_three.history_index = 3 % FSM_HISTORY ∧
    (∀ s, s < 3 → 3 ≤ s + FSM_HISTORY → ∃ fs ms ft mt prev new r,
      fsm_engine_calls sample_code sample_calls sample_fsm 0 s = some (fs, ms) ∧
      fsm_engine_calls sample_code sample_calls sample_fsm 0 (s + 1) = some (ft, mt) ∧
      one_record_written fs ft prev new (sample_calls s).1 r ∧
      (sample_three.history[(s + 1) % FSM_HISTORY]?).map fsm_history_t.written =
        some (prev, new, (sample_calls s).1, r)) ∧
    (∀ i, i < FSM_HISTORY → (∀ t, 1 ≤ t → t ≤ 3 → t % FSM_HISTORY ≠ i) →
      (sample_three.history[i]?).map fsm_history_t.written = some sentinel_record) :=
  ⟨⟨by decide, sample_code_handlers_behaved, by decide⟩,
    fsm_history_ring sample_code (some none) (some "sample") 0 (some sample_state_description)
      (some sample_event_description) (some sample_state_table) sample_heap sample_fsm 0
      sample_calls 3 sample_three 2 (by decide) sample_code_handlers_behaved (by decide)⟩

/-! ## The paths of the engine -/

/-- A call of `fsm_engine` on a valid instance, whose handler, if one is
called, either stops the processing or leaves the instance touched through
`fsm_set_exception_state` at most, does not fault and takes one of the paths
of `fsm_engine_path`. -/
theorem fsm_engine_paths {H U : Type} (code : H → handler_sem H U) (f : fsm_t H)
    (ev p2event_buffer p2parm : Nat) (mem : U) (hv : fsm_valid f)
    (hcode : ∀ t h, event_ptr_at f.state_table f.curr_state ev = some t →
      t.event_handler = some h →
      (code h p2event_buffer p2parm (f, mem)).1 = RC_FSM_STOP_PROCESSING ∨
        ∃ f1, (code h p2event_buffer p2parm (f, mem)).2.1 = some f1 ∧
          via_set_exception_state f f1) :
    ∃ rc inst mem1,
      fsm_engine code (some f) ev p2event_buffer p2parm mem = some (rc, inst, mem1) ∧
      fsm_engine_path code f ev p2event_buffer p2parm mem rc inst mem1 := by
  have hlen := hv.2.2.2.2.2.2.2.2.1
  by_cases hev : f.number_events ≤ ev
  · obtain ⟨g, hg, -, -⟩ := fsm_record_history_spec f ev f.curr_state RC_FSM_INVALID_EVENT hlen
    refine ⟨RC_FSM_INVALID_EVENT, some g, mem, ?_, fsm_engine_path.invalid_event g hev hg⟩
    unfold fsm_engine
    simp [hv.1, (event_check_iff hv ev).mpr hev, hg]
  · have hev1 : ev < f.number_events := by omega
    have hchk : ¬ ev > sub32 f.number_events 1 := by
      rw [event_check_iff hv]
      exact hev
    obtain ⟨t, ht⟩ := event_ptr_at_valid hv hev1
    cases hh : t.event_handler with
    | none =>
      obtain ⟨g, hg, -, -⟩ :=
        fsm_record_history_spec f ev t.next_state RC_FSM_INVALID_EVENT_HANDLER hlen
      refine ⟨RC_FSM_OK, some g, mem, ?_, fsm_engine_path.quiet_event t g hev1 ht hh hg⟩
      unfold fsm_engine
      simp [hv.1, hchk, ht, hh, hg]
    | some h =>
      rcases hrun : code h p2event_buffer p2parm (f, mem) with ⟨rc, inst, mem1⟩
      by_cases hstop : rc = RC_FSM_STOP_PROCESSING
      · subst hstop
        refine ⟨_, inst, mem1, ?_,
          fsm_engine_path.stop_processing t h inst mem1 hev1 ht hh hrun⟩
        unfold fsm_engine
        simp [hv.1, hchk, ht, hh, hrun]
      · have hc := hcode t h ht hh
        rw [hrun] at hc
        rcases hc with hc | ⟨f1, hi, hapi⟩
        · exact absurd hc hstop
        · simp only at hi
          subst hi
          have hv1 := via_set_exception_state_valid hv hapi
          by_cases hok : rc = RC_FSM_OK
          · subst hok
            generalize hns :
              (if f1.exception_state_indicator then f1.exception_state else t.next_state) = ns
            have hres := fsm_engine_after_ok code f f1 ev p2event_buffer p2parm mem mem1 t h
              hv hev1 ht hh hrun hapi ns hns.symm
            by_cases hbad : f.number_states ≤ ns
            · obtain ⟨g, hg, -, -⟩ :=
                fsm_record_history_spec
                  { f1 with exception_state_indicator := false, next_state := ns }
                  ev ns RC_FSM_INVALID_STATE hv1.2.2.2.2.2.2.2.2.1
              rw [if_pos hbad, hg] at hres
              exact ⟨RC_FSM_INVALID_STATE, some g, mem1, hres,
                fsm_engine_path.invalid_state t h f1 mem1 ns g hev1 ht hh hrun hapi hns.symm
                  hbad hg⟩
            · obtain ⟨g, hg, -, -⟩ :=
                fsm_record_history_spec
                  { f1 with exception_state_indicator := false, next_state := ns }
                  ev ns RC_FSM_OK hv1.2.2.2.2.2.2.2.2.1
              rw [if_neg hbad, hg] at hres
              exact ⟨RC_FSM_OK, some { g with curr_state := g.next_state }, mem1, hres,
                fsm_engine_path.commit t h f1 mem1 ns g hev1 ht hh hrun hapi hns.symm
                  (by omega) hg⟩
          · obtain ⟨g, hg, -, -⟩ :=
              fsm_record_history_spec f1 ev t.next_state rc hv1.2.2.2.2.2.2.2.2.1
            refine ⟨rc, some g, mem1, ?_,
              fsm_engine_path.handler_error t h rc f1 mem1 g hev1 ht hh hrun hapi hok hstop hg⟩
            unfold fsm_engine
            simp [hv.1, hchk, ht, hh, hrun, hstop, hok, hg]

/-- An armed override that a handler leaves names a normalized state, when the
one it has found did. -/
theorem via_set_exception_state_override {H : Type} {f g : fsm_t H} (hv : fsm_valid f)
    (hinv : override_in_range f) (h : via_set_exception_state f g) : override_in_range g := by
  rcases h with h | ⟨s, h⟩
  · rw [h]
    exact hinv
  · obtain ⟨h1, h2, -⟩ := fsm_set_exception_state_ok hv h
    have hn := (via_set_exception_state_fields (Or.inr ⟨s, h⟩)).2.2.2.1
    intro _
    rw [h2, hn]
    exact h1

/-- What every path that leaves an instance `g` and is not the stop-processing
path has done to the instance: `g` is valid, it has one more history record,
whose previous state is the current state before the call, its tag, counts and
state table are the ones before the call, and its override is in range when
the one before the call was. -/
theorem fsm_engine_path_frame {H U : Type} {code : H → handler_sem H U} {f g : fsm_t H}
    {ev p2event_buffer p2parm : Nat} {mem mem1 : U} {rc : RC_FSM_t} (hv : fsm_valid f)
    (hp : fsm_engine_path code f ev p2event_buffer p2parm mem rc (some g) mem1)
    (hstop : rc ≠ RC_FSM_STOP_PROCESSING) :
    fsm_valid g ∧ (∃ new r, one_record_written f g f.curr_state new ev r) ∧
      g.tag = f.tag ∧ g.number_states = f.number_states ∧
      g.number_events = f.number_events ∧ g.state_table = f.state_table ∧
      (override_in_range f → override_in_range g) := by
  generalize hinst : some g = inst at hp
  cases hp with
  | invalid_event g1 hev hg =>
    cases hinst
    obtain ⟨hvg, hw⟩ := fsm_record_history_valid hv hg
    obtain ⟨r1, -, -, r4, r5, r6, r7, r8⟩ := fsm_record_history_fields hg
    refine ⟨hvg, ⟨_, _, hw⟩, r1, r6, r7, r8, ?_⟩
    unfold override_in_range
    rw [r4, r5, r6]
    exact id
  | quiet_event t g1 hev ht hq hg =>
    cases hinst
    obtain ⟨hvg, hw⟩ := fsm_record_history_valid hv hg
    obtain ⟨r1, -, -, r4, r5, r6, r7, r8⟩ := fsm_record_history_fields hg
    refine ⟨hvg, ⟨_, _, hw⟩, r1, r6, r7, r8, ?_⟩
    unfold override_in_range
    rw [r4, r5, r6]
    exact id
  | stop_processing t h inst mem1 hev ht hh hrun => exact absurd rfl hstop
  | handler_error t h rc f1 mem1 g1 hev ht hh hrun hapi hok hstop1 hg =>
    cases hinst
    have hv1 := via_set_exception_state_valid hv hapi
    obtain ⟨e1, e2, -, e4, e5, e6, e7, e8⟩ := via_set_exception_state_fields hapi
    obtain ⟨hvg, hw⟩ := fsm_record_history_valid hv1 hg
    obtain ⟨r1, -, -, r4, r5, r6, r7, r8⟩ := fsm_record_history_fields hg
    rw [e2] at hw
    refine ⟨hvg, ⟨_, _, one_record_written_congr f1 f g g e7.symm e8.symm rfl rfl hw⟩,
      r1.trans e1, r6.trans e4, r7.trans e5, r8.trans e6, ?_⟩
    intro hinv
    have h1 := via_set_exception_state_override hv hinv hapi
    unfold override_in_range at h1 ⊢
    rw [r4, r5, r6]
    exact h1
  | invalid_state t h f1 mem1 ns g1 hev ht hh hrun hapi hns hbad hg =>
    cases hinst
    have hv1 := via_set_exception_state_valid hv hapi
    obtain ⟨e1, e2, -, e4, e5, e6, e7, e8⟩ := via_set_exception_state_fields hapi
    have hv2 : fsm_valid { f1 with exception_state_indicator := false, next_state := ns } := hv1
    obtain ⟨hvg, hw⟩ := fsm_record_history_valid hv2 hg
    obtain ⟨r1, -, -, r4, r5, r6, r7, r8⟩ := fsm_record_history_fields hg
    have hw1 : one_record_written
        { f1 with exception_state_indicator := false, next_state := ns } g f.curr_state ns ev
        RC_FSM_INVALID_STATE := by
      rw [← e2]
      exact hw
    refine ⟨hvg, ⟨_, _, one_record_written_congr _ f g g e7.symm e8.symm rfl rfl hw1⟩,
      r1.trans e1, r6.trans e4, r7.trans e5, r8.trans e6, ?_⟩
    intro _ hflag
    rw [r5] at hflag
    exact absurd hflag (by simp)
  | commit t h f1 mem1 ns g1 hev ht hh hrun hapi hns hres hg =>
    cases hinst
    have hv1 := via_set_exception_state_valid hv hapi
    obtain ⟨e1, e2, -, e4, e5, e6, e7, e8⟩ := via_set_exception_state_fields hapi
    have hv2 : fsm_valid { f1 with exception_state_indicator := false, next_state := ns } := hv1
    obtain ⟨hvg, hw⟩ := fsm_record_history_valid hv2 hg
    obtain ⟨r1, -, r3, r4, r5, r6, r7, r8⟩ := fsm_record_history_fields hg
    have hw1 : one_record_written
        { f1 with exception_state_indicator := false, next_state := ns } g1 f.curr_state ns ev
        RC_FSM_OK := by
      rw [← e2]
      exact hw
    refine ⟨?_, ⟨_, _, one_record_written_congr _ f g1 { g1 with curr_state := g1.next_state }
      e7.symm e8.symm rfl rfl hw1⟩, r1.trans e1, r6.trans e4, r7.trans e5, r8.trans e6, ?_⟩
    · refine fsm_valid_of_fields hvg rfl rfl rfl ?_ rfl hvg.2.2.2.2.2.2.2.2.1
        hvg.2.2.2.2.2.2.2.2.2
      show g1.next_state < g1.number_states
      rw [r3, r6]
      show ns < f1.number_states
      rw [e4]
      exact hres
    · intro _ hflag
      have hflag1 : g1.exception_state_indicator = true := hflag
      rw [r5] at hflag1
      exact absurd hflag1 (by simp)

/-! ## Handles that are not an instance, and the code of an ignored event -/

/-- Claim C21 does not hold of the code for a second `fsm_destroy`.  On a
handle variable that holds the sample instance `fsm_destroy` returns
`RC_FSM_OK` and leaves `NULL` in the variable.  On that `NULL` handle
`fsm_get_state`, `fsm_set_exception_state` and `fsm_engine` return
`RC_FSM_NULL`; a second `fsm_destroy` on the same handle variable reads the tag
through the `NULL` handle, which is a fault and no return of an error code. -/
theorem fsm_destroy_nulled_handle :
    fsm_destroy (some (some sample_fsm)) = some (RC_FSM_OK, some none) ∧
      fsm_get_state (none : Option (fsm_t Nat)) (some 7) = some (RC_FSM_NULL, some 7) ∧
      fsm_set_exception_state (none : Option (fsm_t Nat)) 1 = (RC_FSM_NULL, none) ∧
      fsm_engine sample_code none 0 0 0 (0 : Nat) = some (RC_FSM_NULL, none, 0) ∧
      fsm_destroy (some (none : Option (fsm_t Nat))) = none := by
  decide

/-- Claim C22.  On an instance whose tag is not `FSM_TAG`, `fsm_engine`,
`fsm_get_state` and `fsm_set_exception_state` return `RC_FSM_INVALID_HANDLE`.
The result of `fsm_engine` is the same whatever the handlers are and carries
the instance and the caller's memory as they were, the log of handler calls
included, so no handler is called; `fsm_get_state` leaves the variable behind
`p2state` as it was (a `NULL` `p2state` is not dereferenced);
`fsm_set_exception_state` leaves the instance as it was. -/
theorem fsm_invalid_handle {H U : Type} (code : H → handler_sem H U) (f : fsm_t H)
    (ev p2event_buffer p2parm : Nat) (mem : U) (log : List (H × Nat × Nat))
    (p2state : Option Nat) (state : Nat) (htag : f.tag ≠ FSM_TAG) :
    fsm_engine code (some f) ev p2event_buffer p2parm mem =
        some (RC_FSM_INVALID_HANDLE, some f, mem) ∧
      fsm_engine (with_call_log code) (some f) ev p2event_buffer p2parm (mem, log) =
        some (RC_FSM_INVALID_HANDLE, some f, (mem, log)) ∧
      fsm_get_state (some f) p2state = some (RC_FSM_INVALID_HANDLE, p2state) ∧
      fsm_set_exception_state (some f) state = (RC_FSM_INVALID_HANDLE, some f) := by
  refine ⟨?_, ?_, ?_, ?_⟩
  · unfold fsm_engine
    simp [htag]
  · unfold fsm_engine
    simp [htag]
  · unfold fsm_get_state
    simp [htag]
  · unfold fsm_set_exception_state
    simp [htag]

theorem fsm_invalid_handle_witness :
    sample_bad_tag.tag ≠ FSM_TAG ∧
    (fsm_engine sample_code (some sample_bad_tag) 0 0 0 (5 : Nat) =
        some (RC_FSM_INVALID_HANDLE, some sample_bad_tag, 5) ∧
      fsm_engine (with_call_log sample_code) (some sample_bad_tag) 0 0 0 ((5 : Nat), []) =
        some (RC_FSM_INVALID_HANDLE, some sample_bad_tag, (5, [])) ∧
      fsm_get_state (some sample_bad_tag) (some 9) = some (RC_FSM_INVALID_HANDLE, some 9) ∧
      fsm_set_exception_state (some sample_bad_tag) 1 =
        (RC_FSM_INVALID_HANDLE, some sample_bad_tag)) :=
  ⟨by decide, fsm_invalid_handle sample_code sample_bad_tag 0 0 0 5 [] (some 9) 1 (by decide)⟩

/-- Claim C23 fails as stated.  Event `3` on the sample instance, which is
valid: its tuple in the current state has a handler, the handler returns
`RC_FSM_IGNORE_EVENT` and leaves the instance as it was; `fsm_engine` returns
`RC_FSM_IGNORE_EVENT`, which is not `RC_FSM_OK`. -/
theorem fsm_engine_returns_ignore_event :
    fsm_valid sample_fsm ∧ 3 < sample_fsm.number_events ∧
      event_ptr_at sample_fsm.state_table sample_fsm.curr_state 3 = some ⟨3, some 1, 1⟩ ∧
      sample_code 1 0 0 (sample_fsm, 0) = (RC_FSM_IGNORE_EVENT, some sample_fsm, 1) ∧
      (fsm_engine sample_code (some sample_fsm) 3 0 0 (0 : Nat)).map (fun r => r.1) =
        some RC_FSM_IGNORE_EVENT ∧
      RC_FSM_IGNORE_EVENT ≠ RC_FSM_OK := by
  decide

/-- Claim C23, amended.  On a valid instance, for an event id below
`number_events` whose handler (touching the instance through
`fsm_set_exception_state` at most) returns `RC_FSM_IGNORE_EVENT`, `fsm_engine`
returns `RC_FSM_IGNORE_EVENT`, the code of the handler, and the current state
is the one before the call. -/
theorem fsm_engine_ignore_event {H U : Type} (code : H → handler_sem H U) (f f1 : fsm_t H)
    (ev p2event_buffer p2parm : Nat) (mem mem1 : U) (t : event_tuple_t H) (h : H)
    (hv : fsm_valid f) (hev : ev < f.number_events)
    (ht : event_ptr_at f.state_table f.curr_state ev = some t)
    (hh : t.event_handler = some h)
    (hrun : code h p2event_buffer p2parm (f, mem) = (RC_FSM_IGNORE_EVENT, some f1, mem1))
    (hapi : via_set_exception_state f f1) :
    ∃ g, fsm_engine code (some f) ev p2event_buffer p2parm mem =
        some (RC_FSM_IGNORE_EVENT, some g, mem1) ∧
      g.curr_state = f.curr_state := by
  have hv1 := via_set_exception_state_valid hv hapi
  obtain ⟨-, e2, -⟩ := via_set_exception_state_fields hapi
  obtain ⟨g, hg, -, -⟩ :=
    fsm_record_history_spec f1 ev t.next_state RC_FSM_IGNORE_EVENT hv1.2.2.2.2.2.2.2.2.1
  obtain ⟨-, r2, -⟩ := fsm_record_history_fields hg
  have hchk : ¬ ev > sub32 f.number_events 1 := by
    rw [event_check_iff hv]
    omega
  refine ⟨g, ?_, r2.trans e2⟩
  unfold fsm_engine
  simp [hv.1, hchk, ht, hh, hrun, hg]

theorem fsm_engine_ignore_event_witness :
    fsm_valid sample_fsm ∧ 3 < sample_fsm.number_events ∧
    ∃ g, fsm_engine sample_code (some sample_fsm) 3 0 0 (0 : Nat) =
        some (RC_FSM_IGNORE_EVENT, some g, 1) ∧
      g.curr_state = sample_fsm.curr_state :=
  ⟨by decide, by decide,
    fsm_engine_ignore_event sample_code sample_fsm sample_fsm 3 0 0 0 1 ⟨3, some 1, 1⟩ 1
      (by decide) (by decide) rfl rfl rfl (Or.inl rfl)⟩

/-! ## Which handler is called -/

/-- Claim C24.  On a valid instance, for an event id below `number_events`
whose tuple in the current state has the handler `h` (which either stops the
processing or leaves the instance touched through `fsm_set_exception_state` at
most), `fsm_engine` returns, and the log of handler calls after it is the log
before it with the one entry `(h, p2event_buffer, p2parm)` appended: the
handler of the tuple has been called once, with the two pointers that
`fsm_engine` was given, and the caller's memory is the one this call has left.
On a `NULL` handle, on an instance with a wrong tag, for an event id at or above
`number_events` and for a tuple without handler, the log and the caller's
memory after the call are the ones before it. -/
theorem fsm_engine_handler_call {H U : Type} (code : H → handler_sem H U) (f : fsm_t H)
    (ev p2event_buffer p2parm : Nat) (mem : U) (log : List (H × Nat × Nat))
    (t : event_tuple_t H) (h : H) (hv : fsm_valid f) (hev : ev < f.number_events)
    (ht : event_ptr_at f.state_table f.curr_state ev = some t)
    (hh : t.event_handler = some h)
    (hcode : (code h p2event_buffer p2parm (f, mem)).1 = RC_FSM_STOP_PROCESSING ∨
      ∃ f1, (code h p2event_buffer p2parm (f, mem)).2.1 = some f1 ∧
        via_set_exception_state f f1) :
    (∃ rc inst,
      fsm_engine (with_call_log code) (some f) ev p2event_buffer p2parm (mem, log) =
        some (rc, inst, ((code h p2event_buffer p2parm (f, mem)).2.2,
          log ++ [(h, p2event_buffer, p2parm)]))) ∧
    fsm_engine (with_call_log code) none ev p2event_buffer p2parm (mem, log) =
      some (RC_FSM_NULL, none, (mem, log)) ∧
    (∀ f0 : fsm_t H, f0.tag ≠ FSM_TAG →
      fsm_engine (with_call_log code) (some f0) ev p2event_buffer p2parm (mem, log) =
        some (RC_FSM_INVALID_HANDLE, some f0, (mem, log))) ∧
    (∀ ev1, f.number_events ≤ ev1 → ∃ g,
      fsm_engine (with_call_log code) (some f) ev1 p2event_buffer p2parm (mem, log) =
        some (RC_FSM_INVALID_EVENT, some g, (mem, log))) ∧
    (∀ ev1 t1, ev1 < f.number_events →
      event_ptr_at f.state_table f.curr_state ev1 = some t1 → t1.event_handler = none →
      ∃ g, fsm_engine (with_call_log code) (some f) ev1 p2event_buffer p2parm (mem, log) =
        some (RC_FSM_OK, some g, (mem, log))) := by
  have hlen := hv.2.2.2.2.2.2.2.2.1
  refine ⟨?_, rfl, ?_, ?_, ?_⟩
  · have hlog : ∀ t0 h0, event_ptr_at f.state_table f.curr_state ev = some t0 →
        t0.event_handler = some h0 →
        (with_call_log code h0 p2event_buffer p2parm (f, (mem, log))).1 =
            RC_FSM_STOP_PROCESSING ∨
          ∃ f1, (with_call_log code h0 p2event_buffer p2parm (f, (mem, log))).2.1 = some f1 ∧
            via_set_exception_state f f1 := by
      intro t0 h0 ht0 hh0
      rw [ht] at ht0
      cases ht0
      rw [hh] at hh0
      cases hh0
      exact hcode
    obtain ⟨rc, inst, mem1, heng, hp⟩ :=
      fsm_engine_paths (with_call_log code) f ev p2event_buffer p2parm (mem, log) hv hlog
    refine ⟨rc, inst, ?_⟩
    rw [heng]
    have key : ∀ (rc0 : RC_FSM_t) (inst0 : Option (fsm_t H)) (t0 : event_tuple_t H) (h0 : H),
        event_ptr_at f.state_table f.curr_state ev = some t0 → t0.event_handler = some h0 →
        with_call_log code h0 p2event_buffer p2parm (f, (mem, log)) = (rc0, inst0, mem1) →
        mem1 = ((code h p2event_buffer p2parm (f, mem)).2.2,
          log ++ [(h, p2event_buffer, p2parm)]) := by
      intro rc0 inst0 t0 h0 ht0 hh0 hrun
      rw [ht] at ht0
      cases ht0
      rw [hh] at hh0
      cases hh0
      have := congrArg (fun r => r.2.2) hrun
      exact this.symm
    cases hp with
    | invalid_event g hev1 hg => omega
    | quiet_event t0 g hev1 ht0 hq hg =>
      rw [ht] at ht0
      cases ht0
      rw [hh] at hq
      cases hq
    | stop_processing t0 h0 inst0 mem2 hev1 ht0 hh0 hrun => rw [key _ _ t0 h0 ht0 hh0 hrun]
    | handler_error t0 h0 rc0 f1 mem2 g hev1 ht0 hh0 hrun hapi hok hstop hg =>
      rw [key _ _ t0 h0 ht0 hh0 hrun]
    | invalid_state t0 h0 f1 mem2 ns g hev1 ht0 hh0 hrun hapi hns hbad hg =>
      rw [key _ _ t0 h0 ht0 hh0 hrun]
    | commit t0 h0 f1 mem2 ns g hev1 ht0 hh0 hrun hapi hns hres hg =>
      rw [key _ _ t0 h0 ht0 hh0 hrun]
  · intro f0 h0
    unfold fsm_engine
    simp [h0]
  · intro ev1 hev1
    obtain ⟨g, hg, -, -⟩ := fsm_record_history_spec f ev1 f.curr_state RC_FSM_INVALID_EVENT hlen
    refine ⟨g, ?_⟩
    unfold fsm_engine
    simp [hv.1, (event_check_iff hv ev1).mpr hev1, hg]
  · intro ev1 t1 hev1 ht1 hq
    obtain ⟨g, hg, -, -⟩ :=
      fsm_record_history_spec f ev1 t1.next_state RC_FSM_INVALID_EVENT_HANDLER hlen
    have hchk : ¬ ev1 > sub32 f.number_events 1 := by
      rw [event_check_iff hv]
      omega
    refine ⟨g, ?_⟩
    unfold fsm_engine
    simp [hv.1, hchk, ht1, hq, hg]

theorem fsm_engine_handler_call_witness :
    fsm_valid sample_fsm ∧ 2 < sample_fsm.number_events ∧
    ((∃ rc inst,
      fsm_engine (with_call_log sample_code) (some sample_fsm) 2 11 12 ((0 : Nat), []) =
        some (rc, inst, ((sample_code 2 11 12 (sample_fsm, 0)).2.2, [] ++ [(2, 11, 12)]))) ∧
    fsm_engine (with_call_log sample_code) none 2 11 12 ((0 : Nat), []) =
      some (RC_FSM_NULL, none, (0, [])) ∧
    (∀ f0 : fsm_t Nat, f0.tag ≠ FSM_TAG →
      fsm_engine (with_call_log sample_code) (some f0) 2 11 12 ((0 : Nat), []) =
        some (RC_FSM_INVALID_HANDLE, some f0, (0, []))) ∧
    (∀ ev1, sample_fsm.number_events ≤ ev1 → ∃ g,
      fsm_engine (with_call_log sample_code) (some sample_fsm) ev1 11 12 ((0 : Nat), []) =
        some (RC_FSM_INVALID_EVENT, some g, (0, []))) ∧
    (∀ ev1 t1, ev1 < sample_fsm.number_events →
      event_ptr_at sample_fsm.state_table sample_fsm.curr_state ev1 = some t1 →
      t1.event_handler = none →
      ∃ g, fsm_engine (with_call_log sample_code) (some sample_fsm) ev1 11 12 ((0 : Nat), []) =
        some (RC_FSM_OK, some g, (0, [])))) :=
  ⟨by decide, by decide,
    fsm_engine_handler_call sample_code sample_fsm 2 11 12 0 [] ⟨2, some 2, 1⟩ 2 (by decide)
      (by decide) rfl rfl (Or.inr (fsm_set_exception_state_via sample_fsm 2))⟩

/-! ## The session demo -/

/-- Every tuple of the demo tables has a handler and names one of the four
states as next state. -/
theorem demo_tuple (s ev : Nat) (hs : s < 4) (hev : ev < 7) :
    ∃ t h, event_ptr_at demo_state_table s ev = some t ∧ t.event_handler = some h ∧
      t.next_state < 4 := by
  interval_cases s <;> interval_cases ev <;> exact ⟨_, _, rfl, rfl, by decide⟩

/-- Every handler of the demo returns `RC_FSM_OK` and leaves the instance as it was. -/
theorem demo_code_ok (h : demo_handler_t) (p q : Nat) (f : fsm_t demo_handler_t)
    (mem : demo_memory_t) : ∃ mem1, demo_code h p q (f, mem) = (RC_FSM_OK, some f, mem1) := by
  cases h
  case event_init_ack_tmo =>
    exact ⟨{ mem with
      context := { mem.context with timeout_count := add32 mem.context.timeout_count 1 } },
      by simp [demo_code, event_init_ack_tmo]⟩
  all_goals exact ⟨_, rfl⟩

/-- One call of `fsm_engine` in the demo, for one of the seven events: it
returns `RC_FSM_OK`, the current state after it is the next state of the tuple
of the event in the state before it, and the instance is again one that the
demo can reach. -/
theorem demo_step (f : fsm_t demo_handler_t) (ev p q : Nat) (mem : demo_memory_t)
    (hd : demo_instance f) (hev : ev < 7) :
    ∃ g mem1, fsm_engine demo_code (some f) ev p q mem = some (RC_FSM_OK, some g, mem1) ∧
      (event_ptr_at demo_state_table f.curr_state ev).map (fun t => t.next_state) =
        some g.curr_state ∧
      g.curr_state < 4 ∧ demo_instance g := by
  obtain ⟨hv, htab, hn, hm, hflag⟩ := hd
  have hcur : f.curr_state < 4 := by
    rw [← hn]
    exact hv.2.2.2.2.2.1
  obtain ⟨t, h, ht, hh, hns⟩ := demo_tuple f.curr_state ev hcur hev
  obtain ⟨mem1, hrun⟩ := demo_code_ok h p q f mem
  have ht1 : event_ptr_at f.state_table f.curr_state ev = some t := by
    rw [htab]
    exact ht
  have hev1 : ev < f.number_events := by
    rw [hm]
    exact hev
  obtain ⟨g, hg, hc, -, hf, -, hvg⟩ :=
    fsm_engine_commit_resolved demo_code f f ev p q mem mem1 t h hv hev1 ht1 hh hrun
      (Or.inl rfl) t.next_state (by simp [hflag]) (by rw [hn]; exact hns)
  obtain ⟨rc, inst, mem2, heng, hp⟩ :=
    fsm_engine_paths demo_code f ev p q mem hv
      (fun _ h0 _ _ => by
        obtain ⟨m, hm0⟩ := demo_code_ok h0 p q f mem
        exact Or.inr ⟨f, by rw [hm0], Or.inl rfl⟩)
  rw [hg] at heng
  simp only [Option.some.injEq, Prod.mk.injEq] at heng
  obtain ⟨rfl, rfl, rfl⟩ := heng
  obtain ⟨-, -, -, e2, e3, e4, -⟩ := fsm_engine_path_frame hv hp (by decide)
  refine ⟨g, mem1, hg, ?_, by rw [hc]; exact hns, hvg, e4.trans htab, e2.trans hn,
    e3.trans hm, hf⟩
  rw [ht, hc]
  rfl

/-- The trace of a list of calls, from its first call. -/
theorem fsm_engine_trace_cons {H U : Type} (code : H → handler_sem H U) (p q ev : Nat)
    (rest : List Nat) (f g : fsm_t H) (mem mem1 : U) (rc : RC_FSM_t)
    (h : fsm_engine code (some f) ev p q mem = some (rc, some g, mem1)) :
    fsm_engine_trace code p q (ev :: rest) f mem =
      (fsm_engine_trace code p q rest g mem1).map (fun l => (rc, g.curr_state) :: l) := by
  rw [fsm_engine_trace, h]

/-- An instance that `fsm_create` has built from the demo tables is one that
the demo can reach. -/
theorem demo_created (fsm : Option (Option (fsm_t demo_handler_t))) (name : Option String)
    (initial_state : Nat) (heap : malloc_t demo_handler_t) (f0 : fsm_t demo_handler_t)
    (hcreate : fsm_create fsm name initial_state (some normalized_state_table)
      (some normalized_event_table) (some demo_state_table) heap =
        some (RC_FSM_OK, some (some f0))) :
    demo_instance f0 ∧ f0.curr_state = initial_state := by
  obtain ⟨hv, -⟩ := fsm_create_valid fsm name initial_state _ _ _ heap f0 hcreate
  rcases fsm_create_cases fsm name initial_state _ _ _ heap _ _ hcreate with
    ⟨e, -⟩ |
    ⟨-, f, garbage, e, -, -, -, -, hflag, -, hcur, -, hsd, hed, hst, hs, -, -, he, -⟩
  · exact absurd rfl e
  · simp only [Option.some.injEq] at e
    subst e
    simp only [Option.some.injEq] at hsd hed hst
    rw [← hsd, ← hst] at hs
    rw [← hed] at he
    have hs1 :
        scan_state_description normalized_state_table demo_state_table FSM_MAX_STATES 0 0 =
          some (.ok 4) := rfl
    have he1 : scan_event_description normalized_event_table FSM_MAX_EVENTS 0 0 =
        some (.ok 7) := rfl
    rw [hs1] at hs
    rw [he1] at he
    simp only [Option.some.injEq, Except.ok.injEq] at hs he
    exact ⟨⟨hv, hst.symm, hs.symm, he.symm, hflag⟩, hcur⟩

/-- Claim C25.  Take an instance that `fsm_create` has built from the demo
tables with initial state `idle_s`, and the memory in which `main` has set the
timeout count to `0` and the timeout threshold to `3`.  The six calls of
`fsm_engine` that `main` makes (`start_init_e`, `init_tmo_e`, `init_tmo_e`,
`init_ack_e`, `start_term_e`, `term_ack_e`) all return `RC_FSM_OK`, and the
current state after them is, in order, `wait_for_init_ack_s`,
`wait_for_init_ack_s`, `wait_for_init_ack_s`, `established_s`,
`wait_for_term_ack_s`, `idle_s`. -/
theorem demo_session_scenario (fsm : Option (Option (fsm_t demo_handler_t)))
    (name : Option String) (heap : malloc_t demo_handler_t) (f0 : fsm_t demo_handler_t)
    (p2event_buffer p2parm : Nat)
    (hcreate : fsm_create fsm name idle_s (some normalized_state_table)
      (some normalized_event_table) (some demo_state_table) heap =
        some (RC_FSM_OK, some (some f0))) :
    fsm_engine_trace demo_code p2event_buffer p2parm demo_events f0 demo_memory =
      some [(RC_FSM_OK, wait_for_init_ack_s), (RC_FSM_OK, wait_for_init_ack_s),
        (RC_FSM_OK, wait_for_init_ack_s), (RC_FSM_OK, established_s),
        (RC_FSM_OK, wait_for_term_ack_s), (RC_FSM_OK, idle_s)] := by
  obtain ⟨hd0, hc0⟩ := demo_created fsm name idle_s heap f0 hcreate
  obtain ⟨f1, m1, h1, n1, -, hd1⟩ :=
    demo_step f0 start_init_e p2event_buffer p2parm demo_memory hd0 (by decide)
  rw [hc0] at n1
  have hc1 : f1.curr_state = wait_for_init_ack_s := (Option.some.inj n1).symm
  obtain ⟨f2, m2, h2, n2, -, hd2⟩ :=
    demo_step f1 init_tmo_e p2event_buffer p2parm m1 hd1 (by decide)
  rw [hc1] at n2
  have hc2 : f2.curr_state = wait_for_init_ack_s := (Option.some.inj n2).symm
  obtain ⟨f3, m3, h3, n3, -, hd3⟩ :=
    demo_step f2 init_tmo_e p2event_buffer p2parm m2 hd2 (by decide)
  rw [hc2] at n3
  have hc3 : f3.curr_state = wait_for_init_ack_s := (Option.some.inj n3).symm
  obtain ⟨f4, m4, h4, n4, -, hd4⟩ :=
    demo_step f3 init_ack_e p2event_buffer p2parm m3 hd3 (by decide)
  rw [hc3] at n4
  have hc4 : f4.curr_state = established_s := (Option.some.inj n4).symm
  obtain ⟨f5, m5, h5, n5, -, hd5⟩ :=
    demo_step f4 start_term_e p2event_buffer p2parm m4 hd4 (by decide)
  rw [hc4] at n5
  have hc5 : f5.curr_state = wait_for_term_ack_s := (Option.some.inj n5).symm
  obtain ⟨f6, m6, h6, n6, -, hd6⟩ :=
    demo_step f5 term_ack_e p2event_buffer p2parm m5 hd5 (by decide)
  rw [hc5] at n6
  have hc6 : f6.curr_state = idle_s := (Option.some.inj n6).symm
  unfold demo_events
  rw [fsm_engine_trace_cons _ _ _ _ _ _ _ _ _ _ h1, fsm_engine_trace_cons _ _ _ _ _ _ _ _ _ _ h2,
    fsm_engine_trace_cons _ _ _ _ _ _ _ _ _ _ h3, fsm_engine_trace_cons _ _ _ _ _ _ _ _ _ _ h4,
    fsm_engine_trace_cons _ _ _ _ _ _ _ _ _ _ h5, fsm_engine_trace_cons _ _ _ _ _ _ _ _ _ _ h6,
    hc1, hc2, hc3, hc4, hc5, hc6]
  rfl

theorem demo_session_scenario_witness :
    fsm_create (some none) (some "Demo State Machine") idle_s (some normalized_state_table)
        (some normalized_event_table) (some demo_state_table) demo_heap =
      some (RC_FSM_OK, some (some demo_fsm)) ∧
    fsm_engine_trace demo_code 1 2 demo_events demo_fsm demo_memory =
      some [(RC_FSM_OK, wait_for_init_ack_s), (RC_FSM_OK, wait_for_init_ack_s),
        (RC_FSM_OK, wait_for_init_ack_s), (RC_FSM_OK, established_s),
        (RC_FSM_OK, wait_for_term_ack_s), (RC_FSM_OK, idle_s)] :=
  ⟨by decide,
    demo_session_scenario (some none) (some "Demo State Machine") demo_heap demo_fsm 1 2
      (by decide)⟩

/-! ## Sequences of calls and the reachable instances -/

/-- Every path but the stop-processing path leaves an instance. -/
theorem fsm_engine_path_some {H U : Type} {code : H → handler_sem H U} {f : fsm_t H}
    {ev p2event_buffer p2parm : Nat} {mem mem1 : U} {rc : RC_FSM_t} {inst : Option (fsm_t H)}
    (hp : fsm_engine_path code f ev p2event_buffer p2parm mem rc inst mem1)
    (hstop : rc ≠ RC_FSM_STOP_PROCESSING) : ∃ g, inst = some g := by
  cases hp with
  | stop_processing t h inst mem1 hev ht hh hrun => exact absurd rfl hstop
  | invalid_event g hev hg => exact ⟨_, rfl⟩
  | quiet_event t g hev ht hq hg => exact ⟨_, rfl⟩
  | handler_error t h rc f1 mem1 g hev ht hh hrun hapi hok hstop1 hg => exact ⟨_, rfl⟩
  | invalid_state t h f1 mem1 ns g hev ht hh hrun hapi hns hbad hg => exact ⟨_, rfl⟩
  | commit t h f1 mem1 ns g hev ht hh hrun hapi hns hres hg => exact ⟨_, rfl⟩

/-- One call of `fsm_engine` on a valid instance whose override is in range,
with handlers that go through `fsm_set_exception_state` only: the call
returns and leaves an instance that is valid, whose override is in range, and
whose tag, counts and state table are the ones before the call. -/
theorem fsm_engine_via_step {H U : Type} (code : H → handler_sem H U) (f : fsm_t H)
    (ev p2event_buffer p2parm : Nat) (mem : U) (hv : fsm_valid f)
    (hinv : override_in_range f) (hcode : handlers_via_api code) :
    ∃ rc g mem1,
      fsm_engine code (some f) ev p2event_buffer p2parm mem = some (rc, some g, mem1) ∧
      fsm_valid g ∧ override_in_range g ∧ g.tag = f.tag ∧
      g.number_states = f.number_states ∧ g.number_events = f.number_events ∧
      g.state_table = f.state_table := by
  obtain ⟨rc, inst, mem1, heng, hp⟩ :=
    fsm_engine_paths code f ev p2event_buffer p2parm mem hv
      (fun _ h _ _ => Or.inr (hcode h p2event_buffer p2parm f mem))
  by_cases hstop : rc = RC_FSM_STOP_PROCESSING
  · subst hstop
    cases hp with
    | stop_processing t h inst mem1 hev ht hh hrun =>
      obtain ⟨f1, hf1, hapi⟩ := hcode h p2event_buffer p2parm f mem
      rw [hrun] at hf1
      simp only at hf1
      subst hf1
      obtain ⟨e1, -, -, e4, e5, e6, -⟩ := via_set_exception_state_fields hapi
      exact ⟨_, f1, mem1, heng, via_set_exception_state_valid hv hapi,
        via_set_exception_state_override hv hinv hapi, e1, e4, e5, e6⟩
    | handler_error t h rc f1 mem1 g hev ht hh hrun hapi hok hstop1 hg =>
      exact absurd rfl hstop1
  · obtain ⟨g, rfl⟩ := fsm_engine_path_some hp hstop
    obtain ⟨hvg, -, e1, e2, e3, e4, hover⟩ := fsm_engine_path_frame hv hp hstop
    exact ⟨rc, g, mem1, heng, hvg, hover hinv, e1, e2, e3, e4⟩

/-- A sequence of calls of `fsm_engine` and `fsm_set_exception_state` on a
valid instance whose override is in range, with handlers that go through
`fsm_set_exception_state` only: no call faults, and the instance after the
sequence is valid, its override is in range, and its tag, counts and state
table are the ones before the sequence. -/
theorem fsm_api_calls_inv {H U : Type} (code : H → handler_sem H U)
    (hcode : handlers_via_api code) :
    ∀ (calls : List api_call) (f : fsm_t H) (mem : U), fsm_valid f → override_in_range f →
      ∃ fk mk, fsm_api_calls code calls f mem = some (fk, mk) ∧
        fsm_valid fk ∧ override_in_range fk ∧ fk.tag = f.tag ∧
        fk.number_states = f.number_states ∧ fk.number_events = f.number_events ∧
        fk.state_table = f.state_table := by
  intro calls
  induction calls with
  | nil =>
    intro f mem hv hinv
    exact ⟨f, mem, rfl, hv, hinv, rfl, rfl, rfl, rfl⟩
  | cons c rest ih =>
    intro f mem hv hinv
    cases c with
    | engine ev p q =>
      obtain ⟨rc, g, mem1, heng, hvg, hig, e1, e2, e3, e4⟩ :=
        fsm_engine_via_step code f ev p q mem hv hinv hcode
      obtain ⟨fk, mk, hrun, hvk, hik, k1, k2, k3, k4⟩ := ih g mem1 hvg hig
      refine ⟨fk, mk, ?_, hvk, hik, k1.trans e1, k2.trans e2, k3.trans e3, k4.trans e4⟩
      rw [fsm_api_calls, heng]
      exact hrun
    | set_exception_state s =>
      obtain ⟨g, hg, hapi⟩ := fsm_set_exception_state_via f s
      obtain ⟨e1, -, -, e4, e5, e6, -⟩ := via_set_exception_state_fields hapi
      obtain ⟨fk, mk, hrun, hvk, hik, k1, k2, k3, k4⟩ :=
        ih g mem (via_set_exception_state_valid hv hapi)
          (via_set_exception_state_override hv hinv hapi)
      refine ⟨fk, mk, ?_, hvk, hik, k1.trans e1, k2.trans e4, k3.trans e5, k4.trans e6⟩
      rw [fsm_api_calls]
      rcases hset : fsm_set_exception_state (some f) s with ⟨rc, o⟩
      rw [hset] at hg
      simp only at hg
      subst hg
      exact hrun

/-- The sample handlers that keep the instance go through
`fsm_set_exception_state` only. -/
theorem sample_api_code_via : handlers_via_api sample_api_code := by
  intro h p q f mem
  rcases h with _ | _ | _ | _ | _ | h
  · exact ⟨f, rfl, Or.inl rfl⟩
  · exact ⟨f, rfl, Or.inl rfl⟩
  · exact fsm_set_exception_state_via f 2
  · exact ⟨f, rfl, Or.inl rfl⟩
  · exact fsm_set_exception_state_via f 2
  · exact ⟨f, rfl, Or.inl rfl⟩

/-- Claim C28.  Take an instance that `fsm_create` has returned with
`RC_FSM_OK`, handlers that touch the instance through
`fsm_set_exception_state` only, and any finite sequence of calls of
`fsm_engine` and `fsm_set_exception_state`.  No call of the sequence faults,
and the instance after it has its current state below `number_states`, both
counts between `1` and `63`, its write index below `64`, and an override value
below `number_states` whenever the override flag is armed. -/
theorem fsm_reachable_invariant {H U : Type} (code : H → handler_sem H U)
    (fsm : Option (Option (fsm_t H))) (name : Option String) (initial_state : Nat)
    (sdo : Option (List state_description_t)) (edo : Option (List event_description_t))
    (sto : Option (List (state_tuple_t H))) (heap : malloc_t H) (f0 : fsm_t H) (mem0 : U)
    (calls : List api_call)
    (hcreate : fsm_create fsm name initial_state sdo edo sto heap =
      some (RC_FSM_OK, some (some f0)))
    (hcode : handlers_via_api code) :
    ∃ fk mk, fsm_api_calls code calls f0 mem0 = some (fk, mk) ∧
      fk.curr_state < fk.number_states ∧
      1 ≤ fk.number_states ∧ fk.number_states ≤ 63 ∧
      1 ≤ fk.number_events ∧ fk.number_events ≤ 63 ∧
      fk.history_index < 64 ∧
      (fk.exception_state_indicator = true → fk.exception_state < fk.number_states) := by
  obtain ⟨hv, -⟩ := fsm_create_valid fsm name initial_state sdo edo sto heap f0 hcreate
  have hinv : override_in_range f0 := by
    rcases fsm_create_cases fsm name initial_state sdo edo sto heap _ _ hcreate with
      ⟨e, -⟩ | ⟨-, f, garbage, e, -, -, -, -, hflag, -⟩
    · exact absurd rfl e
    · simp only [Option.some.injEq] at e
      subst e
      intro h
      rw [hflag] at h
      exact absurd h (by simp)
  obtain ⟨fk, mk, hrun, hvk, hik, -⟩ := fsm_api_calls_inv code hcode calls f0 mem0 hv hinv
  obtain ⟨-, n1, n2, m1, m2, hc, -, -, -, hidx⟩ := hvk
  exact ⟨fk, mk, hrun, hc, n1, n2, m1, m2, hidx, hik⟩

theorem fsm_reachable_invariant_witness :
    (fsm_create (some none) (some "sample") 0 (some sample_state_description)
        (some sample_event_description) (some sample_state_table) sample_heap =
        some (RC_FSM_OK, some (some sample_fsm)) ∧
      handlers_via_api sample_api_code) ∧
    ∃ fk mk, fsm_api_calls sample_api_code sample_api_calls sample_fsm (0 : Nat) =
        some (fk, mk) ∧
      fk.curr_state < fk.number_states ∧
      1 ≤ fk.number_states ∧ fk.number_states ≤ 63 ∧
      1 ≤ fk.number_events ∧ fk.number_events ≤ 63 ∧
      fk.history_index < 64 ∧
      (fk.exception_state_indicator = true → fk.exception_state < fk.number_states) :=
  ⟨⟨by decide, sample_api_code_via⟩,
    fsm_reachable_invariant sample_api_code (some none) (some "sample") 0
      (some sample_state_description) (some sample_event_description)
      (some sample_state_table) sample_heap sample_fsm 0 sample_api_calls (by decide)
      sample_api_code_via⟩

/-! ## The lookup of the engine -/

/-- A tuple that `event_ptr_at` has read lies in the state table: the entry
of the state is in the table, its tuple array is not `NULL`, and the tuple is
in the array. -/
theorem event_ptr_at_some {H : Type} {st : List (state_tuple_t H)} {s ev : Nat}
    {t : event_tuple_t H} (h : event_ptr_at st s ev = some t) :
    ∃ state_ptr tuples, st[s]? = some state_ptr ∧ state_ptr.p2event_tuple = some tuples ∧
      tuples[ev]? = some t := by
  unfold event_ptr_at at h
  split at h
  · exact Option.noConfusion h
  · rename_i state_ptr hs
    split at h
    · exact Option.noConfusion h
    · rename_i tuples hp
      exact ⟨state_ptr, tuples, hs, hp, h⟩

/-- Claim C30.  Take an instance that `fsm_create` has returned with
`RC_FSM_OK`, handlers that touch the instance through
`fsm_set_exception_state` only, and any finite sequence of calls of
`fsm_engine` and `fsm_set_exception_state`.  The instance after the sequence
still has the state table and the two counts of the construction, for which
the tuple verification of `fsm_create` has passed, and its current state is
below `number_states`.  For every event id that passes the range check of
`fsm_engine`, so that the lookup is performed, the event id is below
`number_events`, the entry of the current state is in the state table, its
tuple array is not `NULL`, the tuple of the event is in the array, and the
lookup yields it. -/
theorem fsm_engine_lookup_in_range {H U : Type} (code : H → handler_sem H U)
    (fsm : Option (Option (fsm_t H))) (name : Option String) (initial_state : Nat)
    (sdo : Option (List state_description_t)) (edo : Option (List event_description_t))
    (sto : Option (List (state_tuple_t H))) (heap : malloc_t H) (f0 : fsm_t H) (mem0 : U)
    (calls : List api_call)
    (hcreate : fsm_create fsm name initial_state sdo edo sto heap =
      some (RC_FSM_OK, some (some f0)))
    (hcode : handlers_via_api code) :
    ∃ fk mk, fsm_api_calls code calls f0 mem0 = some (fk, mk) ∧
      sto = some fk.state_table ∧
      fk.number_states = f0.number_states ∧ fk.number_events = f0.number_events ∧
      verify_state_table fk.state_table fk.number_events fk.number_states 0 = some true ∧
      fk.curr_state < fk.number_states ∧
      ∀ ev, ¬ ev > sub32 fk.number_events 1 →
        ev < fk.number_events ∧
        ∃ state_ptr tuples t, fk.state_table[fk.curr_state]? = some state_ptr ∧
          state_ptr.p2event_tuple = some tuples ∧ tuples[ev]? = some t ∧
          event_ptr_at fk.state_table fk.curr_state ev = some t := by
  obtain ⟨hv, -⟩ := fsm_create_valid fsm name initial_state sdo edo sto heap f0 hcreate
  rcases fsm_create_cases fsm name initial_state sdo edo sto heap _ _ hcreate with
    ⟨e, -⟩ |
    ⟨-, f, garbage, e, -, -, -, -, hflag, -, -, -, -, -, hst, -, -, -, -, -, hver⟩
  · exact absurd rfl e
  · simp only [Option.some.injEq] at e
    subst e
    have hinv : override_in_range f0 := by
      intro h
      rw [hflag] at h
      exact absurd h (by simp)
    obtain ⟨fk, mk, hrun, hvk, -, -, k2, k3, k4⟩ :=
      fsm_api_calls_inv code hcode calls f0 mem0 hv hinv
    refine ⟨fk, mk, hrun, by rw [k4]; exact hst, k2, k3, by rw [k2, k3, k4]; exact hver,
      hvk.2.2.2.2.2.1, ?_⟩
    intro ev hchk
    have hev : ev < fk.number_events := by
      have := (event_check_iff hvk ev).not.mp hchk
      omega
    obtain ⟨t, ht⟩ := event_ptr_at_valid hvk hev
    obtain ⟨state_ptr, tuples, h1, h2, h3⟩ := event_ptr_at_some ht
    exact ⟨hev, state_ptr, tuples, t, h1, h2, h3, ht⟩

theorem fsm_engine_lookup_in_range_witness :
    (fsm_create (some none) (some "sample") 0 (some sample_state_description)
        (some sample_event_description) (some sample_state_table) sample_heap =
        some (RC_FSM_OK, some (some sample_fsm)) ∧
      handlers_via_api sample_api_code) ∧
    ∃ fk mk, fsm_api_calls sample_api_code sample_api_calls sample_fsm (0 : Nat) =
        some (fk, mk) ∧
      some sample_state_table = some fk.state_table ∧
      fk.number_states = sample_fsm.number_states ∧
      fk.number_events = sample_fsm.number_events ∧
      verify_state_table fk.state_table fk.number_events fk.number_states 0 = some true ∧
      fk.curr_state < fk.number_states ∧
      ∀ ev, ¬ ev > sub32 fk.number_events 1 →
        ev < fk.number_events ∧
        ∃ state_ptr tuples t, fk.state_table[fk.curr_state]? = some state_ptr ∧
          state_ptr.p2event_tuple = some tuples ∧ tuples[ev]? = some t ∧
          event_ptr_at fk.state_table fk.curr_state ev = some t :=
  ⟨⟨by decide, sample_api_code_via⟩,
    fsm_engine_lookup_in_range sample_api_code (some none) (some "sample") 0
      (some sample_state_description) (some sample_event_description)
      (some sample_state_table) sample_heap sample_fsm 0 sample_api_calls (by decide)
      sample_api_code_via⟩

/-! ## An override that stays armed -/

/-- Claim C29.  On a valid instance `fsm_engine` leaves the override flag and
the override value alone on four paths: for an event id at or above
`number_events` and for a tuple without handler they are the ones before the
call; after a handler that returns a code other than `RC_FSM_OK` and
`RC_FSM_STOP_PROCESSING` they are the ones the handler has left; after
stop-processing the instance is the one the handler has left.  So an override
stays armed across these calls.  On the remaining path, a handler that returns
`RC_FSM_OK` and leaves the override armed with a normalized state, whether the
handler has armed it or has found it armed, `fsm_engine` returns `RC_FSM_OK`,
the current state after the call is the override value, whatever the event,
the current state and the next state of the tuple are, and the flag is
cleared. -/
theorem fsm_engine_override_kept {H U : Type} (f : fsm_t H) (p2event_buffer p2parm : Nat)
    (mem : U) (hv : fsm_valid f) :
    (∀ ev, f.number_events ≤ ev → ∃ g,
      (∀ code : H → handler_sem H U,
        fsm_engine code (some f) ev p2event_buffer p2parm mem =
          some (RC_FSM_INVALID_EVENT, some g, mem)) ∧
      g.exception_state_indicator = f.exception_state_indicator ∧
      g.exception_state = f.exception_state) ∧
    (∀ ev t, ev < f.number_events →
      event_ptr_at f.state_table f.curr_state ev = some t → t.event_handler = none →
      ∃ g, (∀ code : H → handler_sem H U,
        fsm_engine code (some f) ev p2event_buffer p2parm mem = some (RC_FSM_OK, some g, mem)) ∧
      g.exception_state_indicator = f.exception_state_indicator ∧
      g.exception_state = f.exception_state) ∧
    (∀ (code : H → handler_sem H U) ev t h rc f1 mem1, ev < f.number_events →
      event_ptr_at f.state_table f.curr_state ev = some t → t.event_handler = some h →
      code h p2event_buffer p2parm (f, mem) = (rc, some f1, mem1) →
      via_set_exception_state f f1 → rc ≠ RC_FSM_OK → rc ≠ RC_FSM_STOP_PROCESSING →
      ∃ g, fsm_engine code (some f) ev p2event_buffer p2parm mem = some (rc, some g, mem1) ∧
        g.exception_state_indicator = f1.exception_state_indicator ∧
        g.exception_state = f1.exception_state) ∧
    (∀ (code : H → handler_sem H U) ev t h inst mem1, ev < f.number_events →
      event_ptr_at f.state_table f.curr_state ev = some t → t.event_handler = some h →
      code h p2event_buffer p2parm (f, mem) = (RC_FSM_STOP_PROCESSING, inst, mem1) →
      fsm_engine code (some f) ev p2event_buffer p2parm mem =
        some (RC_FSM_STOP_PROCESSING, inst, mem1)) ∧
    (∀ (code : H → handler_sem H U) ev t h f1 mem1, ev < f.number_events →
      event_ptr_at f.state_table f.curr_state ev = some t → t.event_handler = some h →
      code h p2event_buffer p2parm (f, mem) = (RC_FSM_OK, some f1, mem1) →
      via_set_exception_state f f1 → f1.exception_state_indicator = true →
      f1.exception_state < f.number_states →
      ∃ g, fsm_engine code (some f) ev p2event_buffer p2parm mem =
          some (RC_FSM_OK, some g, mem1) ∧
        g.curr_state = f1.exception_state ∧ g.exception_state_indicator = false) := by
  have hlen := hv.2.2.2.2.2.2.2.2.1
  have hchk : ∀ ev, ev < f.number_events → ¬ ev > sub32 f.number_events 1 := by
    intro ev hev
    rw [event_check_iff hv]
    omega
  refine ⟨?_, ?_, ?_, ?_, ?_⟩
  · intro ev hev
    obtain ⟨g, hg, -, -⟩ := fsm_record_history_spec f ev f.curr_state RC_FSM_INVALID_EVENT hlen
    obtain ⟨-, -, -, r4, r5, -⟩ := fsm_record_history_fields hg
    refine ⟨g, ?_, r5, r4⟩
    intro code
    unfold fsm_engine
    simp [hv.1, (event_check_iff hv ev).mpr hev, hg]
  · intro ev t hev ht hq
    obtain ⟨g, hg, -, -⟩ :=
      fsm_record_history_spec f ev t.next_state RC_FSM_INVALID_EVENT_HANDLER hlen
    obtain ⟨-, -, -, r4, r5, -⟩ := fsm_record_history_fields hg
    refine ⟨g, ?_, r5, r4⟩
    intro code
    unfold fsm_engine
    simp [hv.1, hchk ev hev, ht, hq, hg]
  · intro code ev t h rc f1 mem1 hev ht hh hrun hapi hok hstop
    have hv1 := via_set_exception_state_valid hv hapi
    obtain ⟨g, hg, -, -⟩ :=
      fsm_record_history_spec f1 ev t.next_state rc hv1.2.2.2.2.2.2.2.2.1
    obtain ⟨-, -, -, r4, r5, -⟩ := fsm_record_history_fields hg
    refine ⟨g, ?_, r5, r4⟩
    unfold fsm_engine
    simp [hv.1, hchk ev hev, ht, hh, hrun, hok, hstop, hg]
  · intro code ev t h inst mem1 hev ht hh hrun
    unfold fsm_engine
    simp [hv.1, hchk ev hev, ht, hh, hrun]
  · intro code ev t h f1 mem1 hev ht hh hrun hapi hflag hrange
    obtain ⟨g, hg, hc, -, hf, -, -⟩ :=
      fsm_engine_commit_resolved code f f1 ev p2event_buffer p2parm mem mem1 t h hv hev ht hh
        hrun hapi f1.exception_state (by simp [hflag]) hrange
    exact ⟨g, hg, hc, hf⟩

theorem fsm_engine_override_kept_witness :
    fsm_valid sample_refused ∧ sample_refused.exception_state_indicator = true ∧
    sample_refused.exception_state = 2 ∧
    ∃ g, fsm_engine sample_code (some sample_refused) 0 0 0 (1 : Nat) =
        some (RC_FSM_OK, some g, 2) ∧
      g.curr_state = sample_refused.exception_state ∧ g.exception_state_indicator = false :=
  ⟨by decide, rfl, rfl,
    (fsm_engine_override_kept sample_refused 0 0 (1 : Nat) (by decide)).2.2.2.2 sample_code 0
      ⟨0, some 0, 1⟩ 0 sample_refused 2 (by decide) rfl rfl rfl (Or.inl rfl) rfl (by decide)⟩

/-! ## Tables whose next states are all in range -/

/-- On a valid instance whose override is in range and whose tuples all name
a normalized state, the next state that `fsm_engine` resolves after a handler
is a normalized state. -/
theorem resolved_in_range {H : Type} {f f1 : fsm_t H} {ev : Nat} {t : event_tuple_t H}
    (hv : fsm_valid f) (hinv : override_in_range f) (htab : next_states_in_range f)
    (hev : ev < f.number_events) (ht : event_ptr_at f.state_table f.curr_state ev = some t)
    (hapi : via_set_exception_state f f1) :
    (if f1.exception_state_indicator then f1.exception_state else t.next_state) <
      f.number_states := by
  have h1 := via_set_exception_state_override hv hinv hapi
  have hn := (via_set_exception_state_fields hapi).2.2.2.1
  by_cases hflag : f1.exception_state_indicator = true
  · rw [if_pos hflag, ← hn]
    exact h1 hflag
  · rw [if_neg hflag]
    exact htab _ _ t hv.2.2.2.2.2.1 hev ht

/-- The handlers of the demo go through `fsm_set_exception_state` only: they
leave the instance as it was. -/
theorem demo_code_via : handlers_via_api demo_code := by
  intro h p q f mem
  obtain ⟨m, hm⟩ := demo_code_ok h p q f mem
  exact ⟨f, by rw [hm], Or.inl rfl⟩

/-- Every tuple of the demo instance names one of the four states. -/
theorem demo_fsm_next_states : next_states_in_range demo_fsm := by
  intro i j t hi hj ht
  obtain ⟨t1, h, ht1, -, hns⟩ := demo_tuple i j hi hj
  have e : some t1 = some t := ht1.symm.trans ht
  cases e
  exact hns

/-- Claim C31.  Take an instance that `fsm_create` has returned with
`RC_FSM_OK` and whose tuples, for every normalized state and event, name a
normalized state as next state, handlers that touch the instance through
`fsm_set_exception_state` only, and any finite sequence of calls of
`fsm_engine` and `fsm_set_exception_state`.  On the instance after the
sequence, every call of `fsm_engine` whose handler returns `RC_FSM_OK` is
committed: `fsm_engine` returns `RC_FSM_OK`, the current state is the resolved
next state (the override value when the handler leaves the override armed,
else the next state of the tuple), which is below `number_states`, and the
record written is the one of a commit.  When a call returns
`RC_FSM_INVALID_STATE`, that code is the one its handler has returned: the
branch of the range check, which follows a handler result `RC_FSM_OK`, is not
taken. -/
theorem fsm_engine_always_commits {H U : Type} (code : H → handler_sem H U)
    (fsm : Option (Option (fsm_t H))) (name : Option String) (initial_state : Nat)
    (sdo : Option (List state_description_t)) (edo : Option (List event_description_t))
    (sto : Option (List (state_tuple_t H))) (heap : malloc_t H) (f0 : fsm_t H) (mem0 : U)
    (calls : List api_call)
    (hcreate : fsm_create fsm name initial_state sdo edo sto heap =
      some (RC_FSM_OK, some (some f0)))
    (hcode : handlers_via_api code) (htab : next_states_in_range f0) :
    ∃ fk mk, fsm_api_calls code calls f0 mem0 = some (fk, mk) ∧
      ∀ (ev p2event_buffer p2parm : Nat) (mem : U),
        (∀ t h f1 mem1, ev < fk.number_events →
          event_ptr_at fk.state_table fk.curr_state ev = some t →
          t.event_handler = some h →
          code h p2event_buffer p2parm (fk, mem) = (RC_FSM_OK, some f1, mem1) →
          ∃ g, fsm_engine code (some fk) ev p2event_buffer p2parm mem =
              some (RC_FSM_OK, some g, mem1) ∧
            g.curr_state =
              (if f1.exception_state_indicator then f1.exception_state else t.next_state) ∧
            g.curr_state < fk.number_states ∧
            one_record_written fk g fk.curr_state g.curr_state ev RC_FSM_OK) ∧
        (∀ rc inst mem1,
          fsm_engine code (some fk) ev p2event_buffer p2parm mem = some (rc, inst, mem1) →
          rc = RC_FSM_INVALID_STATE →
          ∃ t h, event_ptr_at fk.state_table fk.curr_state ev = some t ∧
            t.event_handler = some h ∧
            (code h p2event_buffer p2parm (fk, mem)).1 = RC_FSM_INVALID_STATE) := by
  obtain ⟨hv, -⟩ := fsm_create_valid fsm name initial_state sdo edo sto heap f0 hcreate
  have hinv : override_in_range f0 := by
    rcases fsm_create_cases fsm name initial_state sdo edo sto heap _ _ hcreate with
      ⟨e, -⟩ | ⟨-, f, garbage, e, -, -, -, -, hflag, -⟩
    · exact absurd rfl e
    · simp only [Option.some.injEq] at e
      subst e
      intro h
      rw [hflag] at h
      exact absurd h (by simp)
  obtain ⟨fk, mk, hrun, hvk, hik, -, k2, k3, k4⟩ :=
    fsm_api_calls_inv code hcode calls f0 mem0 hv hinv
  have htabk : next_states_in_range fk := by
    intro i j t hi hj ht
    rw [k2] at hi ⊢
    rw [k3] at hj
    rw [k4] at ht
    exact htab i j t hi hj ht
  refine ⟨fk, mk, hrun, ?_⟩
  intro ev p2event_buffer p2parm mem
  constructor
  · intro t h f1 mem1 hev ht hh hcall
    obtain ⟨f2, hf2, hapi⟩ := hcode h p2event_buffer p2parm fk mem
    rw [hcall] at hf2
    simp only [Option.some.injEq] at hf2
    subst hf2
    have hres := resolved_in_range hvk hik htabk hev ht hapi
    obtain ⟨g, hg, hc, -, -, hw, -⟩ :=
      fsm_engine_commit_resolved code fk f1 ev p2event_buffer p2parm mem mem1 t h hvk hev ht hh
        hcall hapi _ rfl hres
    refine ⟨g, hg, hc, by rw [hc]; exact hres, ?_⟩
    rw [hc]
    exact hw
  · intro rc inst mem1 heng hrc
    obtain ⟨rc1, inst1, mem2, heng1, hp⟩ :=
      fsm_engine_paths code fk ev p2event_buffer p2parm mem hvk
        (fun _ h _ _ => Or.inr (hcode h p2event_buffer p2parm fk mem))
    rw [heng] at heng1
    simp only [Option.some.injEq, Prod.mk.injEq] at heng1
    obtain ⟨rfl, rfl, rfl⟩ := heng1
    cases hp with
    | invalid_event g hev hg => exact absurd hrc (by decide)
    | quiet_event t g hev ht hq hg => exact absurd hrc (by decide)
    | stop_processing t h inst mem1 hev ht hh hcall => exact absurd hrc (by decide)
    | handler_error t h rc f1 mem1 g hev ht hh hcall hapi hok hstop hg =>
      exact ⟨t, h, ht, hh, by rw [hcall]; exact hrc⟩
    | invalid_state t h f1 mem1 ns g hev ht hh hcall hapi hns hbad hg =>
      have hres := resolved_in_range hvk hik htabk hev ht hapi
      rw [← hns] at hres
      omega
    | commit t h f1 mem1 ns g hev ht hh hcall hapi hns hres hg =>
      exact absurd hrc (by decide)

theorem fsm_engine_always_commits_witness :
    (fsm_create (some none) (some "Demo State Machine") idle_s (some normalized_state_table)
        (some normalized_event_table) (some demo_state_table) demo_heap =
        some (RC_FSM_OK, some (some demo_fsm)) ∧
      handlers_via_api demo_code ∧ next_states_in_range demo_fsm) ∧
    ∃ fk mk,
      fsm_api_calls demo_code
          [api_call.engine start_init_e 1 2, api_call.set_exception_state established_s,
            api_call.engine init_tmo_e 1 2] demo_fsm demo_memory = some (fk, mk) ∧
      ∀ (ev p2event_buffer p2parm : Nat) (mem : demo_memory_t),
        (∀ t h f1 mem1, ev < fk.number_events →
          event_ptr_at fk.state_table fk.curr_state ev = some t →
          t.event_handler = some h →
          demo_code h p2event_buffer p2parm (fk, mem) = (RC_FSM_OK, some f1, mem1) →
          ∃ g, fsm_engine demo_code (some fk) ev p2event_buffer p2parm mem =
              some (RC_FSM_OK, some g, mem1) ∧
            g.curr_state =
              (if f1.exception_state_indicator then f1.exception_state else t.next_state) ∧
            g.curr_state < fk.number_states ∧
            one_record_written fk g fk.curr_state g.curr_state ev RC_FSM_OK) ∧
        (∀ rc inst mem1,
          fsm_engine demo_code (some fk) ev p2event_buffer p2parm mem = some (rc, inst, mem1) →
          rc = RC_FSM_INVALID_STATE →
          ∃ t h, event_ptr_at fk.state_table fk.curr_state ev = some t ∧
            t.event_handler = some h ∧
            (demo_code h p2event_buffer p2parm (fk, mem)).1 = RC_FSM_INVALID_STATE) :=
  ⟨⟨by decide, demo_code_via, demo_fsm_next_states⟩,
    fsm_engine_always_commits demo_code (some none) (some "Demo State Machine") idle_s
      (some normalized_state_table) (some normalized_event_table) (some demo_state_table)
      demo_heap demo_fsm demo_memory _ (by decide) demo_code_via demo_fsm_next_states⟩

/-! ## What the construction reads of the state table -/

/-- Two state tables that agree on what `fsm_create` reads agree on it entry by entry. -/
theorem checked_getElem {H : Type} {st st1 : List (state_tuple_t H)}
    (h : st.map state_tuple_t.checked = st1.map state_tuple_t.checked) (i : Nat) :
    (st[i]?).map state_tuple_t.checked = (st1[i]?).map state_tuple_t.checked := by
  rw [← List.getElem?_map, ← List.getElem?_map, h]

/-- The state description scan reads the id and the tuple array pointer of
the entries of the state table, and nothing else of them. -/
theorem scan_state_description_checked {H : Type} (sd : List state_description_t)
    {st st1 : List (state_tuple_t H)}
    (h : st.map state_tuple_t.checked = st1.map state_tuple_t.checked) :
    ∀ fuel i acc, scan_state_description sd st fuel i acc =
      scan_state_description sd st1 fuel i acc := by
  intro fuel
  induction fuel with
  | zero =>
    intro i acc
    rfl
  | succ fuel ih =>
    intro i acc
    have hi := checked_getElem h i
    unfold scan_state_description
    cases hs : st[i]? with
    | none =>
      cases hs1 : st1[i]? with
      | none => rfl
      | some s1 => rw [hs, hs1] at hi; simp at hi
    | some s =>
      cases hs1 : st1[i]? with
      | none => rw [hs, hs1] at hi; simp at hi
      | some s1 =>
        rw [hs, hs1] at hi
        simp only [Option.map_some', Option.some.injEq, state_tuple_t.checked,
          Prod.mk.injEq] at hi
        have hsome : s.p2event_tuple.isSome = s1.p2event_tuple.isSome := by
          have := congrArg Option.isSome hi.2
          simpa using this
        simp only [hi.1, hsome, ih]

/-- The inner verification loop reads the event ids of the tuples, and
nothing else of them. -/
theorem verify_event_tuples_checked {H : Type} {p p1 : Option (List (event_tuple_t H))}
    (h : p.map (List.map (fun t => t.eventID)) = p1.map (List.map (fun t => t.eventID))) :
    ∀ fuel j, verify_event_tuples p fuel j = verify_event_tuples p1 fuel j := by
  intro fuel
  induction fuel with
  | zero =>
    intro j
    rfl
  | succ fuel ih =>
    intro j
    unfold verify_event_tuples
    cases p with
    | none =>
      cases p1 with
      | none => rfl
      | some l1 => simp at h
    | some l =>
      cases p1 with
      | none => simp at h
      | some l1 =>
        simp only [Option.map_some', Option.some.injEq] at h
        have hj : (l[j]?).map (fun t => t.eventID) = (l1[j]?).map (fun t => t.eventID) := by
          rw [← List.getElem?_map, ← List.getElem?_map, h]
        cases ht : l[j]? with
        | none =>
          cases ht1 : l1[j]? with
          | none => simp only [ht, ht1]
          | some t1 => rw [ht, ht1] at hj; simp at hj
        | some t =>
          cases ht1 : l1[j]? with
          | none => rw [ht, ht1] at hj; simp at hj
          | some t1 =>
            rw [ht, ht1] at hj
            simp only [Option.map_some', Option.some.injEq] at hj
            simp only [ht, ht1, hj, ih]

/-- The outer verification loop reads the event ids of the tuples, and
nothing else of the state table. -/
theorem verify_state_table_checked {H : Type} {st st1 : List (state_tuple_t H)}
    (h : st.map state_tuple_t.checked = st1.map state_tuple_t.checked) (m : Nat) :
    ∀ fuel i, verify_state_table st m fuel i = verify_state_table st1 m fuel i := by
  intro fuel
  induction fuel with
  | zero =>
    intro i
    rfl
  | succ fuel ih =>
    intro i
    have hi := checked_getElem h i
    unfold verify_state_table
    cases hs : st[i]? with
    | none =>
      cases hs1 : st1[i]? with
      | none => rfl
      | some s1 => rw [hs, hs1] at hi; simp at hi
    | some s =>
      cases hs1 : st1[i]? with
      | none => rw [hs, hs1] at hi; simp at hi
      | some s1 =>
        rw [hs, hs1] at hi
        simp only [Option.map_some', Option.some.injEq, state_tuple_t.checked,
          Prod.mk.injEq] at hi
        simp only [verify_event_tuples_checked hi.2, ih]

/-- Claim C32.  Two calls of `fsm_create` whose state tables agree on the ids
of the states, on which tuple arrays are `NULL` and on the event ids of the
tuples, so that they differ in handlers and next states at most, and whose
other arguments and allocations are the same: both fault or both return, with
the same code and, in the handle variable, instances with the same current
state, `number_states` and `number_events`.  In particular the sample
description tables with a state table whose state `0` has a tuple with next
state `7`, for `3` states, are accepted. -/
theorem fsm_create_ignores_transitions {H : Type} (fsm : Option (Option (fsm_t H)))
    (name : Option String) (initial_state : Nat) (sdo : Option (List state_description_t))
    (edo : Option (List event_description_t)) (st st1 : List (state_tuple_t H))
    (heap : malloc_t H)
    (h : st.map state_tuple_t.checked = st1.map state_tuple_t.checked) :
    (fsm_create fsm name initial_state sdo edo (some st) heap).map created_view =
        (fsm_create fsm name initial_state sdo edo (some st1) heap).map created_view ∧
      (fsm_create (some none) (some "sample") 0 (some sample_state_description)
          (some sample_event_description) (some sample_astray_state_table) sample_heap =
          some (RC_FSM_OK, some (some sample_astray_fsm)) ∧
        event_ptr_at sample_astray_state_table 0 1 = some ⟨1, none, 7⟩ ∧
        sample_astray_fsm.number_states ≤ 7) := by
  refine ⟨?_, by decide⟩
  rcases fsm with _ | handle
  · rfl
  rcases sdo with _ | sd
  · rfl
  rcases edo with _ | ed
  · rfl
  unfold fsm_create
  simp only [init_history_eq]
  rcases heap.fsm_block with _ | block
  · rfl
  simp only [scan_state_description_checked sd h, verify_state_table_checked h]
  rcases scan_state_description sd st1 FSM_MAX_STATES 0 0 with _ | (rc | n)
  · rfl
  · rfl
  simp only
  split
  · rfl
  split
  · rfl
  rcases scan_event_description ed FSM_MAX_EVENTS 0 0 with _ | (rc | m)
  · rfl
  · rfl
  simp only
  split
  · rfl
  rcases verify_state_table st1 m n 0 with _ | (_ | _)
  · rfl
  · rfl
  simp only
  rcases heap.history_block with _ | garbage
  · rfl
  rfl

theorem fsm_create_ignores_transitions_witness :
    sample_state_table.map state_tuple_t.checked =
      sample_astray_state_table.map state_tuple_t.checked ∧
    ((fsm_create (some none) (some "sample") 0 (some sample_state_description)
          (some sample_event_description) (some sample_state_table) sample_heap).map
        created_view =
      (fsm_create (some none) (some "sample") 0 (some sample_state_description)
          (some sample_event_description) (some sample_astray_state_table) sample_heap).map
        created_view ∧
      (fsm_create (some none) (some "sample") 0 (some sample_state_description)
          (some sample_event_description) (some sample_astray_state_table) sample_heap =
          some (RC_FSM_OK, some (some sample_astray_fsm)) ∧
        event_ptr_at sample_astray_state_table 0 1 = some ⟨1, none, 7⟩ ∧
        sample_astray_fsm.number_states ≤ 7)) :=
  ⟨by decide,
    fsm_create_ignores_transitions (some none) (some "sample") 0
      (some sample_state_description) (some sample_event_description) sample_state_table
      sample_astray_state_table sample_heap (by decide)⟩

/-! ## The order of the checks of the construction -/

/-- Claim C34.  The checks of `fsm_create` in the order in which they decide
the code returned, each whatever the later ones would find.  A `NULL` pointer
to the handle variable gives `RC_FSM_NULL`; then a `NULL` state description
table gives `RC_FSM_INVALID_STATE_TABLE`, a `NULL` event description table
`RC_FSM_INVALID_EVENT_TABLE`, a `NULL` state table
`RC_FSM_INVALID_STATE_TABLE`.  With the three tables and the instance block at
hand: when the state scan returns an error or a count outside `1 .. 63`, the
code is `RC_FSM_INVALID_STATE_TABLE` whatever the initial state and the event
description table are; else when the initial state is out of range, the code
is `RC_FSM_INVALID_STATE` whatever the event description table is; else when
the event scan returns an error or a count outside `1 .. 63`, the code is
`RC_FSM_INVALID_EVENT_TABLE` whatever the tuples are; else when the tuple
verification fails, the code is `RC_FSM_INVALID_EVENT_TABLE`.  Every one of
these returns leaves the handle variable as it was. -/
theorem fsm_create_precedence {H : Type} (handle : Option (fsm_t H)) (name : Option String)
    (sd : List state_description_t) (ed : List event_description_t)
    (st : List (state_tuple_t H)) (heap : malloc_t H) (block : fsm_t H)
    (hb : heap.fsm_block = some block) :
    (∀ init sdo edo (sto : Option (List (state_tuple_t H))),
      fsm_create none name init sdo edo sto heap = some (RC_FSM_NULL, none)) ∧
    (∀ init edo (sto : Option (List (state_tuple_t H))),
      fsm_create (some handle) name init none edo sto heap =
        some (RC_FSM_INVALID_STATE_TABLE, some handle)) ∧
    (∀ init (sto : Option (List (state_tuple_t H))),
      fsm_create (some handle) name init (some sd) none sto heap =
        some (RC_FSM_INVALID_EVENT_TABLE, some handle)) ∧
    (∀ init,
      fsm_create (some handle) name init (some sd) (some ed) none heap =
        some (RC_FSM_INVALID_STATE_TABLE, some handle)) ∧
    (∀ init (ed1 : List event_description_t),
      ((∃ rc, scan_state_description sd st FSM_MAX_STATES 0 0 = some (.error rc)) ∨
        ∃ n, scan_state_description sd st FSM_MAX_STATES 0 0 = some (.ok n) ∧
          (n < 1 ∨ n > FSM_MAX_STATES - 1)) →
      fsm_create (some handle) name init (some sd) (some ed1) (some st) heap =
        some (RC_FSM_INVALID_STATE_TABLE, some handle)) ∧
    (∀ init n (ed1 : List event_description_t),
      scan_state_description sd st FSM_MAX_STATES 0 0 = some (.ok n) →
      ¬ (n < 1 ∨ n > FSM_MAX_STATES - 1) → init > sub32 n 1 →
      fsm_create (some handle) name init (some sd) (some ed1) (some st) heap =
        some (RC_FSM_INVALID_STATE, some handle)) ∧
    (∀ init n,
      scan_state_description sd st FSM_MAX_STATES 0 0 = some (.ok n) →
      ¬ (n < 1 ∨ n > FSM_MAX_STATES - 1) → ¬ init > sub32 n 1 →
      ((∃ rc, scan_event_description ed FSM_MAX_EVENTS 0 0 = some (.error rc)) ∨
        ∃ m, scan_event_description ed FSM_MAX_EVENTS 0 0 = some (.ok m) ∧
          (m < 1 ∨ m > FSM_MAX_EVENTS - 1)) →
      fsm_create (some handle) name init (some sd) (some ed) (some st) heap =
        some (RC_FSM_INVALID_EVENT_TABLE, some handle)) ∧
    (∀ init n m,
      scan_state_description sd st FSM_MAX_STATES 0 0 = some (.ok n) →
      ¬ (n < 1 ∨ n > FSM_MAX_STATES - 1) → ¬ init > sub32 n 1 →
      scan_event_description ed FSM_MAX_EVENTS 0 0 = some (.ok m) →
      ¬ (m < 1 ∨ m > FSM_MAX_EVENTS - 1) →
      verify_state_table st m n 0 = some false →
      fsm_create (some handle) name init (some sd) (some ed) (some st) heap =
        some (RC_FSM_INVALID_EVENT_TABLE, some handle)) := by
  refine ⟨fun _ _ _ _ => rfl, fun _ _ _ => rfl, fun _ _ => rfl, fun _ => rfl, ?_, ?_, ?_, ?_⟩
  · intro init ed1 hbad
    rcases hbad with ⟨rc, hs⟩ | ⟨n, hs, hn⟩
    · have hrc := scan_state_description_error_code sd st _ _ _ _ hs
      subst hrc
      unfold fsm_create
      simp only [hb, hs, init_history_eq]
    · unfold fsm_create
      simp only [hb, hs, init_history_eq]
      rw [if_pos hn]
  · intro init n ed1 hs c1 c2
    unfold fsm_create
    simp only [hb, hs, init_history_eq]
    rw [if_neg c1, if_pos c2]
  · intro init n hs c1 c2 hbad
    rcases hbad with ⟨rc, he⟩ | ⟨m, he, hm⟩
    · have hrc := scan_event_description_error_code ed _ _ _ _ he
      subst hrc
      unfold fsm_create
      simp only [hb, hs, he, init_history_eq]
      rw [if_neg c1, if_neg c2]
    · unfold fsm_create
      simp only [hb, hs, he, init_history_eq]
      rw [if_neg c1, if_neg c2, if_pos hm]
  · intro init n m hs c1 c2 he c3 hver
    unfold fsm_create
    simp only [hb, hs, he, hver, init_history_eq]
    rw [if_neg c1, if_neg c2, if_neg c3]

theorem fsm_create_precedence_witness :
    sample_heap.fsm_block.isSome = true ∧
    fsm_create (some none) none 0 (some sample_bad_state_description)
        (some sample_bad_event_description) (some sample_state_table) sample_heap =
      some (RC_FSM_INVALID_STATE_TABLE, some none) ∧
    fsm_create (some none) none 5 (some sample_state_description)
        (some sample_bad_event_description) (some sample_state_table) sample_heap =
      some (RC_FSM_INVALID_STATE, some none) :=
  ⟨rfl,
    (fsm_create_precedence none none sample_bad_state_description sample_event_description
      sample_state_table sample_heap _ rfl).2.2.2.2.1 0 sample_bad_event_description
      (Or.inl ⟨RC_FSM_INVALID_STATE_TABLE, rfl⟩),
    (fsm_create_precedence none none sample_state_description sample_event_description
      sample_state_table sample_heap _ rfl).2.2.2.2.2.1 5 3 sample_bad_event_description rfl
      (by decide) (by decide)⟩

/-! ## The configuration of an instance -/

/-- Recording a history entry leaves the configuration as it was. -/
theorem fsm_record_history_config {H : Type} {f g : fsm_t H} {ev ns : Nat} {rc : RC_FSM_t}
    (h : fsm_record_history f ev ns rc = some g) : g.config = f.config := by
  unfold fsm_record_history at h
  simp only at h
  split at h
  · exact Option.noConfusion h
  · simp only [Option.some.injEq] at h
    subst h
    rfl

/-- A handler that goes through `fsm_set_exception_state` only leaves the
configuration as it was. -/
theorem via_set_exception_state_config {H : Type} {f g : fsm_t H}
    (h : via_set_exception_state f g) : g.config = f.config := by
  have e := via_set_exception_state_frame h
  have e1 := congrArg fsm_t.config e
  exact e1

/-- Every path of `fsm_engine` that is not the stop-processing path leaves the
configuration as it was. -/
theorem fsm_engine_path_config {H U : Type} {code : H → handler_sem H U} {f g : fsm_t H}
    {ev p2event_buffer p2parm : Nat} {mem mem1 : U} {rc : RC_FSM_t}
    (hp : fsm_engine_path code f ev p2event_buffer p2parm mem rc (some g) mem1)
    (hstop : rc ≠ RC_FSM_STOP_PROCESSING) : g.config = f.config := by
  generalize hinst : some g = inst at hp
  cases hp with
  | invalid_event g1 hev hg =>
    cases hinst
    exact fsm_record_history_config hg
  | quiet_event t g1 hev ht hq hg =>
    cases hinst
    exact fsm_record_history_config hg
  | stop_processing t h inst mem1 hev ht hh hrun => exact absurd rfl hstop
  | handler_error t h rc f1 mem1 g1 hev ht hh hrun hapi hok hstop1 hg =>
    cases hinst
    exact (fsm_record_history_config hg).trans (via_set_exception_state_config hapi)
  | invalid_state t h f1 mem1 ns g1 hev ht hh hrun hapi hns hbad hg =>
    cases hinst
    have e := fsm_record_history_config hg
    have e2 : fsm_t.config { f1 with exception_state_indicator := false, next_state := ns } =
        f1.config := rfl
    exact e.trans (e2.trans (via_set_exception_state_config hapi))
  | commit t h f1 mem1 ns g1 hev ht hh hrun hapi hns hres hg =>
    cases hinst
    have e := fsm_record_history_config hg
    have e1 : fsm_t.config { g1 with curr_state := g1.next_state } = g1.config := rfl
    have e2 : fsm_t.config { f1 with exception_state_indicator := false, next_state := ns } =
        f1.config := rfl
    exact e1.trans (e.trans (e2.trans (via_set_exception_state_config hapi)))

/-- Claim C35.  A call of `fsm_engine` on a valid instance, whose handler, if
one is called, either releases the instance and stops the processing or
leaves it touched through `fsm_set_exception_state` at most, returns, and
when there is an instance after the call, its tag, name, `number_states`,
`number_events` and three tables are the ones before the call.  A call of
`fsm_set_exception_state` on any instance leaves an instance with the same
tag, name, counts and tables.  On an instance with a wrong tag both return
`RC_FSM_INVALID_HANDLE` and leave the instance as it was.  The tables are held
by the instance as values, so their contents are covered. -/
theorem fsm_config_frame {H U : Type} (code : H → handler_sem H U) (f : fsm_t H)
    (ev p2event_buffer p2parm : Nat) (mem : U) (state : Nat) (hv : fsm_valid f)
    (hcode : ∀ t h, event_ptr_at f.state_table f.curr_state ev = some t →
      t.event_handler = some h →
      ((code h p2event_buffer p2parm (f, mem)).1 = RC_FSM_STOP_PROCESSING ∧
          (code h p2event_buffer p2parm (f, mem)).2.1 = none) ∨
        ∃ f1, (code h p2event_buffer p2parm (f, mem)).2.1 = some f1 ∧
          via_set_exception_state f f1) :
    (∃ rc inst mem1,
      fsm_engine code (some f) ev p2event_buffer p2parm mem = some (rc, inst, mem1) ∧
      ∀ g, inst = some g → g.config = f.config) ∧
    (∃ rc g, fsm_set_exception_state (some f) state = (rc, some g) ∧ g.config = f.config) ∧
    (∀ f0 : fsm_t H, f0.tag ≠ FSM_TAG →
      fsm_engine code (some f0) ev p2event_buffer p2parm mem =
          some (RC_FSM_INVALID_HANDLE, some f0, mem) ∧
        fsm_set_exception_state (some f0) state = (RC_FSM_INVALID_HANDLE, some f0)) := by
  refine ⟨?_, ?_, ?_⟩
  · obtain ⟨rc, inst, mem1, heng, hp⟩ :=
      fsm_engine_paths code f ev p2event_buffer p2parm mem hv
        (fun t h ht hh => (hcode t h ht hh).imp (fun c => c.1) id)
    refine ⟨rc, inst, mem1, heng, ?_⟩
    intro g hg
    subst hg
    by_cases hstop : rc = RC_FSM_STOP_PROCESSING
    · subst hstop
      cases hp with
      | stop_processing t h inst mem1 hev ht hh hrun =>
        rcases hcode t h ht hh with ⟨-, hnone⟩ | ⟨f1, hf1, hapi⟩
        · rw [hrun] at hnone
          exact Option.noConfusion hnone
        · rw [hrun] at hf1
          simp only [Option.some.injEq] at hf1
          subst hf1
          exact via_set_exception_state_config hapi
      | handler_error t h rc f1 mem1 g hev ht hh hrun hapi hok hstop1 hg =>
        exact absurd rfl hstop1
    · exact fsm_engine_path_config hp hstop
  · obtain ⟨g, hg, hapi⟩ := fsm_set_exception_state_via f state
    rcases hset : fsm_set_exception_state (some f) state with ⟨rc, o⟩
    rw [hset] at hg
    simp only at hg
    subst hg
    exact ⟨rc, g, rfl, via_set_exception_state_config hapi⟩
  · intro f0 h0
    constructor
    · unfold fsm_engine
      simp [h0]
    · unfold fsm_set_exception_state
      simp [h0]

theorem fsm_config_frame_witness :
    fsm_valid sample_fsm ∧
    (∃ rc inst mem1,
      fsm_engine sample_code (some sample_fsm) 2 0 0 (0 : Nat) = some (rc, inst, mem1) ∧
      ∀ g, inst = some g → g.config = sample_fsm.config) ∧
    (∃ rc g, fsm_set_exception_state (some sample_fsm) 1 = (rc, some g) ∧
      g.config = sample_fsm.config) ∧
    (∀ f0 : fsm_t Nat, f0.tag ≠ FSM_TAG →
      fsm_engine sample_code (some f0) 2 0 0 (0 : Nat) =
          some (RC_FSM_INVALID_HANDLE, some f0, 0) ∧
        fsm_set_exception_state (some f0) 1 = (RC_FSM_INVALID_HANDLE, some f0)) :=
  ⟨by decide,
    fsm_config_frame sample_code sample_fsm 2 0 0 (0 : Nat) 1 (by decide)
      (fun t h ht hh => by
        have e : some (⟨2, some 2, 1⟩ : event_tuple_t Nat) = some t := ht
        cases e
        cases hh
        exact Or.inr (fsm_set_exception_state_via sample_fsm 2))⟩

/-! ## History records and the description tables -/

/-- Writing one record whose previous state is the current state of a
valid instance keeps the previous states of the history in range. -/
theorem history_prev_written {H : Type} {f g : fsm_t H} {new ev : Nat} {rc : RC_FSM_t}
    (hv : fsm_valid f) (hh : history_prev_in_range f)
    (hw : one_record_written f g f.curr_state new ev rc)
    (hn : g.number_states = f.number_states) : history_prev_in_range g := by
  intro i r hr
  rw [hn]
  by_cases hi : i = g.history_index
  · subst hi
    have h1 := hw.2.2.1
    rw [hr] at h1
    simp only [Option.map_some', Option.some.injEq, fsm_history_t.written,
      Prod.mk.injEq] at h1
    right
    rw [h1.1]
    exact hv.2.2.2.2.2.1
  · rw [hw.2.2.2.2 i hi] at hr
    exact hh i r hr

/-- A handler that goes through `fsm_set_exception_state` only keeps the
previous states of the history in range. -/
theorem history_prev_via {H : Type} {f g : fsm_t H} (hh : history_prev_in_range f)
    (hapi : via_set_exception_state f g) : history_prev_in_range g := by
  obtain ⟨-, -, -, e4, -, -, -, e8⟩ := via_set_exception_state_fields hapi
  intro i r hr
  rw [e4]
  rw [e8] at hr
  exact hh i r hr

/-- A call of `fsm_engine` on a valid instance, with handlers that go through
`fsm_set_exception_state` only, keeps the previous states of the history in
range. -/
theorem fsm_engine_history_prev {H U : Type} (code : H → handler_sem H U) (f g : fsm_t H)
    (ev p2event_buffer p2parm : Nat) (mem mem1 : U) (rc : RC_FSM_t) (hv : fsm_valid f)
    (hh : history_prev_in_range f) (hcode : handlers_via_api code)
    (heng : fsm_engine code (some f) ev p2event_buffer p2parm mem = some (rc, some g, mem1)) :
    history_prev_in_range g := by
  obtain ⟨rc1, inst, mem2, heng1, hp⟩ :=
    fsm_engine_paths code f ev p2event_buffer p2parm mem hv
      (fun _ h _ _ => Or.inr (hcode h p2event_buffer p2parm f mem))
  rw [heng] at heng1
  simp only [Option.some.injEq, Prod.mk.injEq] at heng1
  obtain ⟨rfl, rfl, rfl⟩ := heng1
  by_cases hstop : rc = RC_FSM_STOP_PROCESSING
  · subst hstop
    generalize hinst : some g = inst at hp
    cases hp with
    | stop_processing t h inst mem1 hev ht hh1 hrun =>
      obtain ⟨f1, hf1, hapi⟩ := hcode h p2event_buffer p2parm f mem
      rw [hrun] at hf1
      simp only at hf1
      subst hf1
      cases hinst
      exact history_prev_via hh hapi
    | handler_error t h rc f1 mem1 g hev ht hh1 hrun hapi hok hstop1 hg =>
      exact absurd rfl hstop1
  · obtain ⟨-, ⟨new, r, hw⟩, -, e2, -⟩ := fsm_engine_path_frame hv hp hstop
    exact history_prev_written hv hh hw e2

/-- A sequence of calls of `fsm_engine` and `fsm_set_exception_state` on a
valid instance, with handlers that go through `fsm_set_exception_state` only,
keeps the previous states of the history in range. -/
theorem fsm_api_calls_history_prev {H U : Type} (code : H → handler_sem H U)
    (hcode : handlers_via_api code) :
    ∀ (calls : List api_call) (f : fsm_t H) (mem : U), fsm_valid f → override_in_range f →
      history_prev_in_range f →
      ∃ fk mk, fsm_api_calls code calls f mem = some (fk, mk) ∧ history_prev_in_range fk := by
  intro calls
  induction calls with
  | nil =>
    intro f mem _ _ hh
    exact ⟨f, mem, rfl, hh⟩
  | cons c rest ih =>
    intro f mem hv hinv hh
    cases c with
    | engine ev p q =>
      obtain ⟨rc, g, mem1, heng, hvg, hig, -⟩ :=
        fsm_engine_via_step code f ev p q mem hv hinv hcode
      have hhg := fsm_engine_history_prev code f g ev p q mem mem1 rc hv hh hcode heng
      obtain ⟨fk, mk, hrun, hk⟩ := ih g mem1 hvg hig hhg
      refine ⟨fk, mk, ?_, hk⟩
      rw [fsm_api_calls, heng]
      exact hrun
    | set_exception_state s =>
      obtain ⟨g, hg, hapi⟩ := fsm_set_exception_state_via f s
      obtain ⟨fk, mk, hrun, hk⟩ :=
        ih g mem (via_set_exception_state_valid hv hapi)
          (via_set_exception_state_override hv hinv hapi) (history_prev_via hh hapi)
      refine ⟨fk, mk, ?_, hk⟩
      rw [fsm_api_calls]
      rcases hset : fsm_set_exception_state (some f) s with ⟨rc, o⟩
      rw [hset] at hg
      simp only at hg
      subst hg
      exact hrun

/-- The history of an instance that `fsm_create` has returned with
`RC_FSM_OK` holds sentinel records only. -/
theorem fsm_create_history_prev {H : Type} (fsm : Option (Option (fsm_t H)))
    (name : Option String) (initial_state : Nat) (sdo : Option (List state_description_t))
    (edo : Option (List event_description_t)) (sto : Option (List (state_tuple_t H)))
    (heap : malloc_t H) (f : fsm_t H)
    (h : fsm_create fsm name initial_state sdo edo sto heap =
      some (RC_FSM_OK, some (some f))) :
    override_in_range f ∧ history_prev_in_range f := by
  obtain ⟨hv, -⟩ := fsm_create_valid fsm name initial_state sdo edo sto heap f h
  have hs := fsm_create_sentinel_slots fsm name initial_state sdo edo sto heap f h
  rcases fsm_create_cases fsm name initial_state sdo edo sto heap _ _ h with
    ⟨e, -⟩ | ⟨-, f1, garbage, e, -, -, -, -, hflag, -⟩
  · exact absurd rfl e
  · simp only [Option.some.injEq] at e
    subst e
    refine ⟨?_, ?_⟩
    · intro hf
      rw [hflag] at hf
      exact absurd hf (by simp)
    · intro i r hr
      have hi : i < FSM_HISTORY := by
        have h1 := (List.getElem?_eq_some.mp hr).1
        rw [hv.2.2.2.2.2.2.2.2.1] at h1
        exact h1
      have h2 := hs i hi
      rw [hr] at h2
      simp only [Option.map_some', Option.some.injEq] at h2
      exact Or.inl h2

/-- Claim C33.  Take an instance that `fsm_create` has returned with
`RC_FSM_OK`, handlers that touch the instance through
`fsm_set_exception_state` only, and any finite sequence of calls of
`fsm_engine` and `fsm_set_exception_state`: every history slot of the instance
after the sequence holds the sentinel record or a record whose previous state
is below `number_states`.  The other fields are not all in range.  On the
sample instance a call with event id `9`, for `7` events, writes a record that
is not the sentinel and whose event field is `9`, outside the event
description table; on the instance built from the state table whose quiet
tuple of event `1` has next state `7`, for `3` states, a call with event id `1`
writes a record whose new-state field is `7`, outside the state description
table.  On both instances the lookup of that description makes
`fsm_show_history` fault. -/
theorem fsm_history_fields_range {H U : Type} (code : H → handler_sem H U)
    (fsm : Option (Option (fsm_t H))) (name : Option String) (initial_state : Nat)
    (sdo : Option (List state_description_t)) (edo : Option (List event_description_t))
    (sto : Option (List (state_tuple_t H))) (heap : malloc_t H) (f0 : fsm_t H) (mem0 : U)
    (calls : List api_call)
    (hcreate : fsm_create fsm name initial_state sdo edo sto heap =
      some (RC_FSM_OK, some (some f0)))
    (hcode : handlers_via_api code) :
    (∃ fk mk, fsm_api_calls code calls f0 mem0 = some (fk, mk) ∧
      ∀ (i : Nat) (r : fsm_history_t), fk.history[i]? = some r →
        r.written = sentinel_record ∨ r.prevStateID < fk.number_states) ∧
    (fsm_create (some none) (some "sample") 0 (some sample_state_description)
        (some sample_event_description) (some sample_state_table) sample_heap =
        some (RC_FSM_OK, some (some sample_fsm)) ∧
      ∃ fk mk r,
        fsm_api_calls sample_api_code [api_call.engine 9 0 0] sample_fsm (0 : Nat) =
          some (fk, mk) ∧
        fk.history[1]? = some r ∧ r.written ≠ sentinel_record ∧
        fk.number_events ≤ r.eventID ∧ fk.event_description_table[r.eventID]? = none ∧
        fsm_show_history (some fk) = none) ∧
    (fsm_create (some none) (some "sample") 0 (some sample_state_description)
        (some sample_event_description) (some sample_astray_state_table) sample_heap =
        some (RC_FSM_OK, some (some sample_astray_fsm)) ∧
      ∃ fk mk r,
        fsm_api_calls sample_api_code [api_call.engine 1 0 0] sample_astray_fsm (0 : Nat) =
          some (fk, mk) ∧
        fk.history[1]? = some r ∧ r.written ≠ sentinel_record ∧
        fk.number_states ≤ r.stateID ∧ fk.state_description_table[r.stateID]? = none ∧
        fsm_show_history (some fk) = none) := by
  obtain ⟨hv, -⟩ := fsm_create_valid fsm name initial_state sdo edo sto heap f0 hcreate
  obtain ⟨hinv, hh⟩ :=
    fsm_create_history_prev fsm name initial_state sdo edo sto heap f0 hcreate
  obtain ⟨fk, mk, hrun, hk⟩ := fsm_api_calls_history_prev code hcode calls f0 mem0 hv hinv hh
  refine ⟨⟨fk, mk, hrun, hk⟩, ⟨by decide, ?_⟩, ⟨by decide, ?_⟩⟩
  · exact ⟨_, _, _, rfl, rfl, by decide, by decide, by decide, by decide⟩
  · exact ⟨_, _, _, rfl, rfl, by decide, by decide, by decide, by decide⟩

theorem fsm_history_fields_range_witness :
    (fsm_create (some none) (some "sample") 0 (some sample_state_description)
        (some sample_event_description) (some sample_state_table) sample_heap =
        some (RC_FSM_OK, some (some sample_fsm)) ∧
      handlers_via_api sample_api_code) ∧
    ∃ fk mk, fsm_api_calls sample_api_code sample_api_calls sample_fsm (0 : Nat) =
        some (fk, mk) ∧
      ∀ (i : Nat) (r : fsm_history_t), fk.history[i]? = some r →
        r.written = sentinel_record ∨ r.prevStateID < fk.number_states :=
  ⟨⟨by decide, sample_api_code_via⟩,
    (fsm_history_fields_range sample_api_code (some none) (some "sample") 0
      (some sample_state_description) (some sample_event_description)
      (some sample_state_table) sample_heap sample_fsm 0 sample_api_calls (by decide)
      sample_api_code_via).1⟩

/-! ## Every event of the demo, and the range checks -/

/-- The tuple of `term_rcvd_e` names `idle_s` as next state in every state of the demo. -/
theorem demo_term_rcvd (s : Nat) (hs : s < 4) :
    (event_ptr_at demo_state_table s term_rcvd_e).map (fun t => t.next_state) =
      some idle_s := by
  interval_cases s <;> rfl

/-- The demo instance is one that the demo can reach. -/
theorem demo_fsm_instance : demo_instance demo_fsm :=
  ⟨by decide, rfl, rfl, rfl, rfl⟩

/-- Claim C36.  On every instance that the demo can reach (a valid instance
over the demo tables, in any of the four states) and for every one of the
seven events, `fsm_engine` returns `RC_FSM_OK` and the current state after the
call is one of the four states; for `term_rcvd_e` it is `idle_s`.  The handler
`event_init_ack_tmo` returns `RC_FSM_OK`, leaves the instance as it was and
increments `timeout_count` as a `uint32_t`, for every count and every
threshold; the increment is by one unless the count is `0xFFFFFFFF`. -/
theorem demo_every_event (f : fsm_t demo_handler_t) (ev p2event_buffer p2parm : Nat)
    (mem : demo_memory_t) (hd : demo_instance f) (hev : ev < 7) :
    (∃ g mem1,
      fsm_engine demo_code (some f) ev p2event_buffer p2parm mem =
        some (RC_FSM_OK, some g, mem1) ∧
      g.curr_state < 4 ∧ (ev = term_rcvd_e → g.curr_state = idle_s)) ∧
    (∀ (f1 : fsm_t demo_handler_t) (m : demo_memory_t),
      event_init_ack_tmo p2event_buffer p2parm (f1, m) =
        (RC_FSM_OK, some f1,
          { m with
            context := { m.context with timeout_count := add32 m.context.timeout_count 1 } })) ∧
    (∀ count, count + 1 < UINT32_MOD → add32 count 1 = count + 1) := by
  refine ⟨?_, ?_, ?_⟩
  · have hcur : f.curr_state < 4 := by
      rw [← hd.2.2.1]
      exact hd.1.2.2.2.2.2.1
    obtain ⟨g, mem1, hg, hnext, hlt, -⟩ := demo_step f ev p2event_buffer p2parm mem hd hev
    refine ⟨g, mem1, hg, hlt, ?_⟩
    intro he
    subst he
    rw [demo_term_rcvd f.curr_state hcur] at hnext
    exact (Option.some.inj hnext).symm
  · intro f1 m
    simp [event_init_ack_tmo]
  · intro count hc
    unfold add32
    exact Nat.mod_eq_of_lt hc

theorem demo_every_event_witness :
    demo_instance demo_fsm ∧ term_rcvd_e < 7 ∧
    (∃ g mem1,
      fsm_engine demo_code (some demo_fsm) term_rcvd_e 1 2 demo_memory =
        some (RC_FSM_OK, some g, mem1) ∧
      g.curr_state < 4 ∧ (term_rcvd_e = term_rcvd_e → g.curr_state = idle_s)) :=
  ⟨demo_fsm_instance, by decide,
    (demo_every_event demo_fsm term_rcvd_e 1 2 demo_memory demo_fsm_instance (by decide)).1⟩

/-- Claim C37.  For a 32-bit `n`, the check `x > n - 1` in 32-bit unsigned
arithmetic agrees with `x ≥ n` on every 32-bit `x` exactly when `n ≥ 1`.  For
`n = 0` the subtraction wraps to `0xFFFFFFFF` and no 32-bit `x` is rejected.
On a valid instance, which is what `fsm_create` returns and what the calls of
the API keep, the event check and the next-state check of `fsm_engine` and the
state check of `fsm_set_exception_state` are `x ≥ number_events` and
`x ≥ number_states`; in `fsm_create` the initial-state check comes after the
count has been found in `1 .. 63` and is `initial_state ≥ number_states`. -/
theorem range_check_wraps {H : Type} (f : fsm_t H) (n : Nat) (hv : fsm_valid f)
    (hn : n < UINT32_MOD) :
    ((∀ x, x < UINT32_MOD → (x > sub32 n 1 ↔ x ≥ n)) ↔ 1 ≤ n) ∧
    sub32 0 1 = 4294967295 ∧
    (∀ x, x < UINT32_MOD → ¬ x > sub32 0 1) ∧
    (∀ x, (x > sub32 f.number_events 1 ↔ x ≥ f.number_events) ∧
      (x > sub32 f.number_states 1 ↔ x ≥ f.number_states)) ∧
    (∀ m x, ¬ (m < 1 ∨ m > FSM_MAX_STATES - 1) → (x > sub32 m 1 ↔ x ≥ m)) := by
  refine ⟨⟨?_, ?_⟩, rfl, ?_, ?_, ?_⟩
  · intro h
    by_contra h0
    have hz : n = 0 := by omega
    subst hz
    have := (h 0 (by decide)).mpr (Nat.le_refl 0)
    revert this
    decide
  · intro h1 x _
    rw [sub32_one h1 hn]
    omega
  · intro x hx
    have e : sub32 0 1 = 4294967295 := rfl
    rw [e]
    unfold UINT32_MOD at hx
    omega
  · intro x
    exact ⟨event_check_iff hv x, state_check_iff hv x⟩
  · intro m x hm
    have h1 : 1 ≤ m := by omega
    have h2 : m < UINT32_MOD := by
      unfold FSM_MAX_STATES at hm
      unfold UINT32_MOD
      omega
    rw [sub32_one h1 h2]
    omega

theorem range_check_wraps_witness :
    fsm_valid sample_fsm ∧ 0 < UINT32_MOD ∧
    (((∀ x, x < UINT32_MOD → (x > sub32 0 1 ↔ x ≥ 0)) ↔ 1 ≤ 0) ∧
    sub32 0 1 = 4294967295 ∧
    (∀ x, x < UINT32_MOD → ¬ x > sub32 0 1) ∧
    (∀ x, (x > sub32 sample_fsm.number_events 1 ↔ x ≥ sample_fsm.number_events) ∧
      (x > sub32 sample_fsm.number_states 1 ↔ x ≥ sample_fsm.number_states)) ∧
    (∀ m x, ¬ (m < 1 ∨ m > FSM_MAX_STATES - 1) → (x > sub32 m 1 ↔ x ≥ m))) :=
  ⟨by decide, by decide, range_check_wraps sample_fsm 0 (by decide) (by decide)⟩

/-! ## What the engine records -/

/-- Claim C26.  A call of `fsm_engine` on a valid instance, whose handler, if
one is called, either stops the processing or leaves the instance touched
through `fsm_set_exception_state` at most.  The call returns.  It returns
`RC_FSM_STOP_PROCESSING` only when the tuple of the event has a handler and
that handler has returned it, and then the result is the one of the handler,
with nothing recorded.  On every other path it leaves an instance with one
more history record, whose previous-state field is the current state before
the call and whose event field is the event id of the call; when the tuple has
a handler and the code returned is `RC_FSM_OK`, the new-state field is the
current state after the call and the result field is `RC_FSM_OK`.  The success
path is taken whenever the handler returns `RC_FSM_OK` and the resolved next
state is below `number_states`: then `fsm_engine` returns `RC_FSM_OK`, the
current state after the call is the resolved next state, and the record
written is (current state before the call, current state after the call,
event id, `RC_FSM_OK`). -/
theorem fsm_engine_record {H U : Type} (code : H → handler_sem H U) (f : fsm_t H)
    (ev p2event_buffer p2parm : Nat) (mem : U) (hv : fsm_valid f)
    (hcode : ∀ t h, event_ptr_at f.state_table f.curr_state ev = some t →
      t.event_handler = some h →
      (code h p2event_buffer p2parm (f, mem)).1 = RC_FSM_STOP_PROCESSING ∨
        ∃ f1, (code h p2event_buffer p2parm (f, mem)).2.1 = some f1 ∧
          via_set_exception_state f f1) :
    (∃ rc inst mem1,
      fsm_engine code (some f) ev p2event_buffer p2parm mem = some (rc, inst, mem1) ∧
      if rc = RC_FSM_STOP_PROCESSING then
        ∃ t h, ev < f.number_events ∧
          event_ptr_at f.state_table f.curr_state ev = some t ∧
          t.event_handler = some h ∧
          code h p2event_buffer p2parm (f, mem) = (rc, inst, mem1)
      else
        ∃ g new r, inst = some g ∧ one_record_written f g f.curr_state new ev r ∧
          (∀ t, ev < f.number_events →
            event_ptr_at f.state_table f.curr_state ev = some t →
            t.event_handler ≠ none → rc = RC_FSM_OK →
            new = g.curr_state ∧ r = RC_FSM_OK)) ∧
    (∀ t h f1 mem1, ev < f.number_events →
      event_ptr_at f.state_table f.curr_state ev = some t →
      t.event_handler = some h →
      code h p2event_buffer p2parm (f, mem) = (RC_FSM_OK, some f1, mem1) →
      via_set_exception_state f f1 →
      (if f1.exception_state_indicator then f1.exception_state else t.next_state) <
        f.number_states →
      ∃ g, fsm_engine code (some f) ev p2event_buffer p2parm mem =
          some (RC_FSM_OK, some g, mem1) ∧
        g.curr_state =
          (if f1.exception_state_indicator then f1.exception_state else t.next_state) ∧
        one_record_written f g f.curr_state g.curr_state ev RC_FSM_OK) := by
  constructor
  · obtain ⟨rc, inst, mem1, heng, hp⟩ :=
      fsm_engine_paths code f ev p2event_buffer p2parm mem hv hcode
    refine ⟨rc, inst, mem1, heng, ?_⟩
    cases hp with
    | invalid_event g hev hg =>
      obtain ⟨-, hw⟩ := fsm_record_history_valid hv hg
      rw [if_neg (by decide)]
      exact ⟨g, _, _, rfl, hw, fun _ _ _ _ hrc => absurd hrc (by decide)⟩
    | quiet_event t g hev ht hq hg =>
      obtain ⟨-, hw⟩ := fsm_record_history_valid hv hg
      rw [if_neg (by decide)]
      refine ⟨g, _, _, rfl, hw, ?_⟩
      intro t0 _ ht0 hne _
      rw [ht] at ht0
      cases ht0
      exact absurd hq hne
    | stop_processing t h inst mem1 hev ht hh hrun =>
      rw [if_pos rfl]
      exact ⟨t, h, hev, ht, hh, hrun⟩
    | handler_error t h rc f1 mem1 g hev ht hh hrun hapi hok hstop hg =>
      have hv1 := via_set_exception_state_valid hv hapi
      obtain ⟨-, e2, -, -, -, -, e7, e8⟩ := via_set_exception_state_fields hapi
      obtain ⟨-, hw⟩ := fsm_record_history_valid hv1 hg
      rw [e2] at hw
      rw [if_neg hstop]
      exact ⟨g, _, _, rfl, one_record_written_congr f1 f g g e7.symm e8.symm rfl rfl hw,
        fun _ _ _ _ hrc => absurd hrc hok⟩
    | invalid_state t h f1 mem1 ns g hev ht hh hrun hapi hns hbad hg =>
      have hv1 := via_set_exception_state_valid hv hapi
      obtain ⟨-, e2, -, -, -, -, e7, e8⟩ := via_set_exception_state_fields hapi
      have hv2 : fsm_valid { f1 with exception_state_indicator := false, next_state := ns } :=
        hv1
      obtain ⟨-, hw⟩ := fsm_record_history_valid hv2 hg
      have hw1 : one_record_written
          { f1 with exception_state_indicator := false, next_state := ns } g f.curr_state ns ev
          RC_FSM_INVALID_STATE := by
        rw [← e2]
        exact hw
      rw [if_neg (by decide)]
      exact ⟨g, _, _, rfl, one_record_written_congr _ f g g e7.symm e8.symm rfl rfl hw1,
        fun _ _ _ _ hrc => absurd hrc (by decide)⟩
    | commit t h f1 mem1 ns g hev ht hh hrun hapi hns hres hg =>
      have hv1 := via_set_exception_state_valid hv hapi
      obtain ⟨-, e2, -, -, -, -, e7, e8⟩ := via_set_exception_state_fields hapi
      have hv2 : fsm_valid { f1 with exception_state_indicator := false, next_state := ns } :=
        hv1
      obtain ⟨-, hw⟩ := fsm_record_history_valid hv2 hg
      obtain ⟨-, -, r3, -⟩ := fsm_record_history_fields hg
      have hw1 : one_record_written
          { f1 with exception_state_indicator := false, next_state := ns } g f.curr_state ns ev
          RC_FSM_OK := by
        rw [← e2]
        exact hw
      rw [if_neg (by decide)]
      refine ⟨{ g with curr_state := g.next_state }, ns, RC_FSM_OK, rfl,
        one_record_written_congr _ f g { g with curr_state := g.next_state } e7.symm e8.symm
          rfl rfl hw1, fun _ _ _ _ _ => ⟨?_, rfl⟩⟩
      show ns = g.next_state
      rw [r3]
  · intro t h f1 mem1 hev ht hh hrun hapi hres
    obtain ⟨g, hg, hc, -, -, hw, -⟩ :=
      fsm_engine_commit_resolved code f f1 ev p2event_buffer p2parm mem mem1 t h hv hev ht hh
        hrun hapi _ rfl hres
    refine ⟨g, hg, hc, ?_⟩
    rw [hc]
    exact hw

theorem fsm_engine_record_witness :
    fsm_valid sample_fsm ∧
    (∃ rc inst mem1,
      fsm_engine sample_code (some sample_fsm) 0 0 0 (0 : Nat) = some (rc, inst, mem1) ∧
      if rc = RC_FSM_STOP_PROCESSING then
        ∃ t h, 0 < sample_fsm.number_events ∧
          event_ptr_at sample_fsm.state_table sample_fsm.curr_state 0 = some t ∧
          t.event_handler = some h ∧
          sample_code h 0 0 (sample_fsm, 0) = (rc, inst, mem1)
      else
        ∃ g new r, inst = some g ∧
          one_record_written sample_fsm g sample_fsm.curr_state new 0 r ∧
          (∀ t, 0 < sample_fsm.number_events →
            event_ptr_at sample_fsm.state_table sample_fsm.curr_state 0 = some t →
            t.event_handler ≠ none → rc = RC_FSM_OK →
            new = g.curr_state ∧ r = RC_FSM_OK)) ∧
    ∃ g, fsm_engine sample_code (some sample_fsm) 0 0 0 (0 : Nat) =
        some (RC_FSM_OK, some g, 1) ∧
      g.curr_state = (if sample_fsm.exception_state_indicator then sample_fsm.exception_state
        else 1) ∧
      one_record_written sample_fsm g sample_fsm.curr_state g.curr_state 0 RC_FSM_OK :=
  ⟨by decide,
    (fsm_engine_record sample_code sample_fsm 0 0 0 (0 : Nat) (by decide)
      sample_code_behaved).1,
    (fsm_engine_record sample_code sample_fsm 0 0 0 (0 : Nat) (by decide)
      sample_code_behaved).2 ⟨0, some 0, 1⟩ 0 sample_fsm 1 (by decide) rfl rfl rfl (Or.inl rfl)
      (by decide)⟩

/-! ## The operations that only read -/

/-- The loop of `fsm_show_history` hands on the instance it was given, and
appends to the console the lines that `show_history_loop` lists; it faults
exactly when `show_history_loop` does. -/
theorem show_history_loop_world_eq {H : Type} (f : fsm_t H) :
    ∀ fuel i j (console : List history_line),
      show_history_loop_world fuel i j (f, console) =
        (show_history_loop f fuel i j).map (fun lines => (f, console ++ lines)) := by
  intro fuel
  induction fuel with
  | zero =>
    intro i j console
    simp [show_history_loop_world, show_history_loop]
  | succ fuel ih =>
    intro i j console
    unfold show_history_loop_world show_history_loop
    simp only
    cases f.history[i]? with
    | none => rfl
    | some history_ptr =>
      simp only
      split
      · exact ih (i + 1) j console
      · cases f.state_description_table[history_ptr.prevStateID]? with
        | none => rfl
        | some prev =>
          cases f.event_description_table[history_ptr.eventID]? with
          | none => rfl
          | some event =>
            cases f.state_description_table[history_ptr.stateID]? with
            | none => rfl
            | some state =>
              simp only
              rw [ih]
              cases show_history_loop f fuel (i + 1)
                  (sub32 (if j = 0 then FSM_HISTORY else j) 1) with
              | none => rfl
              | some rest => simp

/-- The inner loop of `fsm_display_table` hands on the instance it was given,
and appends the lines that `display_events` lists. -/
theorem display_events_world_eq {H : Type} (f : fsm_t H)
    (event_ptr : Option (List (event_tuple_t H))) :
    ∀ fuel j (acc : List display_event_t),
      display_events_world event_ptr fuel j (f, acc) =
        (display_events f event_ptr fuel j).map (fun l => (f, acc ++ l)) := by
  intro fuel
  induction fuel with
  | zero =>
    intro j acc
    simp [display_events_world, display_events]
  | succ fuel ih =>
    intro j acc
    unfold display_events_world display_events
    cases event_ptr with
    | none => rfl
    | some tuples =>
      simp only
      cases tuples[j]? with
      | none => rfl
      | some t =>
        simp only
        cases f.event_description_table[j]? with
        | none => rfl
        | some event =>
          cases f.state_description_table[t.next_state]? with
          | none => rfl
          | some next =>
            simp only
            rw [ih]
            cases display_events f (some tuples) fuel (j + 1) with
            | none => rfl
            | some rest => simp

/-- The outer loop of `fsm_display_table` hands on the instance it was given,
and appends the blocks that `display_states` lists. -/
theorem display_states_world_eq {H : Type} (f : fsm_t H) :
    ∀ fuel i (acc : List display_state_t),
      display_states_world fuel i (f, acc) =
        (display_states f fuel i).map (fun l => (f, acc ++ l)) := by
  intro fuel
  induction fuel with
  | zero =>
    intro i acc
    simp [display_states_world, display_states]
  | succ fuel ih =>
    intro i acc
    unfold display_states_world display_states
    simp only
    cases f.state_table[i]? with
    | none => rfl
    | some state_ptr =>
      simp only
      cases f.state_description_table[state_ptr.state_id]? with
      | none => rfl
      | some state =>
        simp only
        rw [display_events_world_eq]
        cases display_events f state_ptr.p2event_tuple f.number_events 0 with
        | none => rfl
        | some events =>
          simp only [Option.map_some', List.nil_append]
          rw [ih]
          cases display_states f fuel (i + 1) with
          | none => rfl
          | some rest => simp

/-- Claim C27.  The three operations that only read, as transformers of what
they can reach.  On a valid instance `fsm_get_state` returns `RC_FSM_OK`,
stores exactly the current state in the variable behind `p2state` and leaves
the instance as it was.  For every handle (`NULL`, an instance with a wrong
tag, any instance) and every console: `fsm_get_state`, `fsm_show_history` and
`fsm_display_table` fault exactly when their value embeddings do, and when
they return, the instance behind the handle after the call is the instance
before the call, every field of it, the history buffer and the write index
included, while the console has grown by what the value embedding lists. -/
theorem fsm_read_only {H : Type} (f : fsm_t H) (v : Nat) (hv : fsm_valid f) :
    fsm_get_state_world (some f) (some v) = some (RC_FSM_OK, some f, some f.curr_state) ∧
    (∀ (fsm : Option (fsm_t H)) (p2state : Option Nat),
      fsm_get_state_world fsm p2state =
        (fsm_get_state fsm p2state).map (fun r => (r.1, fsm, r.2))) ∧
    (∀ (fsm : Option (fsm_t H)) (console : List history_line),
      fsm_show_history_world fsm console =
        (fsm_show_history fsm).map (fun lines => (fsm, console ++ lines))) ∧
    (∀ (fsm : Option (fsm_t H)) (console : List display_table_t),
      fsm_display_table_world fsm console =
        (fsm_display_table fsm).map (fun d => (fsm, console ++ d.toList))) ∧
    (∀ (fsm fsm1 : Option (fsm_t H)) (p2state p1 : Option Nat) (rc : RC_FSM_t),
      fsm_get_state_world fsm p2state = some (rc, fsm1, p1) → fsm1 = fsm) ∧
    (∀ (fsm fsm1 : Option (fsm_t H)) (console c1 : List history_line),
      fsm_show_history_world fsm console = some (fsm1, c1) → fsm1 = fsm) ∧
    (∀ (fsm fsm1 : Option (fsm_t H)) (console c1 : List display_table_t),
      fsm_display_table_world fsm console = some (fsm1, c1) → fsm1 = fsm) := by
  have hget : ∀ (fsm : Option (fsm_t H)) (p2state : Option Nat),
      fsm_get_state_world fsm p2state =
        (fsm_get_state fsm p2state).map (fun r => (r.1, fsm, r.2)) := by
    intro fsm p2state
    unfold fsm_get_state_world fsm_get_state
    cases fsm with
    | none => rfl
    | some f0 =>
      simp only
      split
      · rfl
      · cases p2state with
        | none => rfl
        | some _ => rfl
  have hshow : ∀ (fsm : Option (fsm_t H)) (console : List history_line),
      fsm_show_history_world fsm console =
        (fsm_show_history fsm).map (fun lines => (fsm, console ++ lines)) := by
    intro fsm console
    unfold fsm_show_history_world fsm_show_history
    cases fsm with
    | none => simp
    | some f0 =>
      simp only
      split
      · simp
      · rw [show_history_loop_world_eq]
        cases show_history_loop f0 FSM_HISTORY 0 f0.history_index with
        | none => rfl
        | some lines => rfl
  have hdisp : ∀ (fsm : Option (fsm_t H)) (console : List display_table_t),
      fsm_display_table_world fsm console =
        (fsm_display_table fsm).map (fun d => (fsm, console ++ d.toList)) := by
    intro fsm console
    unfold fsm_display_table_world fsm_display_table
    cases fsm with
    | none => simp
    | some f0 =>
      simp only
      split
      · simp
      · cases f0.state_description_table[f0.curr_state]? with
        | none => rfl
        | some curr =>
          simp only
          rw [display_states_world_eq]
          cases display_states f0 f0.number_states 0 with
          | none => rfl
          | some states => simp
  refine ⟨?_, hget, hshow, hdisp, ?_, ?_, ?_⟩
  · unfold fsm_get_state_world
    simp [hv.1]
  · intro fsm fsm1 p2state p1 rc h
    rw [hget] at h
    cases hr : fsm_get_state fsm p2state with
    | none => rw [hr] at h; exact Option.noConfusion h
    | some r =>
      rw [hr] at h
      simp only [Option.map_some', Option.some.injEq, Prod.mk.injEq] at h
      exact h.2.1.symm
  · intro fsm fsm1 console c1 h
    rw [hshow] at h
    cases hr : fsm_show_history fsm with
    | none => rw [hr] at h; exact Option.noConfusion h
    | some r =>
      rw [hr] at h
      simp only [Option.map_some', Option.some.injEq, Prod.mk.injEq] at h
      exact h.1.symm
  · intro fsm fsm1 console c1 h
    rw [hdisp] at h
    cases hr : fsm_display_table fsm with
    | none => rw [hr] at h; exact Option.noConfusion h
    | some r =>
      rw [hr] at h
      simp only [Option.map_some', Option.some.injEq, Prod.mk.injEq] at h
      exact h.1.symm

theorem fsm_read_only_witness :
    (fsm_valid sample_two ∧
      fsm_show_history_world (some sample_two) [] =
        some (some sample_two,
          [⟨0, some "zero", 0, some "go", 1, some "one", RC_FSM_OK⟩,
           ⟨1, some "one", 3, some "refuse", 1, some "one", RC_FSM_IGNORE_EVENT⟩]) ∧
      (fsm_display_table_world (some demo_fsm) []).map (fun r => (r.1, r.2.length)) =
        some (some demo_fsm, 1)) ∧
    fsm_get_state_world (some sample_two) (some 99) =
      some (RC_FSM_OK, some sample_two, some sample_two.curr_state) ∧
    (∀ (fsm : Option (fsm_t Nat)) (p2state : Option Nat),
      fsm_get_state_world fsm p2state =
        (fsm_get_state fsm p2state).map (fun r => (r.1, fsm, r.2))) ∧
    (∀ (fsm : Option (fsm_t Nat)) (console : List history_line),
      fsm_show_history_world fsm console =
        (fsm_show_history fsm).map (fun lines => (fsm, console ++ lines))) ∧
    (∀ (fsm : Option (fsm_t Nat)) (console : List display_table_t),
      fsm_display_table_world fsm console =
        (fsm_display_table fsm).map (fun d => (fsm, console ++ d.toList))) ∧
    (∀ (fsm fsm1 : Option (fsm_t Nat)) (p2state p1 : Option Nat) (rc : RC_FSM_t),
      fsm_get_state_world fsm p2state = some (rc, fsm1, p1) → fsm1 = fsm) ∧
    (∀ (fsm fsm1 : Option (fsm_t Nat)) (console c1 : List history_line),
      fsm_show_history_world fsm console = some (fsm1, c1) → fsm1 = fsm) ∧
    (∀ (fsm fsm1 : Option (fsm_t Nat)) (console c1 : List display_table_t),
      fsm_display_table_world fsm console = some (fsm1, c1) → fsm1 = fsm) :=
  ⟨⟨by decide, by decide, by decide⟩, fsm_read_only sample_two 99 (by decide)⟩

end EFSM
